import Mathlib

/-!
# Particle system: shallow embedding and verified properties

The embedding follows `src/src/particle.cpp`, `src/src/particle-system.cpp` and
`src/src/camera.cpp`.

Modelling conventions
* `float` is modelled by an arbitrary linearly ordered field `F` (exact arithmetic, no
  rounding, no NaN or infinities).  Every definition is computable and can be evaluated
  at `F := ℚ`.
* Where the accumulation of rounding decides a statement, the rounding of binary32 is made
  explicit: `fl32` is round-to-nearest-even on `ℚ`, and `Particle.updateFl`,
  `Particle.lifeFractionFl` pass the result of every operation through a rounding function.
* `unsigned int` is modelled by `Nat`; the one place where the source increments a stored
  value (`lastParticleSpawned + 1`) carries an explicit `% 2 ^ 32`.
* `std::vector<Particle>` is a `List`; the unchecked `particles[i]` of the source is
  undefined behaviour when out of range, which the embedding reports as `none`.
* `rand()` reads a hidden global generator.  The generator is made explicit as the stream
  of values that the successive calls return.
* `sqrt`, `sin`, `cos` and the constant behind `glm::radians` are parameters (`LibM`); the
  statements that need them assume their real-number laws (`LibM.Exact`), and the closed
  instances take them over `ℝ` (`realMath`, or `realMathPi p` when the constant `pi` is the
  rounded value `p`).
-/

namespace ParticleSim

/-! ## glm helpers -/

/-- Three component vector (`glm::vec3`). -/
@[ext]
structure Vec3 (F : Type) where
  x : F
  y : F
  z : F
deriving DecidableEq, Repr

namespace Vec3

variable {F : Type}

/-- Component-wise sum (`glm::vec3 operator+`). -/
def add [Add F] (a b : Vec3 F) : Vec3 F :=
  ⟨a.x + b.x, a.y + b.y, a.z + b.z⟩

/-- Vector times scalar (`glm::vec3 operator*` with a `float`). -/
def scale [Mul F] (a : Vec3 F) (k : F) : Vec3 F :=
  ⟨a.x * k, a.y * k, a.z * k⟩

instance [Add F] : Add (Vec3 F) := ⟨Vec3.add⟩

instance [Mul F] : HMul (Vec3 F) F (Vec3 F) := ⟨Vec3.scale⟩

/-- Component-wise difference (`glm::vec3 operator-`). -/
def sub [Sub F] (a b : Vec3 F) : Vec3 F :=
  ⟨a.x - b.x, a.y - b.y, a.z - b.z⟩

instance [Sub F] : Sub (Vec3 F) := ⟨Vec3.sub⟩

end Vec3

/-- Two component vector (`glm::vec2`). -/
@[ext]
structure Vec2 (F : Type) where
  x : F
  y : F
deriving DecidableEq, Repr

/-- Four component vector (`glm::vec4`). -/
@[ext]
structure Vec4 (F : Type) where
  x : F
  y : F
  z : F
  w : F
deriving DecidableEq, Repr

/-- The first three components of a four component vector. -/
def Vec4.xyz {F : Type} (v : Vec4 F) : Vec3 F :=
  ⟨v.x, v.y, v.z⟩

/-- Four by four matrix (`glm::mat4`), stored by columns as in `glm`: `c0` is `m[0]`. -/
@[ext]
structure Mat4 (F : Type) where
  c0 : Vec4 F
  c1 : Vec4 F
  c2 : Vec4 F
  c3 : Vec4 F
deriving DecidableEq, Repr

/-- Matrix times column vector (`glm::mat4 operator*` with a `glm::vec4`). -/
def Mat4.mulVec {F : Type} [Add F] [Mul F] (m : Mat4 F) (v : Vec4 F) : Vec4 F :=
  ⟨m.c0.x * v.x + m.c1.x * v.y + m.c2.x * v.z + m.c3.x * v.w,
   m.c0.y * v.x + m.c1.y * v.y + m.c2.y * v.z + m.c3.y * v.w,
   m.c0.z * v.x + m.c1.z * v.y + m.c2.z * v.z + m.c3.z * v.w,
   m.c0.w * v.x + m.c1.w * v.y + m.c2.w * v.z + m.c3.w * v.w⟩

/-- The functions of the C math library that the source reaches through `<cmath>` and
`glm`, taken as parameters: `sqrt`, `sin`, `cos`, and the constant `pi` behind
`glm::radians`. -/
structure LibM (F : Type) where
  sqrt : F → F
  sin : F → F
  cos : F → F
  pi : F

namespace glm

variable {F : Type} [LinearOrderedField F]

/-- The scalar `glm::clamp(x, minVal, maxVal)`, which is `min(max(x, minVal), maxVal)`. -/
def clamp (x minVal maxVal : F) : F :=
  min (max x minVal) maxVal

/-- The scalar `glm::mix(x, y, a)`, which is `x * (1 - a) + y * a`. -/
def mix (x y a : F) : F :=
  x * (1 - a) + y * a

/-- The `glm::vec3` overload `glm::mix(x, y, a)` with a scalar `a`: the scalar formula on
every component. -/
def mixVec (x y : Vec3 F) (a : F) : Vec3 F :=
  ⟨mix x.x y.x a, mix x.y y.y a, mix x.z y.z a⟩

/-- The function `glm::dot` on `glm::vec3`. -/
def dot (a b : Vec3 F) : F :=
  a.x * b.x + a.y * b.y + a.z * b.z

/-- The function `glm::cross`. -/
def cross (a b : Vec3 F) : Vec3 F :=
  ⟨a.y * b.z - b.y * a.z, a.z * b.x - b.z * a.x, a.x * b.y - b.x * a.y⟩

/-- The function `glm::inversesqrt`, which is `1 / sqrt(x)`. -/
def inversesqrt (M : LibM F) (x : F) : F :=
  1 / M.sqrt x

/-- The function `glm::normalize` on `glm::vec3`, which is `v * inversesqrt(dot(v, v))`. -/
def normalize (M : LibM F) (v : Vec3 F) : Vec3 F :=
  v * inversesqrt M (dot v v)

/-- The function `glm::radians`: degrees times the constant `pi / 180`. -/
def radians (M : LibM F) (degrees : F) : F :=
  degrees * (M.pi / 180)

/-- Modelled from the spec: the library function `glm::lookAt(eye, center, up)` that
`Camera::getViewMatrix` calls is not part of the sources; this is the standard right-handed
look-at (the camera looks down the negative `z` axis), the default of `glm`. -/
def lookAt (M : LibM F) (eye center up : Vec3 F) : Mat4 F :=
  let f := normalize M (center - eye)
  let s := normalize M (cross f up)
  let u := cross s f
  { c0 := ⟨s.x, u.x, -f.x, 0⟩
    c1 := ⟨s.y, u.y, -f.y, 0⟩
    c2 := ⟨s.z, u.z, -f.z, 0⟩
    c3 := ⟨-dot s eye, -dot u eye, dot f eye, 1⟩ }

end glm

/-! ## Particle (`particle.h`, `particle.cpp`) -/

/-- The data members of `class Particle`, in declaration order. -/
@[ext]
structure Particle (F : Type) where
  alive : Bool
  position : Vec3 F
  direction : Vec3 F
  initialScale : F
  finalScale : F
  initialColor : Vec3 F
  finalColor : Vec3 F
  initialAlpha : F
  finalAlpha : F
  ttl : F
  liveTime : F
deriving DecidableEq, Repr

namespace Particle

variable {F : Type} [LinearOrderedField F]

/-- The constructor `Particle::Particle()`.  It writes `ttl`, `liveTime` and `alive` only;
the other members keep whatever the storage held, given here by `raw`. -/
def new (raw : Particle F) : Particle F :=
  { raw with ttl := 0, liveTime := 0, alive := false }

/-- The method `Particle::update(deltaTime, externalForce)`. -/
def update (p : Particle F) (deltaTime : F) (externalForce : Vec3 F) : Particle F :=
  -- Reduce its live time
  let p1 : Particle F := { p with ttl := p.ttl - deltaTime }
  -- Checks if the particle still alive
  let p2 : Particle F := { p1 with alive := decide (p1.ttl > 0) }
  if !p2.alive then
    p2
  else
    -- Updates its position
    let p3 : Particle F := { p2 with position := p2.position + p2.direction * deltaTime }
    -- Updates its direction by the influence of a external force
    { p3 with direction := p3.direction + externalForce * deltaTime }

/-- The method `Particle::reset(...)`. -/
def reset (p : Particle F) (liveTime : F) (position direction : Vec3 F)
    (initialScale finalScale : F) (initialColor finalColor : Vec3 F)
    (initialAlpha finalAlpha : F) : Particle F :=
  { p with
    liveTime := liveTime
    ttl := liveTime
    position := position
    direction := direction
    initialScale := initialScale
    finalScale := finalScale
    initialColor := initialColor
    finalColor := finalColor
    initialAlpha := initialAlpha
    finalAlpha := finalAlpha
    alive := true }

/-- The method `Particle::getPosition()`. -/
def getPosition (p : Particle F) : Vec3 F :=
  p.position

/-- A sequence of `update` calls on one particle, each with its own time step and force,
applied from left to right. -/
def updates (p : Particle F) (calls : List (F × Vec3 F)) : Particle F :=
  calls.foldl (fun q c => q.update c.1 c.2) p

/-- One call on a particle: `reset` with its nine arguments, or `update`. -/
inductive Call (F : Type) where
  | reset (liveTime : F) (position direction : Vec3 F) (initialScale finalScale : F)
      (initialColor finalColor : Vec3 F) (initialAlpha finalAlpha : F)
  | update (deltaTime : F) (externalForce : Vec3 F)

/-- Perform one call on a particle. -/
def call (p : Particle F) : Call F → Particle F
  | .reset l pos dir s0 s1 c0 c1 a0 a1 => p.reset l pos dir s0 s1 c0 c1 a0 a1
  | .update dt f => p.update dt f

/-- Perform a sequence of calls on a particle from left to right. -/
def calls (p : Particle F) (cs : List (Call F)) : Particle F :=
  cs.foldl call p

/-- The calls that respect the caller contract: a `reset` passes a positive `liveTime`, an
`update` passes a time step that is not negative. -/
def Call.inContract : Call F → Prop
  | .reset l _ _ _ _ _ _ _ _ => 0 < l
  | .update dt _ => 0 ≤ dt

end Particle

/-! ## Random sampling helpers (`particle-system.cpp`) -/

/-- The hidden state of the C library generator, made explicit: the stream of the values
that the successive `rand()` calls return. -/
abbrev RandSrc := Nat → Nat

/-- One call of `rand()`: the head of the stream is returned, the tail is the new state. -/
def rand (g : RandSrc) : Nat × RandSrc :=
  (g 0, fun n => g (n + 1))

section Sampling

variable {F : Type} [LinearOrderedField F]

/-- The scalar overload `randomValue(baseValue, variance)`.  The constant `RAND_MAX` of the C
library is a parameter. -/
def randomValue (RAND_MAX : Nat) (baseValue variance : F) (g : RandSrc) : F × RandSrc :=
  let r := rand g
  let random : F := (r.1 : F) / (RAND_MAX : F) * 2 - 1
  (baseValue + variance * random, r.2)

/-- The `glm::vec3` overload `randomValue(baseValue, variance)`: one scalar call per axis.
C++ leaves the order in which the three arguments are evaluated open; the embedding
draws for `x`, then `y`, then `z`. -/
def randomValueVec (RAND_MAX : Nat) (baseValue variance : Vec3 F) (g : RandSrc) :
    Vec3 F × RandSrc :=
  let rx := randomValue RAND_MAX baseValue.x variance.x g
  let ry := randomValue RAND_MAX baseValue.y variance.y rx.2
  let rz := randomValue RAND_MAX baseValue.z variance.z ry.2
  (⟨rx.1, ry.1, rz.1⟩, rz.2)

/-- The scalar overload `randomValueInterpolated(min, max)`. -/
def randomValueInterpolated (RAND_MAX : Nat) (min max : F) (g : RandSrc) : F × RandSrc :=
  let r := rand g
  let random : F := (r.1 : F) / (RAND_MAX : F)
  (glm.mix min max random, r.2)

/-- The `glm::vec3` overload `randomValueInterpolated(min, max)`: one scalar call, hence one
`rand()` draw, per axis (drawn for `x`, then `y`, then `z`). -/
def randomValueInterpolatedVec (RAND_MAX : Nat) (min max : Vec3 F) (g : RandSrc) :
    Vec3 F × RandSrc :=
  let rx := randomValueInterpolated RAND_MAX min.x max.x g
  let ry := randomValueInterpolated RAND_MAX min.y max.y rx.2
  let rz := randomValueInterpolated RAND_MAX min.z max.z ry.2
  (⟨rx.1, ry.1, rz.1⟩, rz.2)

end Sampling

/-! ## ParticleSystem (`particle-system.h`, `particle-system.cpp`) -/

/-- The data members of `class ParticleSystem`, in declaration order.  The `camera` pointer
is left out: it is only handed on to `Particle::draw`. -/
structure ParticleSystem (F : Type) where
  ttl : F
  position : Vec3 F
  positionVariance : Vec3 F
  initialScale : F
  finalScale : F
  scaleVariance : F
  direction : Vec3 F
  directionVariance : Vec3 F
  minBaseColor : Vec3 F
  maxBaseColor : Vec3 F
  minFinalColor : Vec3 F
  maxFinalColor : Vec3 F
  initialAlpha : F
  finalAlpha : F
  alphaVariance : F
  maxAmountofParticles : Nat
  particlesPerSpawn : Nat
  spawnInterval : F
  timeSinceLastSpawn : F
  lastParticleSpawned : Nat
  globalExternalForce : Vec3 F
  particles : List (Particle F)

namespace ParticleSystem

variable {F : Type} [LinearOrderedField F]

/-- The constructor `ParticleSystem::ParticleSystem(maxAmountOfParticles, camera)`.  It writes
the capacity, the spawn clock and the cursor, and sizes the pool with default constructed
particles.  Every member it does not write keeps the content of `raw`, and slot `i` of the
pool is built over the storage content `rawSlot i`. -/
def new (maxAmountOfParticles : Nat) (raw : ParticleSystem F) (rawSlot : Nat → Particle F) :
    ParticleSystem F :=
  { raw with
    maxAmountofParticles := maxAmountOfParticles
    timeSinceLastSpawn := 0
    lastParticleSpawned := 0
    particles := (List.range maxAmountOfParticles).map (fun i => Particle.new (rawSlot i)) }

/-- The setter `ParticleSystem::setParticleSpawns(numberOfParticles, spawnInterval)`. -/
def setParticleSpawns (s : ParticleSystem F) (numberOfParticles : Nat) (spawnInterval : F) :
    ParticleSystem F :=
  { s with particlesPerSpawn := numberOfParticles, spawnInterval := spawnInterval }

/-- The setter `ParticleSystem::setTTL(ttl)`. -/
def setTTL (s : ParticleSystem F) (ttl : F) : ParticleSystem F :=
  { s with ttl := ttl }

/-- The setter `ParticleSystem::setPosition(position, variance)`. -/
def setPosition (s : ParticleSystem F) (position variance : Vec3 F) : ParticleSystem F :=
  { s with position := position, positionVariance := variance }

/-- The setter `ParticleSystem::setScale(initialScale, finalScale, variance)`. -/
def setScale (s : ParticleSystem F) (initialScale finalScale variance : F) :
    ParticleSystem F :=
  { s with initialScale := initialScale, finalScale := finalScale, scaleVariance := variance }

/-- The setter `ParticleSystem::setDirection(direction, variance)`. -/
def setDirection (s : ParticleSystem F) (direction variance : Vec3 F) : ParticleSystem F :=
  { s with direction := direction, directionVariance := variance }

/-- The setter `ParticleSystem::setColor(minBaseColor, maxBaseColor, minFinalColor,
maxFinalColor)`. -/
def setColor (s : ParticleSystem F) (minBaseColor maxBaseColor minFinalColor
    maxFinalColor : Vec3 F) : ParticleSystem F :=
  { s with
    minBaseColor := minBaseColor
    maxBaseColor := maxBaseColor
    minFinalColor := minFinalColor
    maxFinalColor := maxFinalColor }

/-- The setter `ParticleSystem::setAplha(initialAlpha, finalAlpha, variance)` (spelled as in
the source). -/
def setAplha (s : ParticleSystem F) (initialAlpha finalAlpha variance : F) :
    ParticleSystem F :=
  { s with
    initialAlpha := glm.clamp initialAlpha 0 1
    finalAlpha := glm.clamp finalAlpha 0 1
    alphaVariance := glm.clamp variance 0 1 }

/-- The setter `ParticleSystem::setGlobalExternalForce(globalExternalForce)`. -/
def setGlobalExternalForce (s : ParticleSystem F) (globalExternalForce : Vec3 F) :
    ParticleSystem F :=
  { s with globalExternalForce := globalExternalForce }

/-- The method `ParticleSystem::spawnParticle(index)`.  The result is `none` when `index` is
outside the pool, where the unchecked `particles[index]` of the source has no defined
behaviour. -/
def spawnParticle (RAND_MAX : Nat) (index : Nat) (s : ParticleSystem F) (g : RandSrc) :
    Option (ParticleSystem F × RandSrc) :=
  -- Creates a new random position
  let newPosition := randomValueVec RAND_MAX s.position s.positionVariance g
  -- Creates a new random direction
  let newDirection := randomValueVec RAND_MAX s.direction s.directionVariance newPosition.2
  -- Creates a new random initial and final scale
  let newInitialScale := randomValue RAND_MAX s.initialScale s.scaleVariance newDirection.2
  let newFinalScale := randomValue RAND_MAX s.finalScale s.scaleVariance newInitialScale.2
  -- Creates a new random initial and final color
  let newInitialColor :=
    randomValueInterpolatedVec RAND_MAX s.minBaseColor s.maxBaseColor newFinalScale.2
  let newFinalColor :=
    randomValueInterpolatedVec RAND_MAX s.minFinalColor s.maxFinalColor newInitialColor.2
  -- Creates a new random initial and final alpha
  let initialAlphaDraw := randomValue RAND_MAX s.initialAlpha s.alphaVariance newFinalColor.2
  let newInitialAlpha := glm.clamp initialAlphaDraw.1 0 1
  let finalAlphaDraw := randomValue RAND_MAX s.finalAlpha s.alphaVariance initialAlphaDraw.2
  let newFinalAlpha := glm.clamp finalAlphaDraw.1 0 1
  -- Resets the given particle from the particles array
  match s.particles[index]? with
  | none => none
  | some p =>
    some ({ s with
            particles := s.particles.set index
              (p.reset s.ttl newPosition.1 newDirection.1 newInitialScale.1 newFinalScale.1
                newInitialColor.1 newFinalColor.1 newInitialAlpha newFinalAlpha) },
          finalAlphaDraw.2)

/-- The loop of `ParticleSystem::spawnParticles()` with `n` iterations left: spawn the slot
under the cursor, then move the cursor to `(lastParticleSpawned + 1) % maxAmountofParticles`
in `unsigned int` arithmetic. -/
def spawnParticlesLoop (RAND_MAX : Nat) :
    Nat → ParticleSystem F → RandSrc → Option (ParticleSystem F × RandSrc)
  | 0, s, g => some (s, g)
  | n + 1, s, g =>
    match spawnParticle RAND_MAX s.lastParticleSpawned s g with
    | none => none
    | some r =>
      spawnParticlesLoop RAND_MAX n
        { r.1 with
          lastParticleSpawned :=
            ((r.1.lastParticleSpawned + 1) % 4294967296) % r.1.maxAmountofParticles }
        r.2

/-- The method `ParticleSystem::spawnParticles()`: the loop runs `particlesPerSpawn` times. -/
def spawnParticles (RAND_MAX : Nat) (s : ParticleSystem F) (g : RandSrc) :
    Option (ParticleSystem F × RandSrc) :=
  spawnParticlesLoop RAND_MAX s.particlesPerSpawn s g

/-- The last loop of `ParticleSystem::update`, with `n` iterations left and loop counter `i`:
`particles[i].update(deltaTime, globalExternalForce)`.  An index outside the pool gives
`none`. -/
def updateLoop (deltaTime : F) (force : Vec3 F) :
    Nat → Nat → List (Particle F) → Option (List (Particle F))
  | 0, _, ps => some ps
  | n + 1, i, ps =>
    match ps[i]? with
    | none => none
    | some p => updateLoop deltaTime force n (i + 1) (ps.set i (p.update deltaTime force))

/-- The method `ParticleSystem::update(deltaTime)`. -/
def update (RAND_MAX : Nat) (deltaTime : F) (s : ParticleSystem F) (g : RandSrc) :
    Option (ParticleSystem F × RandSrc) :=
  -- Increase the time since the last particles spawn
  let s1 : ParticleSystem F := { s with timeSinceLastSpawn := s.timeSinceLastSpawn + deltaTime }
  -- Spawns a new set of particles
  let spawned : Option (ParticleSystem F × RandSrc) :=
    if s1.timeSinceLastSpawn ≥ s1.spawnInterval then
      match spawnParticles RAND_MAX s1 g with
      | none => none
      | some r => some ({ r.1 with timeSinceLastSpawn := 0 }, r.2)
    else
      some (s1, g)
  -- Updates each particles
  match spawned with
  | none => none
  | some r =>
    match updateLoop deltaTime r.1.globalExternalForce r.1.maxAmountofParticles 0
        r.1.particles with
    | none => none
    | some ps => some ({ r.1 with particles := ps }, r.2)

/-- One call on the public interface of a particle system: a setter or `update`. -/
inductive Call (F : Type) where
  | setParticleSpawns (numberOfParticles : Nat) (spawnInterval : F)
  | setTTL (ttl : F)
  | setPosition (position variance : Vec3 F)
  | setDirection (direction variance : Vec3 F)
  | setScale (initialScale finalScale variance : F)
  | setColor (minBaseColor maxBaseColor minFinalColor maxFinalColor : Vec3 F)
  | setAplha (initialAlpha finalAlpha variance : F)
  | setGlobalExternalForce (globalExternalForce : Vec3 F)
  | update (deltaTime : F)

/-- Perform one interface call. -/
def call (RAND_MAX : Nat) (s : ParticleSystem F) (g : RandSrc) :
    Call F → Option (ParticleSystem F × RandSrc)
  | .setParticleSpawns n iv => some (s.setParticleSpawns n iv, g)
  | .setTTL t => some (s.setTTL t, g)
  | .setPosition p v => some (s.setPosition p v, g)
  | .setDirection d v => some (s.setDirection d v, g)
  | .setScale a b v => some (s.setScale a b v, g)
  | .setColor a b c d => some (s.setColor a b c d, g)
  | .setAplha a b v => some (s.setAplha a b v, g)
  | .setGlobalExternalForce f => some (s.setGlobalExternalForce f, g)
  | .update dt => s.update RAND_MAX dt g

/-- Perform a sequence of interface calls from left to right. -/
def calls (RAND_MAX : Nat) (s : ParticleSystem F) (g : RandSrc) :
    List (Call F) → Option (ParticleSystem F × RandSrc)
  | [] => some (s, g)
  | c :: cs =>
    match call RAND_MAX s g c with
    | none => none
    | some r => calls RAND_MAX r.1 r.2 cs

/-- Perform `k` spawn bursts in a row. -/
def bursts (RAND_MAX : Nat) : Nat → ParticleSystem F → RandSrc →
    Option (ParticleSystem F × RandSrc)
  | 0, s, g => some (s, g)
  | k + 1, s, g =>
    match spawnParticles RAND_MAX s g with
    | none => none
    | some r => bursts RAND_MAX k r.1 r.2

end ParticleSystem

/-! ## Camera (`camera.h`, `camera.cpp`) -/

/-- The movement directions of `enum CameraDirection`. -/
inductive CameraDirection where
  | FRONT
  | BACK
  | LEFT
  | RIGHT
deriving DecidableEq, Repr

/-- The data members of `class Camera`, in declaration order.  The method
`getProjectionMatrix` (a call of `glm::perspective`) is not embedded; no statement below is
about it. -/
@[ext]
structure Camera (F : Type) where
  position : Vec3 F
  upVector : Vec3 F
  frontVector : Vec3 F
  rightVector : Vec3 F
  fov : F
  nearClippingPlane : F
  farClippingPlane : F
  movementSpeed : F
  sensitivity : F
  yawAngle : F
  pitchAngle : F

namespace Camera

variable {F : Type} [LinearOrderedField F]

/-- The constructor `Camera::Camera(position, fov, nearClippingPlane, farClippingPlane,
movementSpeed, sensitivity)`. -/
def new (M : LibM F) (position : Vec3 F)
    (fov nearClippingPlane farClippingPlane movementSpeed sensitivity : F) : Camera F :=
  { position := position
    fov := fov
    nearClippingPlane := nearClippingPlane
    farClippingPlane := farClippingPlane
    movementSpeed := movementSpeed
    sensitivity := sensitivity
    upVector := ⟨0, 1, 0⟩
    frontVector := ⟨0, 0, -1⟩
    -- The right vector is perpendicular to the up vector and the front vector
    rightVector := glm.normalize M (glm.cross ⟨0, 0, -1⟩ ⟨0, 1, 0⟩)
    yawAngle := -90
    pitchAngle := 0 }

/-- The method `Camera::moveCamera(direction, deltaTime)`. -/
def moveCamera (c : Camera F) (direction : CameraDirection) (deltaTime : F) : Camera F :=
  let currentSpeed := deltaTime * c.movementSpeed
  match direction with
  | .FRONT => { c with position := c.position + c.frontVector * currentSpeed }
  | .BACK => { c with position := c.position - c.frontVector * currentSpeed }
  | .LEFT => { c with position := c.position - c.rightVector * currentSpeed }
  | .RIGHT => { c with position := c.position + c.rightVector * currentSpeed }

/-- The method `Camera::lookAround(mouseDelta)`.  The calls `glm::max<float>` and
`glm::min<float>` are the maximum and minimum of the order. -/
def lookAround (M : LibM F) (c : Camera F) (mouseDelta : Vec2 F) : Camera F :=
  let c1 : Camera F := { c with yawAngle := c.yawAngle + mouseDelta.x * c.sensitivity }
  let c2 : Camera F := { c1 with pitchAngle := c1.pitchAngle + mouseDelta.y * c1.sensitivity }
  -- Cap the pitch angle between [-89.0f, 89.0f]
  let c3 : Camera F := { c2 with pitchAngle := max (-89) (min 89 c2.pitchAngle) }
  let yawRadians := glm.radians M c3.yawAngle
  let pitchRadians := glm.radians M c3.pitchAngle
  -- Calculate the front vector from the Euler angles
  let c4 : Camera F :=
    { c3 with
      frontVector :=
        ⟨M.cos yawRadians * M.cos pitchRadians, M.sin pitchRadians,
          M.sin yawRadians * M.cos pitchRadians⟩ }
  let c5 : Camera F := { c4 with frontVector := glm.normalize M c4.frontVector }
  let upWorld : Vec3 F := ⟨0, 1, 0⟩
  -- Re-calculate the right and up vector
  let c6 : Camera F :=
    { c5 with rightVector := glm.normalize M (glm.cross c5.frontVector upWorld) }
  { c6 with upVector := glm.normalize M (glm.cross c6.rightVector c6.frontVector) }

/-- The method `Camera::getViewMatrix()`. -/
def getViewMatrix (M : LibM F) (c : Camera F) : Mat4 F :=
  glm.lookAt M c.position (c.position + c.frontVector) c.upVector

/-- The method `Camera::getPosition()`. -/
def getPosition (c : Camera F) : Vec3 F :=
  c.position

/-- The method `Camera::getFrontVector()`. -/
def getFrontVector (c : Camera F) : Vec3 F :=
  c.frontVector

/-- The method `Camera::getUpVector()`. -/
def getUpVector (c : Camera F) : Vec3 F :=
  c.upVector

/-- The method `Camera::getRightVector()`. -/
def getRightVector (c : Camera F) : Vec3 F :=
  c.rightVector

/-- The method `Camera::resetPosition(position)`. -/
def resetPosition (M : LibM F) (c : Camera F) (position : Vec3 F) : Camera F :=
  { c with
    position := position
    upVector := ⟨0, 1, 0⟩
    frontVector := ⟨0, 0, -1⟩
    -- The right vector is perpendicular to the up vector and the front vector
    rightVector := glm.normalize M (glm.cross ⟨0, 0, -1⟩ ⟨0, 1, 0⟩)
    yawAngle := -90
    pitchAngle := 0 }

/-- One call on the public interface of a camera that changes it. -/
inductive Call (F : Type) where
  | moveCamera (direction : CameraDirection) (deltaTime : F)
  | lookAround (mouseDelta : Vec2 F)
  | resetPosition (position : Vec3 F)

/-- Perform one call on a camera. -/
def call (M : LibM F) (c : Camera F) : Call F → Camera F
  | .moveCamera d dt => c.moveCamera d dt
  | .lookAround delta => c.lookAround M delta
  | .resetPosition pos => c.resetPosition M pos

/-- Perform a sequence of calls on a camera from left to right. -/
def calls (M : LibM F) (c : Camera F) (cs : List (Call F)) : Camera F :=
  cs.foldl (call M) c

end Camera

/-! ## Particle rendering (`particle.cpp`) -/

/-- The uniform names that `Particle::draw` passes to the shader: the strings `model`,
`scale` and `color`. -/
inductive UniformName where
  | model
  | scale
  | color
deriving DecidableEq, Repr

/-- The calls that drawing sends to the shader and to the graphics library. -/
inductive RenderCall (F : Type) where
  | setMat4 (name : UniformName) (mat : Mat4 F)
  | setFloat (name : UniformName) (value : F)
  | setVec4 (name : UniformName) (value : Vec4 F)
  | bindVertexArray (vao : Nat)
  | drawArrays (first count : Nat)

namespace Particle

variable {F : Type} [LinearOrderedField F]

/-- The life fraction `t` that `Particle::draw` computes first:
`glm::clamp(1.0f - ttl / liveTime, 0.0f, 1.0f)`. -/
def lifeFraction (p : Particle F) : F :=
  glm.clamp (1 - p.ttl / p.liveTime) 0 1

/-- The method `Particle::computeBillBoardMatrix(camera)`. -/
def computeBillBoardMatrix (M : LibM F) (p : Particle F) (camera : Camera F) : Mat4 F :=
  -- the vector that goes towards the camera from the particle position
  let billBoardFrontVector := glm.normalize M (camera.getPosition - p.position)
  -- the right vector, using as input the camera up vector
  let billBoardRightVector :=
    glm.normalize M (glm.cross camera.getUpVector billBoardFrontVector)
  -- the up vector of the billboard, recomputed
  let billBoardUpVector :=
    glm.normalize M (glm.cross billBoardFrontVector billBoardRightVector)
  { c0 := ⟨billBoardRightVector.x, billBoardRightVector.y, billBoardRightVector.z, 0⟩
    c1 := ⟨billBoardUpVector.x, billBoardUpVector.y, billBoardUpVector.z, 0⟩
    c2 := ⟨billBoardFrontVector.x, billBoardFrontVector.y, billBoardFrontVector.z, 0⟩
    c3 := ⟨p.position.x, p.position.y, p.position.z, 1⟩ }

/-- The method `Particle::draw(shader, camera)`: the list of the calls it makes on the
shader, in order; the list is empty for a dead particle. -/
def draw (M : LibM F) (p : Particle F) (camera : Camera F) : List (RenderCall F) :=
  if !p.alive then
    []
  else
    -- Computes its remaining live fraction
    let t := p.lifeFraction
    let currentScale := glm.mix p.initialScale p.finalScale t
    let alpha := glm.mix p.initialAlpha p.finalAlpha t
    let currentColor := glm.mixVec p.initialColor p.finalColor t
    [ RenderCall.setMat4 UniformName.model (p.computeBillBoardMatrix M camera),
      RenderCall.setFloat UniformName.scale currentScale,
      RenderCall.setVec4 UniformName.color
        ⟨currentColor.x, currentColor.y, currentColor.z, alpha⟩ ]

end Particle

/-! ## ParticleSystem drawing (`particle-system.cpp`) -/

namespace ParticleSystem

variable {F : Type} [LinearOrderedField F]

/-- The loop of `ParticleSystem::draw` with `n` iterations left and loop counter `i`: the
calls made by `particles[i].draw(shader, camera)`, followed by
`glDrawArrays(GL_TRIANGLE_FAN, 0, 4)`.  An index outside the pool gives `none`. -/
def drawLoop (M : LibM F) (camera : Camera F) :
    Nat → Nat → List (Particle F) → Option (List (RenderCall F))
  | 0, _, _ => some []
  | n + 1, i, ps =>
    match ps[i]? with
    | none => none
    | some p =>
      match drawLoop M camera n (i + 1) ps with
      | none => none
      | some rest => some (p.draw M camera ++ RenderCall.drawArrays 0 4 :: rest)

/-- The method `ParticleSystem::draw(shader, quadVAO)`: the list of the calls it makes on the
shader and on the graphics library, in order.  The camera behind the stored pointer is an
argument. -/
def draw (M : LibM F) (s : ParticleSystem F) (camera : Camera F) (quadVAO : Nat) :
    Option (List (RenderCall F)) :=
  -- Binds the particles geometry
  match drawLoop M camera s.maxAmountofParticles 0 s.particles with
  | none => none
  | some body =>
    some (RenderCall.bindVertexArray quadVAO :: body ++ [RenderCall.bindVertexArray 0])

end ParticleSystem

/-- Whether a call is `glDrawArrays`. -/
def RenderCall.isDrawArrays {F : Type} : RenderCall F → Bool
  | .drawArrays _ _ => true
  | _ => false

/-! ## Rounding of `float` (IEEE 754 binary32)

Where a statement depends on the accumulation of rounding, the rounding is made explicit:
`fl32` sends the exact result of an operation to the binary32 number that is stored, and
`Particle.updateFl`, `Particle.lifeFractionFl` are `Particle::update` and the life fraction
of `Particle::draw` with the result of every arithmetic operation passed through a rounding
function `fl`.  With `fl := id` they are the exact `Particle.update` and
`Particle.lifeFraction`. -/

/-- The power `2 ^ e` for an integer exponent `e`. -/
def pow2 (e : ℤ) : ℚ :=
  if 0 ≤ e then ((2 ^ e.toNat : ℕ) : ℚ) else 1 / ((2 ^ (-e).toNat : ℕ) : ℚ)

/-- The number of binary digits of `n`, found with at most `fuel` halvings (`fuel := n` is
always enough). -/
def bitLength : Nat → Nat → Nat
  | 0, _ => 0
  | fuel + 1, n => if n = 0 then 0 else bitLength fuel (n / 2) + 1

/-- The binary exponent of `x ≠ 0`: the integer `e` with `2 ^ e ≤ |x| < 2 ^ (e + 1)`.  The
difference of the digit counts of numerator and denominator is `e` or `e + 1`. -/
def floorLog2 (x : ℚ) : ℤ :=
  let d : ℤ := (bitLength x.num.natAbs x.num.natAbs : ℤ) - (bitLength x.den x.den : ℤ)
  if pow2 d ≤ |x| then d else d - 1

/-- Rounding to the nearest integer, a tie going to the even neighbour. -/
def roundHalfEven (y : ℚ) : ℤ :=
  let f : ℤ := ⌊y⌋
  let r : ℚ := y - f
  if r < 1 / 2 then f
  else if 1 / 2 < r then f + 1
  else if f % 2 = 0 then f else f + 1

/-- Rounding to binary32 in the default mode of IEEE 754 (round to nearest, ties to even):
24 significant binary digits, smallest normal exponent `-126`, so the spacing of the
binary32 numbers around `x` is `2 ^ (max e (-126) - 23)` for the binary exponent `e` of `x`.
Overflow to infinity, the sign of zero and NaN are outside this function. -/
def fl32 (x : ℚ) : ℚ :=
  if x = 0 then 0
  else
    let e : ℤ := max (floorLog2 x) (-126)
    let q : ℚ := pow2 (e - 23)
    (roundHalfEven (x / q) : ℚ) * q

/-- Apply a function to the three components of a vector. -/
def Vec3.map {F : Type} (g : F → F) (a : Vec3 F) : Vec3 F :=
  ⟨g a.x, g a.y, g a.z⟩

namespace Particle

variable {F : Type} [LinearOrderedField F]

/-- The method `Particle::update(deltaTime, externalForce)` with the rounding explicit: the
result of every `float` operation is passed through `fl` before it is stored or used. -/
def updateFl (fl : F → F) (p : Particle F) (deltaTime : F) (externalForce : Vec3 F) :
    Particle F :=
  -- Reduce its live time
  let p1 : Particle F := { p with ttl := fl (p.ttl - deltaTime) }
  -- Checks if the particle still alive
  let p2 : Particle F := { p1 with alive := decide (p1.ttl > 0) }
  if !p2.alive then
    p2
  else
    -- Updates its position
    let p3 : Particle F :=
      { p2 with position := (p2.position + (p2.direction * deltaTime).map fl).map fl }
    -- Updates its direction by the influence of a external force
    { p3 with direction := (p3.direction + (externalForce * deltaTime).map fl).map fl }

/-- A sequence of `update` calls with the rounding explicit, applied from left to right. -/
def updatesFl (fl : F → F) (p : Particle F) (calls : List (F × Vec3 F)) : Particle F :=
  calls.foldl (fun q c => q.updateFl fl c.1 c.2) p

/-- The life fraction `glm::clamp(1.0f - ttl / liveTime, 0.0f, 1.0f)` of `Particle::draw`
with the rounding explicit: the quotient is rounded, then the difference. -/
def lifeFractionFl (fl : F → F) (p : Particle F) : F :=
  glm.clamp (fl (1 - fl (p.ttl / p.liveTime))) 0 1

end Particle

/-! ## Predicates used in the statements -/

/-- The property kept by every call inside the caller contract: a particle that is alive,
or that still has time to live, has a positive `liveTime`. -/
def Particle.LiveTimeOk {F : Type} [LinearOrderedField F] (p : Particle F) : Prop :=
  (p.alive = true → 0 < p.liveTime) ∧ (0 < p.ttl → 0 < p.liveTime)

/-- The pool has exactly `maxAmountofParticles` slots and the cursor points into it. -/
def ParticleSystem.Inv {F : Type} (s : ParticleSystem F) : Prop :=
  s.particles.length = s.maxAmountofParticles ∧ s.lastParticleSpawned < s.maxAmountofParticles

/-- Slot `j` is one of the `n` slots that a burst starting at cursor `c` walks over in a
pool of `N` slots. -/
def Hit (N c n j : Nat) : Prop :=
  ∃ i, i < n ∧ (c + i) % N = j

/-- The real-number laws of the math library functions that the statements on the camera
and on the billboard rely on. -/
structure LibM.Exact {F : Type} [LinearOrderedField F] (M : LibM F) : Prop where
  pi_pos : 0 < M.pi
  sqrt_nonneg : ∀ x, 0 ≤ M.sqrt x
  sqrt_mul_self : ∀ x, 0 ≤ x → M.sqrt x * M.sqrt x = x
  sin_sq_add_cos_sq : ∀ x, M.sin x * M.sin x + M.cos x * M.cos x = 1
  cos_pos : ∀ x, -(M.pi / 2) < x → x < M.pi / 2 → 0 < M.cos x

/-- The vectors `a`, `b`, `c` are unit length, pairwise orthogonal and `cross a b = c`. -/
def RightHanded {F : Type} [LinearOrderedField F] (a b c : Vec3 F) : Prop :=
  glm.dot a a = 1 ∧ glm.dot b b = 1 ∧ glm.dot c c = 1 ∧
    glm.dot a b = 0 ∧ glm.dot a c = 0 ∧ glm.dot b c = 0 ∧ glm.cross a b = c

/-- The basis invariant of a camera: `front`, `up`, `right` are unit length, pairwise
orthogonal and `cross(front, up) = right`. -/
def Camera.Basis {F : Type} [LinearOrderedField F] (c : Camera F) : Prop :=
  RightHanded c.frontVector c.upVector c.rightVector


/-- The value `x` lies within `|variance|` of `base`. -/
def InRange {F : Type} [LinearOrderedField F] (x base variance : F) : Prop :=
  base - |variance| ≤ x ∧ x ≤ base + |variance|

/-- Every component of `v` lies within the variance of that axis around the base. -/
def Vec3.InRange {F : Type} [LinearOrderedField F] (v base variance : Vec3 F) : Prop :=
  ParticleSim.InRange v.x base.x variance.x ∧ ParticleSim.InRange v.y base.y variance.y ∧
    ParticleSim.InRange v.z base.z variance.z

/-- The next `update(dt)` respawns slot `j`: the increased clock reaches the spawn interval
and the burst walks over `j`. -/
def ParticleSystem.Respawns {F : Type} [LinearOrderedField F] (s : ParticleSystem F) (dt : F)
    (j : Nat) : Prop :=
  s.spawnInterval ≤ s.timeSinceLastSpawn + dt ∧
    Hit s.maxAmountofParticles s.lastParticleSpawned s.particlesPerSpawn j

/-- The setters of the emitter configuration: every setter except
`setGlobalExternalForce`. -/
def ParticleSystem.Call.isEmitterSetter {F : Type} : ParticleSystem.Call F → Bool
  | .update _ => false
  | .setGlobalExternalForce _ => false
  | _ => true

/-- The calls whose time step, if any, is not negative. -/
def ParticleSystem.Call.nonnegStep {F : Type} [LinearOrderedField F] :
    ParticleSystem.Call F → Prop
  | .update dt => 0 ≤ dt
  | _ => True

/-- Every component of `a` lies within `tol` of the same component of `b`. -/
def Vec3.Near {F : Type} [LinearOrderedField F] (tol : F) (a b : Vec3 F) : Prop :=
  |a.x - b.x| ≤ tol ∧ |a.y - b.y| ≤ tol ∧ |a.z - b.z| ≤ tol

/-- The camera `a` has the yaw, pitch, position and up vector of `b`, and its front and right
vectors lie within `tol` of those of `b` in every component. -/
def Camera.SameUpTo {F : Type} [LinearOrderedField F] (tol : F) (a b : Camera F) : Prop :=
  a.yawAngle = b.yawAngle ∧ a.pitchAngle = b.pitchAngle ∧ a.position = b.position ∧
    a.upVector = b.upVector ∧ Vec3.Near tol a.frontVector b.frontVector ∧
    Vec3.Near tol a.rightVector b.rightVector

/-! ## Sample values used by the closed instances -/

/-- The zero vector over the rationals. -/
def zeroVec : Vec3 ℚ := ⟨0, 0, 0⟩

/-- A storage content over the rationals with every member zero. -/
def rawParticle : Particle ℚ :=
  { alive := false, position := zeroVec, direction := zeroVec, initialScale := 0,
    finalScale := 0, initialColor := zeroVec, finalColor := zeroVec, initialAlpha := 0,
    finalAlpha := 0, ttl := 0, liveTime := 0 }

/-- A particle over the rationals with `ttl = 2` that moves along `(1, 2, 3)`. -/
def movingParticle : Particle ℚ :=
  { rawParticle with ttl := 2, direction := ⟨1, 2, 3⟩ }

/-- A storage content for a whole system over the rationals, with every member zero and an
empty pool. -/
def rawSystem : ParticleSystem ℚ :=
  { ttl := 0, position := zeroVec, positionVariance := zeroVec, initialScale := 0,
    finalScale := 0, scaleVariance := 0, direction := zeroVec, directionVariance := zeroVec,
    minBaseColor := zeroVec, maxBaseColor := zeroVec, minFinalColor := zeroVec,
    maxFinalColor := zeroVec, initialAlpha := 0, finalAlpha := 0, alphaVariance := 0,
    maxAmountofParticles := 0, particlesPerSpawn := 0, spawnInterval := 0,
    timeSinceLastSpawn := 0, lastParticleSpawned := 0, globalExternalForce := zeroVec,
    particles := [] }

/-- A generator whose every draw is `0`. -/
def zeroRand : RandSrc := fun _ => 0

/-- A system over the rationals, constructed with capacity `N` and configured with
`setParticleSpawns(p, interval)` and `setTTL(ttl)`. -/
def sampleSystem (N p : Nat) (interval ttl : ℚ) : ParticleSystem ℚ :=
  ((ParticleSystem.new N rawSystem (fun _ => rawParticle)).setParticleSpawns p interval).setTTL
    ttl

/-- The math library over the real numbers. -/
noncomputable def realMath : LibM ℝ :=
  { sqrt := Real.sqrt, sin := Real.sin, cos := Real.cos, pi := Real.pi }

/-- The camera of the scenario: constructed over the real numbers at `(0, 0, 5)`. -/
noncomputable def sampleCamera : Camera ℝ :=
  Camera.new realMath ⟨0, 0, 5⟩ 45 (1 / 10) 100 5 (1 / 10)

/-- The math library over the real numbers with `p` in the place of the constant `pi` behind
`glm::radians`: `sqrt`, `sin` and `cos` are exact, the conversion of degrees uses `p`. -/
noncomputable def realMathPi (p : ℝ) : LibM ℝ :=
  { sqrt := Real.sqrt, sin := Real.sin, cos := Real.cos, pi := p }

/-- The binary32 number nearest to `pi`, `3.1415927410125732`.  With it `glm.radians` sends
`-90` to `-13176795 / 8388608 = -1.5707963705062866`, the binary32 number that the source
computes for `radians(-90.0f)`. -/
noncomputable def binary32Pi : ℝ := 13176795 / 4194304

/-- The camera of the scenario constructed with the binary32 value of `pi`. -/
noncomputable def binary32Camera : Camera ℝ :=
  Camera.new (realMathPi binary32Pi) ⟨0, 0, 5⟩ 45 (1 / 10) 100 5 (1 / 10)

/-- A live particle over the real numbers at half of its life: `ttl = 1` of `liveTime = 2`,
scale from `1` to `3`, colour from black to white, alpha from `1` to `1/2`. -/
noncomputable def fadingParticle : Particle ℝ :=
  { alive := true, position := ⟨0, 0, 0⟩, direction := ⟨0, 1, 0⟩, initialScale := 1,
    finalScale := 3, initialColor := ⟨0, 0, 0⟩, finalColor := ⟨1, 1, 1⟩, initialAlpha := 1,
    finalAlpha := 1 / 2, ttl := 1, liveTime := 2 }

/-- A particle over the real numbers at `(0, 4, 5)`, straight above the sample camera along
the up vector of the camera. -/
noncomputable def overheadParticle : Particle ℝ :=
  { fadingParticle with position := ⟨0, 4, 5⟩ }

/-- A generator whose ninth draw, the one behind the red channel of the initial colour of
the first respawned slot, is `32767` and whose other draws are `0`. -/
def redRand : RandSrc := fun n => if n = 8 then 32767 else 0

/-- A system over the rationals with one slot whose colour ranges go from black to white. -/
def colourSystem : ParticleSystem ℚ :=
  (ParticleSystem.new 1 rawSystem (fun _ => rawParticle)).setColor ⟨0, 0, 0⟩ ⟨1, 1, 1⟩
    ⟨0, 0, 0⟩ ⟨1, 1, 1⟩

/-- A system over the rationals with one live slot that moves along `(1, 2, 3)`, no
external force, and a spawn interval of `10`. -/
def driftSystem : ParticleSystem ℚ :=
  { rawSystem with
    maxAmountofParticles := 1
    particlesPerSpawn := 1
    spawnInterval := 10
    particles := [{ movingParticle with alive := true }] }

/-- A storage content for a whole system over the real numbers, with every member zero and
an empty pool. -/
noncomputable def rawRealSystem : ParticleSystem ℝ :=
  { ttl := 0, position := ⟨0, 0, 0⟩, positionVariance := ⟨0, 0, 0⟩, initialScale := 0,
    finalScale := 0, scaleVariance := 0, direction := ⟨0, 0, 0⟩,
    directionVariance := ⟨0, 0, 0⟩, minBaseColor := ⟨0, 0, 0⟩, maxBaseColor := ⟨0, 0, 0⟩,
    minFinalColor := ⟨0, 0, 0⟩, maxFinalColor := ⟨0, 0, 0⟩, initialAlpha := 0,
    finalAlpha := 0, alphaVariance := 0, maxAmountofParticles := 0,
    particlesPerSpawn := 0, spawnInterval := 0, timeSinceLastSpawn := 0,
    lastParticleSpawned := 0, globalExternalForce := ⟨0, 0, 0⟩, particles := [] }

/-- A system over the real numbers with one slot, constructed and configured with
`setAplha(1, 1/2, 0)` and `setTTL(2)`. -/
noncomputable def realSystem : ParticleSystem ℝ :=
  ((ParticleSystem.new 1 rawRealSystem (fun _ => fadingParticle)).setAplha 1 (1 / 2) 0).setTTL 2

end ParticleSim

/-! # Verified properties -/

namespace ParticleSim

variable {F : Type} [LinearOrderedField F]

/-! ## Basic facts -/

@[simp]
theorem Vec3.add_def {K : Type} [Add K] (a b : Vec3 K) :
    a + b = ⟨a.x + b.x, a.y + b.y, a.z + b.z⟩ :=
  rfl

@[simp]
theorem Vec3.scale_def {K : Type} [Mul K] (a : Vec3 K) (k : K) :
    a * k = ⟨a.x * k, a.y * k, a.z * k⟩ :=
  rfl

theorem sampleSystem_length (N p : Nat) (interval ttl : ℚ) :
    (sampleSystem N p interval ttl).particles.length = N := by
  simp [sampleSystem, ParticleSystem.new, ParticleSystem.setParticleSpawns,
    ParticleSystem.setTTL]

theorem sampleSystem_capacity (N p : Nat) (interval ttl : ℚ) :
    (sampleSystem N p interval ttl).maxAmountofParticles = N :=
  rfl

/-! ## Particle -/

/-! ### Sequences of updates -/

theorem Particle.update_ttl (p : Particle F) (dt : F) (f : Vec3 F) :
    (p.update dt f).ttl = p.ttl - dt := by
  by_cases h : p.ttl - dt > 0 <;> simp [Particle.update, h]

theorem Particle.update_liveTime (p : Particle F) (dt : F) (f : Vec3 F) :
    (p.update dt f).liveTime = p.liveTime := by
  by_cases h : p.ttl - dt > 0 <;> simp [Particle.update, h]

theorem Particle.update_alive (p : Particle F) (dt : F) (f : Vec3 F) :
    (p.update dt f).alive = decide (p.ttl - dt > 0) := by
  by_cases h : p.ttl - dt > 0 <;> simp [Particle.update, h]

/-- An update that leaves `ttl` at or below zero returns before it touches `position` and
`direction`. -/
theorem Particle.update_frozen (p : Particle F) (dt : F) (f : Vec3 F) (h : p.ttl - dt ≤ 0) :
    (p.update dt f).position = p.position ∧ (p.update dt f).direction = p.direction := by
  have h' : ¬ (p.ttl - dt > 0) := not_lt.mpr h
  simp [Particle.update, h']

theorem Particle.updates_nil (p : Particle F) : p.updates [] = p :=
  rfl

theorem Particle.updates_cons (p : Particle F) (c : F × Vec3 F) (cs : List (F × Vec3 F)) :
    p.updates (c :: cs) = (p.update c.1 c.2).updates cs :=
  rfl

theorem Particle.updates_concat (p : Particle F) (cs : List (F × Vec3 F)) (c : F × Vec3 F) :
    p.updates (cs ++ [c]) = (p.updates cs).update c.1 c.2 := by
  simp [Particle.updates, List.foldl_append]

/-- After at least one update the flag `alive` agrees with `ttl > 0`. -/
theorem Particle.updates_alive (cs : List (F × Vec3 F)) (hne : cs ≠ []) (p : Particle F) :
    (p.updates cs).alive = decide ((p.updates cs).ttl > 0) := by
  rcases List.eq_nil_or_concat cs with h | ⟨init, last, h⟩
  · exact absurd h hne
  · subst h
    simp only [List.concat_eq_append, Particle.updates_concat]
    rw [Particle.update_alive, Particle.update_ttl]

/-- Once `ttl` is at or below zero, updates with steps that are not negative change neither
`position` nor `direction`, and `ttl` stays at or below zero. -/
theorem Particle.updates_frozen (cs : List (F × Vec3 F)) (hcs : ∀ c ∈ cs, 0 ≤ c.1)
    (p : Particle F) (hp : p.ttl ≤ 0) :
    (p.updates cs).position = p.position ∧ (p.updates cs).direction = p.direction ∧
      (p.updates cs).ttl ≤ 0 := by
  induction cs generalizing p with
  | nil => simp [Particle.updates_nil, hp]
  | cons c cs ih =>
    have hc : 0 ≤ c.1 := hcs c (List.mem_cons_self _ _)
    have hle : p.ttl - c.1 ≤ 0 := by linarith
    have hfr := Particle.update_frozen p c.1 c.2 hle
    have hq : (p.update c.1 c.2).ttl ≤ 0 := by rw [Particle.update_ttl]; exact hle
    have := ih (fun d hd => hcs d (List.mem_cons_of_mem _ hd)) (p.update c.1 c.2) hq
    rw [Particle.updates_cons]
    rw [hfr.1, hfr.2] at this
    exact this

/-! ### Updates with explicit rounding -/

/-- With the identity as rounding function, `updateFl` is the exact `update`. -/
theorem Particle.updateFl_id (p : Particle F) (dt : F) (f : Vec3 F) :
    p.updateFl id dt f = p.update dt f := by
  by_cases h : p.ttl - dt > 0 <;> simp [Particle.updateFl, Particle.update, Vec3.map, h]

/-- With the identity as rounding function, `lifeFractionFl` is the exact `lifeFraction`. -/
theorem Particle.lifeFractionFl_id (p : Particle F) : p.lifeFractionFl id = p.lifeFraction :=
  rfl

theorem Particle.updateFl_ttl (fl : F → F) (p : Particle F) (dt : F) (f : Vec3 F) :
    (p.updateFl fl dt f).ttl = fl (p.ttl - dt) := by
  by_cases h : fl (p.ttl - dt) > 0 <;> simp [Particle.updateFl, h]

theorem Particle.updateFl_alive (fl : F → F) (p : Particle F) (dt : F) (f : Vec3 F) :
    (p.updateFl fl dt f).alive = decide (fl (p.ttl - dt) > 0) := by
  by_cases h : fl (p.ttl - dt) > 0 <;> simp [Particle.updateFl, h]

/-- An update that stores a `ttl` at or below zero returns before it touches `position`
and `direction`. -/
theorem Particle.updateFl_frozen (fl : F → F) (p : Particle F) (dt : F) (f : Vec3 F)
    (h : fl (p.ttl - dt) ≤ 0) :
    (p.updateFl fl dt f).position = p.position ∧
      (p.updateFl fl dt f).direction = p.direction := by
  have h' : ¬ (fl (p.ttl - dt) > 0) := not_lt.mpr h
  simp [Particle.updateFl, h']

theorem Particle.updatesFl_nil (fl : F → F) (p : Particle F) : p.updatesFl fl [] = p :=
  rfl

theorem Particle.updatesFl_cons (fl : F → F) (p : Particle F) (c : F × Vec3 F)
    (cs : List (F × Vec3 F)) :
    p.updatesFl fl (c :: cs) = (p.updateFl fl c.1 c.2).updatesFl fl cs :=
  rfl

theorem Particle.updatesFl_concat (fl : F → F) (p : Particle F) (cs : List (F × Vec3 F))
    (c : F × Vec3 F) :
    p.updatesFl fl (cs ++ [c]) = (p.updatesFl fl cs).updateFl fl c.1 c.2 := by
  simp [Particle.updatesFl, List.foldl_append]

/-- After at least one update the flag `alive` agrees with `ttl > 0`. -/
theorem Particle.updatesFl_alive (fl : F → F) (cs : List (F × Vec3 F)) (hne : cs ≠ [])
    (p : Particle F) :
    (p.updatesFl fl cs).alive = decide ((p.updatesFl fl cs).ttl > 0) := by
  rcases List.eq_nil_or_concat cs with h | ⟨init, last, h⟩
  · exact absurd h hne
  · subst h
    simp only [List.concat_eq_append, Particle.updatesFl_concat]
    rw [Particle.updateFl_alive, Particle.updateFl_ttl]

/-- Once `ttl` is at or below zero, updates with steps that are not negative change neither
`position` nor `direction`, and `ttl` stays at or below zero: the rounding is only asked to
keep the sign of a result that is not positive. -/
theorem Particle.updatesFl_frozen (fl : F → F) (hfl : ∀ x, x ≤ 0 → fl x ≤ 0)
    (cs : List (F × Vec3 F)) (hcs : ∀ c ∈ cs, 0 ≤ c.1) (p : Particle F) (hp : p.ttl ≤ 0) :
    (p.updatesFl fl cs).position = p.position ∧ (p.updatesFl fl cs).direction = p.direction ∧
      (p.updatesFl fl cs).ttl ≤ 0 := by
  induction cs generalizing p with
  | nil => simp [Particle.updatesFl_nil, hp]
  | cons c cs ih =>
    have hc : 0 ≤ c.1 := hcs c (List.mem_cons_self _ _)
    have hle : fl (p.ttl - c.1) ≤ 0 := hfl _ (by linarith)
    have hfr := Particle.updateFl_frozen fl p c.1 c.2 hle
    have hq : (p.updateFl fl c.1 c.2).ttl ≤ 0 := by rw [Particle.updateFl_ttl]; exact hle
    have := ih (fun d hd => hcs d (List.mem_cons_of_mem _ hd)) (p.updateFl fl c.1 c.2) hq
    rw [Particle.updatesFl_cons]
    rw [hfr.1, hfr.2] at this
    exact this

/-! ### Binary32 rounding keeps the sign -/

theorem pow2_pos (e : ℤ) : 0 < pow2 e := by
  unfold pow2
  split <;> positivity

theorem roundHalfEven_nonpos (y : ℚ) (hy : y ≤ 0) : roundHalfEven y ≤ 0 := by
  have hf : ⌊y⌋ ≤ 0 := Int.floor_nonpos hy
  have hstep : ¬ (y - (⌊y⌋ : ℚ) < 1 / 2) → ⌊y⌋ + 1 ≤ 0 := by
    intro h
    have h1 : (⌊y⌋ : ℚ) < 0 := by linarith
    have h2 : ⌊y⌋ < 0 := by exact_mod_cast h1
    omega
  unfold roundHalfEven
  simp only
  split_ifs with h1 h2 h3
  · exact hf
  · exact hstep h1
  · exact hf
  · exact hstep h1

/-- Rounding to binary32 does not turn a result that is not positive into a positive one. -/
theorem fl32_nonpos (x : ℚ) (hx : x ≤ 0) : fl32 x ≤ 0 := by
  unfold fl32
  split_ifs with h0
  · exact le_rfl
  · simp only
    apply mul_nonpos_of_nonpos_of_nonneg
    · have := roundHalfEven_nonpos _
        (div_nonpos_of_nonpos_of_nonneg hx (pow2_pos (max (floorLog2 x) (-126) - 23)).le)
      exact_mod_cast this
    · exact (pow2_pos _).le

/-! ### Sequences of resets and updates -/

theorem Particle.calls_nil (p : Particle F) : p.calls [] = p :=
  rfl

theorem Particle.calls_cons (p : Particle F) (c : Particle.Call F)
    (cs : List (Particle.Call F)) : p.calls (c :: cs) = (p.call c).calls cs :=
  rfl

theorem Particle.liveTimeOk_new (raw : Particle F) : (Particle.new raw).LiveTimeOk := by
  simp [Particle.LiveTimeOk, Particle.new]

theorem Particle.liveTimeOk_call (p : Particle F) (c : Particle.Call F)
    (hc : c.inContract) (hp : p.LiveTimeOk) : (p.call c).LiveTimeOk := by
  cases c with
  | reset l pos dir s0 s1 c0 c1 a0 a1 =>
    have hl : 0 < l := hc
    simp [Particle.LiveTimeOk, Particle.call, Particle.reset, hl]
  | update dt f =>
    have hdt : 0 ≤ dt := hc
    have key : 0 < p.ttl - dt → 0 < p.liveTime := fun h => hp.2 (by linarith)
    refine ⟨?_, ?_⟩
    · intro h
      rw [Particle.call, Particle.update_alive] at h
      rw [Particle.call, Particle.update_liveTime]
      exact key (by simpa using h)
    · intro h
      rw [Particle.call, Particle.update_ttl] at h
      rw [Particle.call, Particle.update_liveTime]
      exact key h

theorem Particle.liveTimeOk_calls (cs : List (Particle.Call F)) (p : Particle F)
    (hcs : ∀ c ∈ cs, c.inContract) (hp : p.LiveTimeOk) : (p.calls cs).LiveTimeOk := by
  induction cs generalizing p with
  | nil => simpa [Particle.calls_nil] using hp
  | cons c cs ih =>
    rw [Particle.calls_cons]
    exact ih (p.call c) (fun d hd => hcs d (List.mem_cons_of_mem _ hd))
      (Particle.liveTimeOk_call p c (hcs c (List.mem_cons_self _ _)) hp)

/-! ## Particle system: auxiliary facts -/

theorem hit_zero (N c j : Nat) : ¬ Hit N c 0 j := by
  rintro ⟨i, hi, -⟩
  exact Nat.not_lt_zero i hi

theorem hit_succ (N c n j : Nat) (hc : c < N) :
    Hit N c (n + 1) j ↔ j = c ∨ Hit N ((c + 1) % N) n j := by
  constructor
  · rintro ⟨i, hi, hj⟩
    cases i with
    | zero =>
      left
      rw [← hj, Nat.add_zero, Nat.mod_eq_of_lt hc]
    | succ i =>
      right
      refine ⟨i, Nat.lt_of_succ_lt_succ hi, ?_⟩
      rw [Nat.mod_add_mod, ← hj]
      congr 1
      omega
  · rintro (h | ⟨i, hi, hj⟩)
    · exact ⟨0, Nat.succ_pos n, by rw [h, Nat.add_zero, Nat.mod_eq_of_lt hc]⟩
    · refine ⟨i + 1, Nat.succ_lt_succ hi, ?_⟩
      rw [Nat.mod_add_mod] at hj
      rw [← hj]
      congr 1
      omega

/-- When the burst is at least as long as the pool, every slot is walked over. -/
theorem hit_of_le (N c n j : Nat) (hc : c < N) (hj : j < N) (hn : N ≤ n) : Hit N c n j := by
  by_cases hcj : c ≤ j
  · refine ⟨j - c, by omega, ?_⟩
    rw [Nat.add_sub_cancel' hcj, Nat.mod_eq_of_lt hj]
  · refine ⟨N + j - c, by omega, ?_⟩
    have : c + (N + j - c) = j + N := by omega
    rw [this, Nat.add_mod_right, Nat.mod_eq_of_lt hj]

/-- Inside the pool `spawnParticle` overwrites the addressed slot with a freshly reset
particle and touches nothing else of the system. -/
theorem ParticleSystem.spawnParticle_eq (R index : Nat) (s : ParticleSystem F) (g : RandSrc)
    (h : index < s.particles.length) :
    ∃ q g', s.spawnParticle R index g = some ({ s with particles := s.particles.set index q }, g')
      ∧ q.alive = true ∧ q.ttl = s.ttl ∧ q.liveTime = s.ttl := by
  unfold ParticleSystem.spawnParticle
  simp only [List.getElem?_eq_getElem h]
  exact ⟨_, _, rfl, rfl, rfl, rfl⟩

/-- What a run of `n` iterations of the spawn loop does: it succeeds, changes only the pool
and the cursor, moves the cursor by `n` modulo the capacity, resets every walked slot with
the configured time to live and leaves the other slots alone. -/
theorem ParticleSystem.spawnParticlesLoop_spec (R n : Nat) (s : ParticleSystem F) (g : RandSrc)
    (hinv : s.Inv) (h32 : s.maxAmountofParticles < 4294967296) :
    ∃ s' g', ParticleSystem.spawnParticlesLoop R n s g = some (s', g') ∧
      s' = { s with particles := s'.particles, lastParticleSpawned := s'.lastParticleSpawned } ∧
      s'.lastParticleSpawned = (s.lastParticleSpawned + n) % s.maxAmountofParticles ∧
      s'.particles.length = s.particles.length ∧
      ∀ j, j < s.maxAmountofParticles → ∃ q, s'.particles[j]? = some q ∧
        (Hit s.maxAmountofParticles s.lastParticleSpawned n j →
          q.alive = true ∧ q.ttl = s.ttl ∧ q.liveTime = s.ttl) ∧
        (¬ Hit s.maxAmountofParticles s.lastParticleSpawned n j → s.particles[j]? = some q) := by
  induction n generalizing s g with
  | zero =>
    refine ⟨s, g, rfl, rfl, ?_, rfl, ?_⟩
    · rw [Nat.add_zero, Nat.mod_eq_of_lt hinv.2]
    · intro j hj
      have hj' : j < s.particles.length := by rw [hinv.1]; exact hj
      exact ⟨s.particles[j], List.getElem?_eq_getElem hj',
        fun h => absurd h (hit_zero _ _ _), fun _ => List.getElem?_eq_getElem hj'⟩
  | succ n ih =>
    obtain ⟨hlen, hcur⟩ := hinv
    have hc : s.lastParticleSpawned < s.particles.length := by rw [hlen]; exact hcur
    obtain ⟨q, g1, hsp, hqa, hqt, hql⟩ :=
      ParticleSystem.spawnParticle_eq R s.lastParticleSpawned s g hc
    have hNpos : 0 < s.maxAmountofParticles := Nat.lt_of_le_of_lt (Nat.zero_le _) hcur
    have hwrap : (s.lastParticleSpawned + 1) % 4294967296 = s.lastParticleSpawned + 1 :=
      Nat.mod_eq_of_lt (by omega)
    -- the state after one iteration
    let s2 : ParticleSystem F :=
      { s with
        particles := s.particles.set s.lastParticleSpawned q
        lastParticleSpawned := (s.lastParticleSpawned + 1) % s.maxAmountofParticles }
    have hstep : ParticleSystem.spawnParticlesLoop R (n + 1) s g =
        ParticleSystem.spawnParticlesLoop R n s2 g1 := by
      simp only [ParticleSystem.spawnParticlesLoop, hsp, hwrap, s2]
    have hinv2 : s2.Inv := ⟨by simp [s2, hlen], Nat.mod_lt _ hNpos⟩
    obtain ⟨s', g', hrun, hframe, hcur', hlen', hslots⟩ := ih s2 g1 hinv2 h32
    refine ⟨s', g', hstep.trans hrun, ?_, ?_, ?_, ?_⟩
    · rw [hframe]
    · rw [hcur']
      show ((s.lastParticleSpawned + 1) % s.maxAmountofParticles + n) % s.maxAmountofParticles = _
      rw [Nat.mod_add_mod]
      congr 1
      omega
    · rw [hlen']
      simp [s2]
    · intro j hj
      obtain ⟨q', hq', hhit, hmiss⟩ := hslots j hj
      refine ⟨q', hq', ?_, ?_⟩
      · intro h
        by_cases hlater : Hit s.maxAmountofParticles
            ((s.lastParticleSpawned + 1) % s.maxAmountofParticles) n j
        · exact hhit hlater
        · have hjc : j = s.lastParticleSpawned := by
            rcases (hit_succ _ _ _ _ hcur).1 h with h1 | h1
            · exact h1
            · exact absurd h1 hlater
          have hold := hmiss hlater
          have : (s.particles.set s.lastParticleSpawned q)[j]? = some q := by
            rw [hjc, List.getElem?_set, if_pos rfl, if_pos hc]
          have hqq : q' = q := by
            have h2 : (s.particles.set s.lastParticleSpawned q)[j]? = some q' := hold
            rw [this] at h2
            exact (Option.some.inj h2).symm
          rw [hqq]
          exact ⟨hqa, hqt, hql⟩
      · intro h
        have hnot : ¬ Hit s.maxAmountofParticles
            ((s.lastParticleSpawned + 1) % s.maxAmountofParticles) n j :=
          fun h1 => h ((hit_succ _ _ _ _ hcur).2 (Or.inr h1))
        have hne : s.lastParticleSpawned ≠ j :=
          fun h1 => h ((hit_succ _ _ _ _ hcur).2 (Or.inl h1.symm))
        have hold : (s.particles.set s.lastParticleSpawned q)[j]? = some q' := hmiss hnot
        rw [List.getElem?_set_ne hne] at hold
        exact hold

/-- The per-slot loop of `update`, started at counter `i` with as many iterations left as
there are slots from `i` on, succeeds and updates exactly the slots from `i` on. -/
theorem ParticleSystem.updateLoop_spec (dt : F) (f : Vec3 F) (n i : Nat)
    (ps : List (Particle F)) (h : i + n = ps.length) :
    ∃ r, ParticleSystem.updateLoop dt f n i ps = some r ∧ r.length = ps.length ∧
      ∀ j, r[j]? = if i ≤ j then ps[j]?.map (fun p => p.update dt f) else ps[j]? := by
  induction n generalizing i ps with
  | zero =>
    refine ⟨ps, rfl, rfl, ?_⟩
    intro j
    split
    · rename_i hij
      rw [List.getElem?_eq_none (by omega)]
      rfl
    · rfl
  | succ n ih =>
    have hi : i < ps.length := by omega
    have hstep : ParticleSystem.updateLoop dt f (n + 1) i ps =
        ParticleSystem.updateLoop dt f n (i + 1) (ps.set i (ps[i].update dt f)) := by
      simp only [ParticleSystem.updateLoop, List.getElem?_eq_getElem hi]
    obtain ⟨r, hr, hlen, hget⟩ := ih (i + 1) (ps.set i (ps[i].update dt f))
      (by rw [List.length_set]; omega)
    refine ⟨r, hstep.trans hr, by rw [hlen, List.length_set], ?_⟩
    intro j
    rw [hget j]
    by_cases h1 : i + 1 ≤ j
    · have hne : i ≠ j := by omega
      have h2 : i ≤ j := by omega
      rw [if_pos h1, if_pos h2, List.getElem?_set_ne hne]
    · rw [if_neg h1]
      by_cases h2 : i = j
      · subst h2
        rw [if_pos (Nat.le_refl _), List.getElem?_set, if_pos rfl, if_pos hi,
          List.getElem?_eq_getElem hi]
        rfl
      · have h3 : ¬ i ≤ j := by omega
        rw [if_neg h3, List.getElem?_set_ne h2]

/-- Run over the whole pool, the per-slot loop of `update` is the map of `Particle.update`. -/
theorem ParticleSystem.updateLoop_eq_map (dt : F) (f : Vec3 F) (ps : List (Particle F)) :
    ParticleSystem.updateLoop dt f ps.length 0 ps = some (ps.map (fun p => p.update dt f)) := by
  obtain ⟨r, hr, -, hget⟩ := ParticleSystem.updateLoop_spec dt f ps.length 0 ps (by omega)
  rw [hr]
  congr 1
  apply List.ext_getElem?
  intro j
  rw [hget j, if_pos (Nat.zero_le j), List.getElem?_map]

/-- The per-slot spawn does not read the spawn clock. -/
theorem ParticleSystem.spawnParticle_clock (R index : Nat) (s : ParticleSystem F)
    (g : RandSrc) (t : F) :
    ParticleSystem.spawnParticle R index { s with timeSinceLastSpawn := t } g =
      (ParticleSystem.spawnParticle R index s g).map
        (fun r => ({ r.1 with timeSinceLastSpawn := t }, r.2)) := by
  unfold ParticleSystem.spawnParticle
  cases s.particles[index]? <;> rfl

/-- The spawn loop does not read the spawn clock. -/
theorem ParticleSystem.spawnParticlesLoop_clock (R n : Nat) (s : ParticleSystem F)
    (g : RandSrc) (t : F) :
    ParticleSystem.spawnParticlesLoop R n { s with timeSinceLastSpawn := t } g =
      (ParticleSystem.spawnParticlesLoop R n s g).map
        (fun r => ({ r.1 with timeSinceLastSpawn := t }, r.2)) := by
  induction n generalizing s g with
  | zero => rfl
  | succ n ih =>
    have h1 := ParticleSystem.spawnParticle_clock R s.lastParticleSpawned s g t
    simp only [ParticleSystem.spawnParticlesLoop]
    rw [h1]
    cases ParticleSystem.spawnParticle R s.lastParticleSpawned s g with
    | none => rfl
    | some r =>
      exact ih
        { r.1 with
          lastParticleSpawned :=
            ((r.1.lastParticleSpawned + 1) % 4294967296) % r.1.maxAmountofParticles }
        r.2

/-- A spawn burst keeps the pool size, the capacity and the invariant. -/
theorem ParticleSystem.spawnParticles_inv (R : Nat) (s : ParticleSystem F) (g : RandSrc)
    (hinv : s.Inv) (h32 : s.maxAmountofParticles < 4294967296) :
    ∃ s' g', s.spawnParticles R g = some (s', g') ∧ s'.Inv ∧
      s'.maxAmountofParticles = s.maxAmountofParticles ∧
      s'.particlesPerSpawn = s.particlesPerSpawn ∧
      s'.globalExternalForce = s.globalExternalForce ∧
      s'.lastParticleSpawned =
        (s.lastParticleSpawned + s.particlesPerSpawn) % s.maxAmountofParticles := by
  obtain ⟨s', g', hrun, hframe, hcur, hlen, -⟩ :=
    ParticleSystem.spawnParticlesLoop_spec R s.particlesPerSpawn s g hinv h32
  have hN : s'.maxAmountofParticles = s.maxAmountofParticles := by rw [hframe]
  have hp : s'.particlesPerSpawn = s.particlesPerSpawn := by rw [hframe]
  have hf : s'.globalExternalForce = s.globalExternalForce := by rw [hframe]
  refine ⟨s', g', hrun, ⟨?_, ?_⟩, hN, hp, hf, hcur⟩
  · rw [hlen, hN]; exact hinv.1
  · rw [hcur, hN]
    exact Nat.mod_lt _ (Nat.lt_of_le_of_lt (Nat.zero_le _) hinv.2)

/-- The `update` of a system whose increased clock stays below the spawn interval. -/
theorem ParticleSystem.update_of_lt (R : Nat) (dt : F) (s : ParticleSystem F) (g : RandSrc)
    (hlen : s.particles.length = s.maxAmountofParticles)
    (h : s.timeSinceLastSpawn + dt < s.spawnInterval) :
    s.update R dt g =
      some ({ s with
              timeSinceLastSpawn := s.timeSinceLastSpawn + dt
              particles := s.particles.map (fun p => p.update dt s.globalExternalForce) }, g) := by
  have h' : ¬ (s.timeSinceLastSpawn + dt ≥ s.spawnInterval) := not_le.mpr h
  simp only [ParticleSystem.update, h', if_false, ← hlen, ParticleSystem.updateLoop_eq_map]

/-- The `update` of a system whose increased clock reaches the spawn interval. -/
theorem ParticleSystem.update_of_ge (R : Nat) (dt : F) (s sb : ParticleSystem F)
    (g gb : RandSrc) (hsb : s.spawnParticles R g = some (sb, gb))
    (hlen : sb.particles.length = sb.maxAmountofParticles)
    (h : s.spawnInterval ≤ s.timeSinceLastSpawn + dt) :
    s.update R dt g =
      some ({ sb with
              timeSinceLastSpawn := 0
              particles := sb.particles.map (fun p => p.update dt sb.globalExternalForce) },
            gb) := by
  have h' : s.timeSinceLastSpawn + dt ≥ s.spawnInterval := h
  have hclock := ParticleSystem.spawnParticlesLoop_clock R s.particlesPerSpawn s g
    (s.timeSinceLastSpawn + dt)
  have hsb' : ParticleSystem.spawnParticlesLoop R s.particlesPerSpawn s g = some (sb, gb) := hsb
  rw [hsb'] at hclock
  simp only [ParticleSystem.update, ParticleSystem.spawnParticles, h', if_true, hclock,
    Option.map_some', ← hlen, ParticleSystem.updateLoop_eq_map]

/-- Every interface call succeeds on a system that satisfies the invariant, and keeps the
invariant and the capacity. -/
theorem ParticleSystem.call_inv (R : Nat) (s : ParticleSystem F) (g : RandSrc)
    (c : ParticleSystem.Call F) (hinv : s.Inv) (h32 : s.maxAmountofParticles < 4294967296) :
    ∃ s' g', s.call R g c = some (s', g') ∧ s'.Inv ∧
      s'.maxAmountofParticles = s.maxAmountofParticles := by
  cases c with
  | setParticleSpawns n iv => exact ⟨_, _, rfl, hinv, rfl⟩
  | setTTL t => exact ⟨_, _, rfl, hinv, rfl⟩
  | setPosition a v => exact ⟨_, _, rfl, hinv, rfl⟩
  | setDirection a v => exact ⟨_, _, rfl, hinv, rfl⟩
  | setScale a b v => exact ⟨_, _, rfl, hinv, rfl⟩
  | setColor a b c d => exact ⟨_, _, rfl, hinv, rfl⟩
  | setAplha a b v => exact ⟨_, _, rfl, hinv, rfl⟩
  | setGlobalExternalForce f => exact ⟨_, _, rfl, hinv, rfl⟩
  | update dt =>
    by_cases h : s.timeSinceLastSpawn + dt < s.spawnInterval
    · refine ⟨_, _, ParticleSystem.update_of_lt R dt s g hinv.1 h, ⟨?_, hinv.2⟩, rfl⟩
      simpa using hinv.1
    · obtain ⟨sb, gb, hsb, hinvb, hNb, -, -, -⟩ :=
        ParticleSystem.spawnParticles_inv R s g hinv h32
      refine ⟨_, _, ParticleSystem.update_of_ge R dt s sb g gb hsb hinvb.1 (not_lt.mp h),
        ⟨?_, hinvb.2⟩, hNb⟩
      simpa using hinvb.1

/-- Every sequence of interface calls succeeds on a system that satisfies the invariant, and
keeps the invariant and the capacity. -/
theorem ParticleSystem.calls_inv (R : Nat) (cs : List (ParticleSystem.Call F))
    (s : ParticleSystem F) (g : RandSrc) (hinv : s.Inv)
    (h32 : s.maxAmountofParticles < 4294967296) :
    ∃ s' g', s.calls R g cs = some (s', g') ∧ s'.Inv ∧
      s'.maxAmountofParticles = s.maxAmountofParticles := by
  induction cs generalizing s g with
  | nil => exact ⟨s, g, rfl, hinv, rfl⟩
  | cons c cs ih =>
    obtain ⟨s1, g1, h1, hinv1, hN1⟩ := ParticleSystem.call_inv R s g c hinv h32
    obtain ⟨s', g', h2, hinv2, hN2⟩ := ih s1 g1 hinv1 (by rw [hN1]; exact h32)
    refine ⟨s', g', ?_, hinv2, hN2.trans hN1⟩
    simp only [ParticleSystem.calls, h1]
    exact h2

/-- A freshly constructed system with at least one slot satisfies the invariant. -/
theorem ParticleSystem.new_inv (N : Nat) (raw : ParticleSystem F) (rawSlot : Nat → Particle F)
    (hN : 1 ≤ N) : (ParticleSystem.new N raw rawSlot).Inv := by
  refine ⟨?_, ?_⟩
  · simp [ParticleSystem.new]
  · exact hN

/-- The cursor after `k` bursts in a row, from any cursor inside the pool. -/
theorem ParticleSystem.bursts_spec (R k : Nat) (s : ParticleSystem F) (g : RandSrc)
    (hinv : s.Inv) (h32 : s.maxAmountofParticles < 4294967296) :
    ∃ s' g', ParticleSystem.bursts R k s g = some (s', g') ∧
      s'.lastParticleSpawned =
        (s.lastParticleSpawned + k * s.particlesPerSpawn) % s.maxAmountofParticles := by
  induction k generalizing s g with
  | zero =>
    refine ⟨s, g, rfl, ?_⟩
    rw [Nat.zero_mul, Nat.add_zero, Nat.mod_eq_of_lt hinv.2]
  | succ k ih =>
    obtain ⟨s1, g1, h1, hinv1, hN1, hp1, -, hc1⟩ :=
      ParticleSystem.spawnParticles_inv R s g hinv h32
    obtain ⟨s', g', h2, hc2⟩ := ih s1 g1 hinv1 (by rw [hN1]; exact h32)
    refine ⟨s', g', ?_, ?_⟩
    · simp only [ParticleSystem.bursts, h1]
      exact h2
    · rw [hc2, hc1, hN1, hp1, Nat.mod_add_mod]
      congr 1
      rw [Nat.succ_mul]
      omega

/-! ### The claims on a single particle -/

/-- C1: after `reset` the particle is alive, `ttl` and `liveTime` both equal the `liveTime`
argument and every other member equals its argument, whatever the state before. -/
theorem particle_reset_spec {K : Type} (p : Particle K) (liveTime : K)
    (position direction : Vec3 K) (initialScale finalScale : K)
    (initialColor finalColor : Vec3 K) (initialAlpha finalAlpha : K) :
    (p.reset liveTime position direction initialScale finalScale initialColor finalColor
        initialAlpha finalAlpha) =
      { alive := true, position := position, direction := direction,
        initialScale := initialScale, finalScale := finalScale,
        initialColor := initialColor, finalColor := finalColor,
        initialAlpha := initialAlpha, finalAlpha := finalAlpha,
        ttl := liveTime, liveTime := liveTime } := by
  rfl

/-- C2: `update` sets `ttl` to `ttl - dt` and `alive` to `ttl - dt > 0`; when the new flag
is true the position advances by the old direction times `dt` and the direction by the
force times `dt`. -/
theorem particle_update_spec (p : Particle F) (dt : F) (f : Vec3 F) :
    (p.update dt f).ttl = p.ttl - dt ∧
    (p.update dt f).alive = decide (p.ttl - dt > 0) ∧
    ((p.update dt f).alive = true →
      (p.update dt f).position = p.position + p.direction * dt ∧
      (p.update dt f).direction = p.direction + f * dt) := by
  by_cases h : p.ttl - dt > 0 <;> simp [Particle.update, h]

/-- C2, closed instance: a particle with `ttl = 2` moving along `(1, 2, 3)` from the origin
is updated with `dt = 1/2` under the force `(0, -10, 0)`. -/
theorem particle_update_spec_witness :
    (movingParticle.update (1 / 2) ⟨0, -10, 0⟩).ttl = 3 / 2 ∧
    (movingParticle.update (1 / 2) ⟨0, -10, 0⟩).alive = true ∧
    (movingParticle.update (1 / 2) ⟨0, -10, 0⟩).position = ⟨1 / 2, 1, 3 / 2⟩ ∧
    (movingParticle.update (1 / 2) ⟨0, -10, 0⟩).direction = ⟨1, -3, 3⟩ := by
  obtain ⟨h1, h2, h3⟩ := particle_update_spec movingParticle (1 / 2) ⟨0, -10, 0⟩
  have ha : (movingParticle.update (1 / 2) ⟨0, -10, 0⟩).alive = true := by
    rw [h2]; norm_num [movingParticle, rawParticle]
  obtain ⟨h4, h5⟩ := h3 ha
  refine ⟨?_, ha, ?_, ?_⟩
  · rw [h1]; norm_num [movingParticle, rawParticle]
  · rw [h4]; norm_num [movingParticle, rawParticle, zeroVec]
  · rw [h5]; norm_num [movingParticle, rawParticle, zeroVec]

/-- C9: after every `update` call the flag `alive` is exactly `ttl > 0`. -/
theorem particle_update_alive_iff (p : Particle F) (dt : F) (f : Vec3 F) :
    (p.update dt f).alive = decide ((p.update dt f).ttl > 0) := by
  by_cases h : p.ttl - dt > 0 <;> simp [Particle.update, h]

/-- C3, as stated, fails in two ways.  A particle reset with `liveTime = 0` and followed by
the empty sequence of updates (whose steps sum to `0 ≥ liveTime`) is alive.  And in binary32
a particle reset with `liveTime = 0.5` is alive, with `ttl = 2 ^ (-26)`, after five updates
with the step `0.1f` (the binary32 number nearest to `1/10`), although the steps sum to
more than `liveTime`. -/
theorem particle_death_counterexample :
    ((∀ c ∈ ([] : List (ℚ × Vec3 ℚ)), 0 ≤ c.1) ∧
      (0 : ℚ) ≤ (([] : List (ℚ × Vec3 ℚ)).map Prod.fst).sum ∧
      ((rawParticle.reset 0 zeroVec zeroVec 1 1 zeroVec zeroVec 1 1).updates []).alive = true) ∧
    (fl32 (1 / 10) = 13421773 / 134217728 ∧ fl32 (1 / 2) = 1 / 2 ∧
      (1 / 2 : ℚ) ≤
        (([(13421773 / 134217728, zeroVec), (13421773 / 134217728, zeroVec),
           (13421773 / 134217728, zeroVec), (13421773 / 134217728, zeroVec),
           (13421773 / 134217728, zeroVec)] : List (ℚ × Vec3 ℚ)).map Prod.fst).sum ∧
      ((rawParticle.reset (1 / 2) zeroVec zeroVec 1 1 zeroVec zeroVec 1 1).updatesFl fl32
        [(13421773 / 134217728, zeroVec), (13421773 / 134217728, zeroVec),
         (13421773 / 134217728, zeroVec), (13421773 / 134217728, zeroVec),
         (13421773 / 134217728, zeroVec)]).ttl = 1 / 67108864 ∧
      ((rawParticle.reset (1 / 2) zeroVec zeroVec 1 1 zeroVec zeroVec 1 1).updatesFl fl32
        [(13421773 / 134217728, zeroVec), (13421773 / 134217728, zeroVec),
         (13421773 / 134217728, zeroVec), (13421773 / 134217728, zeroVec),
         (13421773 / 134217728, zeroVec)]).alive = true) := by
  refine ⟨⟨?_, ?_, ?_⟩, ?_, ?_, ?_, ?_, ?_⟩
  · intro c hc; cases hc
  · simp
  · rfl
  · decide!
  · decide!
  · norm_num
  · decide!
  · decide!

/-- C3, amended: whatever the rounding (it is only asked to keep a result that is not
positive from becoming positive, as binary32 does), for a particle reset with `liveTime`
and a sequence of at least one update that leaves `ttl ≤ 0`, the particle is dead after the
sequence; after any further updates with steps that are not negative, one more such update
leaves the particle dead and changes neither `position` nor `direction`; and an update
whose step is at least the current `ttl` always leaves `ttl ≤ 0` and the particle dead. -/
theorem particle_death_and_freeze (fl : F → F) (hfl : ∀ x, x ≤ 0 → fl x ≤ 0)
    (p : Particle F) (liveTime : F)
    (position direction : Vec3 F) (initialScale finalScale : F)
    (initialColor finalColor : Vec3 F) (initialAlpha finalAlpha : F)
    (steps more : List (F × Vec3 F)) (dt : F) (f : Vec3 F)
    (hne : steps ≠ [])
    (hdead : ((p.reset liveTime position direction initialScale finalScale initialColor
        finalColor initialAlpha finalAlpha).updatesFl fl steps).ttl ≤ 0)
    (hmore : ∀ c ∈ more, 0 ≤ c.1) (hdt : 0 ≤ dt) :
    ((p.reset liveTime position direction initialScale finalScale initialColor finalColor
        initialAlpha finalAlpha).updatesFl fl steps).alive = false ∧
    ((((p.reset liveTime position direction initialScale finalScale initialColor finalColor
        initialAlpha finalAlpha).updatesFl fl steps).updatesFl fl more).updateFl fl dt
          f).alive = false ∧
    ((((p.reset liveTime position direction initialScale finalScale initialColor finalColor
        initialAlpha finalAlpha).updatesFl fl steps).updatesFl fl more).updateFl fl dt
          f).position =
      (((p.reset liveTime position direction initialScale finalScale initialColor finalColor
        initialAlpha finalAlpha).updatesFl fl steps).updatesFl fl more).position ∧
    ((((p.reset liveTime position direction initialScale finalScale initialColor finalColor
        initialAlpha finalAlpha).updatesFl fl steps).updatesFl fl more).updateFl fl dt
          f).direction =
      (((p.reset liveTime position direction initialScale finalScale initialColor finalColor
        initialAlpha finalAlpha).updatesFl fl steps).updatesFl fl more).direction ∧
    (∀ (q : Particle F) (d : F) (g : Vec3 F), q.ttl ≤ d →
      (q.updateFl fl d g).ttl ≤ 0 ∧ (q.updateFl fl d g).alive = false) := by
  generalize hq : p.reset liveTime position direction initialScale finalScale initialColor
    finalColor initialAlpha finalAlpha = q at hdead ⊢
  have hfro := Particle.updatesFl_frozen fl hfl more hmore (q.updatesFl fl steps) hdead
  have hle : fl (((q.updatesFl fl steps).updatesFl fl more).ttl - dt) ≤ 0 :=
    hfl _ (by linarith [hfro.2.2])
  refine ⟨?_, ?_, (Particle.updateFl_frozen fl _ dt f hle).1,
    (Particle.updateFl_frozen fl _ dt f hle).2, ?_⟩
  · rw [Particle.updatesFl_alive fl steps hne]
    simpa using hdead
  · rw [Particle.updateFl_alive]
    simpa using hle
  · intro r d g hrd
    have h : fl (r.ttl - d) ≤ 0 := hfl _ (by linarith)
    rw [Particle.updateFl_ttl, Particle.updateFl_alive]
    exact ⟨h, by simpa using h⟩

/-- C3, amended, closed instance in binary32: `liveTime = 0.5` and six updates with the
step `0.1f`; the sixth leaves `ttl ≤ 0`.  Then one further update with the step `1`, and
the observed update with the step `1`. -/
theorem particle_death_and_freeze_witness :
    ((rawParticle.reset (1 / 2) zeroVec ⟨1, 2, 3⟩ 1 1 zeroVec zeroVec 1 1).updatesFl fl32
        [(13421773 / 134217728, zeroVec), (13421773 / 134217728, zeroVec),
         (13421773 / 134217728, zeroVec), (13421773 / 134217728, zeroVec),
         (13421773 / 134217728, zeroVec), (13421773 / 134217728, zeroVec)]).alive = false ∧
    ((((rawParticle.reset (1 / 2) zeroVec ⟨1, 2, 3⟩ 1 1 zeroVec zeroVec 1 1).updatesFl fl32
        [(13421773 / 134217728, zeroVec), (13421773 / 134217728, zeroVec),
         (13421773 / 134217728, zeroVec), (13421773 / 134217728, zeroVec),
         (13421773 / 134217728, zeroVec), (13421773 / 134217728, zeroVec)]).updatesFl fl32
        [(1, zeroVec)]).updateFl fl32 1 ⟨0, -10, 0⟩).position =
      (((rawParticle.reset (1 / 2) zeroVec ⟨1, 2, 3⟩ 1 1 zeroVec zeroVec 1 1).updatesFl fl32
        [(13421773 / 134217728, zeroVec), (13421773 / 134217728, zeroVec),
         (13421773 / 134217728, zeroVec), (13421773 / 134217728, zeroVec),
         (13421773 / 134217728, zeroVec), (13421773 / 134217728, zeroVec)]).updatesFl fl32
        [(1, zeroVec)]).position :=
  ⟨(particle_death_and_freeze fl32 fl32_nonpos rawParticle (1 / 2) zeroVec ⟨1, 2, 3⟩ 1 1
      zeroVec zeroVec 1 1
      [(13421773 / 134217728, zeroVec), (13421773 / 134217728, zeroVec),
       (13421773 / 134217728, zeroVec), (13421773 / 134217728, zeroVec),
       (13421773 / 134217728, zeroVec), (13421773 / 134217728, zeroVec)]
      [(1, zeroVec)] 1 ⟨0, -10, 0⟩ (by simp) (by decide!) (by simp) (by norm_num)).1,
    (particle_death_and_freeze fl32 fl32_nonpos rawParticle (1 / 2) zeroVec ⟨1, 2, 3⟩ 1 1
      zeroVec zeroVec 1 1
      [(13421773 / 134217728, zeroVec), (13421773 / 134217728, zeroVec),
       (13421773 / 134217728, zeroVec), (13421773 / 134217728, zeroVec),
       (13421773 / 134217728, zeroVec), (13421773 / 134217728, zeroVec)]
      [(1, zeroVec)] 1 ⟨0, -10, 0⟩ (by simp) (by decide!) (by simp) (by norm_num)).2.2.1⟩

/-- C10, as stated, fails: from a default constructed particle, `reset` with `liveTime = 0`
gives a live particle with `liveTime = 0`; so does an `update` with the negative step `-1`. -/
theorem particle_liveTime_counterexample :
    (((Particle.new rawParticle).calls
        [Particle.Call.reset 0 zeroVec zeroVec 1 1 zeroVec zeroVec 1 1]).alive = true ∧
      ((Particle.new rawParticle).calls
        [Particle.Call.reset 0 zeroVec zeroVec 1 1 zeroVec zeroVec 1 1]).liveTime = 0) ∧
    (((Particle.new rawParticle).calls [Particle.Call.update (-1) zeroVec]).alive = true ∧
      ((Particle.new rawParticle).calls [Particle.Call.update (-1) zeroVec]).liveTime = 0) := by
  refine ⟨⟨rfl, rfl⟩, ?_, ?_⟩
  · simp [Particle.calls, Particle.call, Particle.update, Particle.new]
  · simp [Particle.calls, Particle.call, Particle.update, Particle.new]

/-- C10, amended: in every state reached from a default constructed particle by `reset`
calls with `liveTime > 0` and `update` calls with a step that is not negative, a live
particle has `liveTime > 0`. -/
theorem particle_liveTime_pos (raw : Particle F) (cs : List (Particle.Call F))
    (hcs : ∀ c ∈ cs, c.inContract) (halive : ((Particle.new raw).calls cs).alive = true) :
    0 < ((Particle.new raw).calls cs).liveTime :=
  (Particle.liveTimeOk_calls cs (Particle.new raw) hcs (Particle.liveTimeOk_new raw)).1 halive

/-- C10, amended, closed instance: `reset` with `liveTime = 2`, then `update` with step `1`. -/
theorem particle_liveTime_pos_witness :
    0 < ((Particle.new rawParticle).calls
      [Particle.Call.reset 2 zeroVec zeroVec 1 1 zeroVec zeroVec 1 1,
       Particle.Call.update 1 zeroVec]).liveTime :=
  particle_liveTime_pos rawParticle
    [Particle.Call.reset 2 zeroVec zeroVec 1 1 zeroVec zeroVec 1 1,
     Particle.Call.update 1 zeroVec]
    (by simp [Particle.Call.inContract])
    (by simp [Particle.calls, Particle.call, Particle.update, Particle.reset])

/-! ### The claims on the particle system -/

/-- C4: on a pool of `N ≥ 1` slots with the cursor at its initial value `0`, `k` spawn
bursts with `particlesPerSpawn = p` succeed and leave the cursor at `(k * p) mod N`. -/
theorem system_cursor_formula (R k : Nat) (s : ParticleSystem F) (g : RandSrc)
    (hlen : s.particles.length = s.maxAmountofParticles)
    (hN : 1 ≤ s.maxAmountofParticles) (h32 : s.maxAmountofParticles < 4294967296)
    (hcur : s.lastParticleSpawned = 0) :
    ∃ s' g', ParticleSystem.bursts R k s g = some (s', g') ∧
      s'.lastParticleSpawned = (k * s.particlesPerSpawn) % s.maxAmountofParticles := by
  have hinv : s.Inv := ⟨hlen, by rw [hcur]; exact hN⟩
  obtain ⟨s', g', hrun, hc⟩ := ParticleSystem.bursts_spec R k s g hinv h32
  refine ⟨s', g', hrun, ?_⟩
  rw [hc, hcur, Nat.zero_add]

/-- C4, closed instance: with `N = 10` and `p = 15` one burst from the initial cursor leaves
the cursor at `5`. -/
theorem system_cursor_formula_witness :
    ∃ s' g', ParticleSystem.bursts 32767 1 (sampleSystem 10 15 (1 / 100) 200) zeroRand =
        some (s', g') ∧ s'.lastParticleSpawned = 5 := by
  obtain ⟨s', g', hrun, hc⟩ :=
    system_cursor_formula 32767 1 (sampleSystem 10 15 (1 / 100) 200) zeroRand
      (by simp [sampleSystem, ParticleSystem.new, ParticleSystem.setParticleSpawns,
        ParticleSystem.setTTL])
      (by simp [sampleSystem, ParticleSystem.new, ParticleSystem.setParticleSpawns,
        ParticleSystem.setTTL])
      (by simp [sampleSystem, ParticleSystem.new, ParticleSystem.setParticleSpawns,
        ParticleSystem.setTTL])
      rfl
  exact ⟨s', g', hrun, hc⟩

/-- C5: for a system constructed with capacity `N ≥ 1`, every sequence of setter and
`update` calls (the empty one included) runs without an access outside the pool, and
afterwards the cursor is below `N`, the capacity is `N` and the pool has `N` slots. -/
theorem system_cursor_bound (R N : Nat) (raw : ParticleSystem F) (rawSlot : Nat → Particle F)
    (g : RandSrc) (cs : List (ParticleSystem.Call F)) (hN : 1 ≤ N) (h32 : N < 4294967296) :
    ∃ s' g', (ParticleSystem.new N raw rawSlot).calls R g cs = some (s', g') ∧
      s'.lastParticleSpawned < N ∧ s'.maxAmountofParticles = N ∧ s'.particles.length = N := by
  obtain ⟨s', g', hrun, hinv, hcap⟩ :=
    ParticleSystem.calls_inv R cs (ParticleSystem.new N raw rawSlot) g
      (ParticleSystem.new_inv N raw rawSlot hN) h32
  have hcap' : s'.maxAmountofParticles = N := hcap
  exact ⟨s', g', hrun, by rw [← hcap']; exact hinv.2, hcap', by rw [hinv.1, hcap']⟩

/-- C5, closed instance: capacity `3`, bursts of `2` every second, three updates. -/
theorem system_cursor_bound_witness :
    ∃ s' g', (ParticleSystem.new 3 rawSystem (fun _ => rawParticle)).calls 32767 zeroRand
        [ParticleSystem.Call.setParticleSpawns 2 1, ParticleSystem.Call.setTTL 5,
         ParticleSystem.Call.update 1, ParticleSystem.Call.update (1 / 2),
         ParticleSystem.Call.update 1] = some (s', g') ∧
      s'.lastParticleSpawned < 3 ∧ s'.maxAmountofParticles = 3 ∧ s'.particles.length = 3 :=
  system_cursor_bound 32767 3 rawSystem (fun _ => rawParticle) zeroRand
    [ParticleSystem.Call.setParticleSpawns 2 1, ParticleSystem.Call.setTTL 5,
     ParticleSystem.Call.update 1, ParticleSystem.Call.update (1 / 2),
     ParticleSystem.Call.update 1] (by decide) (by decide)

/-- C6: `update(dt)` on a system that satisfies the pool invariant.  If the clock increased
by `dt` is below `spawnInterval`, no burst happens: the generator is untouched, the clock
keeps the increased value and the pool is the old pool with every slot updated with `dt` and
the global force.  Otherwise exactly one burst happens: the result is the state after one
`spawnParticles` call with the clock set to `0` and every slot updated. -/
theorem system_update_timing (R : Nat) (dt : F) (s : ParticleSystem F) (g : RandSrc)
    (hinv : s.Inv) (h32 : s.maxAmountofParticles < 4294967296) :
    (s.timeSinceLastSpawn + dt < s.spawnInterval →
      s.update R dt g =
        some ({ s with
                timeSinceLastSpawn := s.timeSinceLastSpawn + dt
                particles := s.particles.map (fun p => p.update dt s.globalExternalForce) },
              g)) ∧
    (s.spawnInterval ≤ s.timeSinceLastSpawn + dt →
      ∃ sb gb, s.spawnParticles R g = some (sb, gb) ∧
        s.update R dt g =
          some ({ sb with
                  timeSinceLastSpawn := 0
                  particles :=
                    sb.particles.map (fun p => p.update dt s.globalExternalForce) },
                gb)) := by
  refine ⟨fun h => ParticleSystem.update_of_lt R dt s g hinv.1 h, fun h => ?_⟩
  obtain ⟨sb, gb, hsb, hinvb, -, -, hf, -⟩ := ParticleSystem.spawnParticles_inv R s g hinv h32
  refine ⟨sb, gb, hsb, ?_⟩
  rw [← hf]
  exact ParticleSystem.update_of_ge R dt s sb g gb hsb hinvb.1 h

/-- C6, closed instance: capacity `3`, bursts of `2`, `spawnInterval = 1`, clock `0`.  With
`dt = 1/2` there is no burst and the clock becomes `1/2`; with `dt = 3` there is one burst
(the cursor moves from `0` to `2`) and the clock becomes `0`, not `2`. -/
theorem system_update_timing_witness :
    (∃ s' g', (sampleSystem 3 2 1 5).update 32767 (1 / 2) zeroRand = some (s', g') ∧
      s'.timeSinceLastSpawn = 1 / 2 ∧ s'.lastParticleSpawned = 0) ∧
    (∃ s' g', (sampleSystem 3 2 1 5).update 32767 3 zeroRand = some (s', g') ∧
      s'.timeSinceLastSpawn = 0 ∧ s'.lastParticleSpawned = 2) := by
  have hinv : (sampleSystem 3 2 1 5).Inv := by
    constructor <;> simp [sampleSystem, ParticleSystem.new, ParticleSystem.setParticleSpawns,
      ParticleSystem.setTTL]
  have h32 : (sampleSystem 3 2 1 5).maxAmountofParticles < 4294967296 := by
    simp [sampleSystem, ParticleSystem.new, ParticleSystem.setParticleSpawns,
      ParticleSystem.setTTL]
  constructor
  · have h := (system_update_timing 32767 (1 / 2) (sampleSystem 3 2 1 5) zeroRand hinv h32).1
      (by norm_num [sampleSystem, ParticleSystem.new, ParticleSystem.setParticleSpawns,
        ParticleSystem.setTTL])
    refine ⟨_, _, h, ?_, rfl⟩
    norm_num [sampleSystem, ParticleSystem.new, ParticleSystem.setParticleSpawns,
      ParticleSystem.setTTL]
  · obtain ⟨sb, gb, hsb, h⟩ :=
      (system_update_timing 32767 3 (sampleSystem 3 2 1 5) zeroRand hinv h32).2
        (by norm_num [sampleSystem, ParticleSystem.new, ParticleSystem.setParticleSpawns,
          ParticleSystem.setTTL])
    obtain ⟨sb', gb', hsb', -, -, -, -, hc⟩ :=
      ParticleSystem.spawnParticles_inv 32767 (sampleSystem 3 2 1 5) zeroRand hinv h32
    have hsame : sb = sb' := by
      have : some (sb, gb) = some (sb', gb') := hsb.symm.trans hsb'
      injection this with h1
      injection h1
    refine ⟨_, _, h, rfl, ?_⟩
    show sb.lastParticleSpawned = 2
    rw [hsame, hc]
    rfl

/-- C7: a burst on a pool of `N` slots with cursor `c < N` and `particlesPerSpawn = p`
succeeds; every slot `(c + i) mod N` with `i < p` is afterwards alive with `ttl` (and
`liveTime`) equal to the configured time to live, whatever it held before, and every other
slot is unchanged. -/
theorem spawn_burst_recycles (R : Nat) (s : ParticleSystem F) (g : RandSrc)
    (hlen : s.particles.length = s.maxAmountofParticles)
    (hcur : s.lastParticleSpawned < s.maxAmountofParticles)
    (h32 : s.maxAmountofParticles < 4294967296) :
    ∃ s' g', s.spawnParticles R g = some (s', g') ∧
      s'.particles.length = s.maxAmountofParticles ∧
      ∀ j, j < s.maxAmountofParticles → ∃ q, s'.particles[j]? = some q ∧
        ((∃ i, i < s.particlesPerSpawn ∧
            (s.lastParticleSpawned + i) % s.maxAmountofParticles = j) →
          q.alive = true ∧ q.ttl = s.ttl ∧ q.liveTime = s.ttl) ∧
        ((¬ ∃ i, i < s.particlesPerSpawn ∧
            (s.lastParticleSpawned + i) % s.maxAmountofParticles = j) →
          s.particles[j]? = some q) := by
  obtain ⟨s', g', hrun, -, -, hlen', hslots⟩ :=
    ParticleSystem.spawnParticlesLoop_spec R s.particlesPerSpawn s g ⟨hlen, hcur⟩ h32
  exact ⟨s', g', hrun, by rw [hlen', hlen], hslots⟩

/-- C7, closed instance: capacity `5`, cursor `0`, bursts of `3`, time to live `7`.  Slot `2`
is respawned, slot `4` is left as it was. -/
theorem spawn_burst_recycles_witness :
    ∃ s' g', (sampleSystem 5 3 1 7).spawnParticles 32767 zeroRand = some (s', g') ∧
      (∃ q, s'.particles[2]? = some q ∧ q.alive = true ∧ q.ttl = 7) ∧
      s'.particles[4]? = (sampleSystem 5 3 1 7).particles[4]? := by
  obtain ⟨s', g', hrun, -, hslots⟩ :=
    spawn_burst_recycles 32767 (sampleSystem 5 3 1 7) zeroRand
      (by simp [sampleSystem, ParticleSystem.new, ParticleSystem.setParticleSpawns,
        ParticleSystem.setTTL])
      (by simp [sampleSystem, ParticleSystem.new, ParticleSystem.setParticleSpawns,
        ParticleSystem.setTTL])
      (by simp [sampleSystem, ParticleSystem.new, ParticleSystem.setParticleSpawns,
        ParticleSystem.setTTL])
  refine ⟨s', g', hrun, ?_, ?_⟩
  · obtain ⟨q, hq, hhit, -⟩ := hslots 2 (by decide)
    obtain ⟨ha, ht, -⟩ := hhit ⟨2, by decide, by decide⟩
    exact ⟨q, hq, ha, ht⟩
  · obtain ⟨q, hq, -, hmiss⟩ := hslots 4 (by decide)
    rw [hq]
    refine (hmiss ?_).symm
    rintro ⟨i, hi, hj⟩
    have hi' : i < 3 := hi
    have hj' : (0 + i) % 5 = 4 := hj
    omega

/-- C8: on a fresh pool (cursor `0`, clock `0`) of `N` slots with `particlesPerSpawn = N`,
`spawnInterval ≤ dt` and `0 ≤ dt < ttl`, one `update(dt)` succeeds and afterwards the pool
has `N` slots, each of them respawned (`liveTime` is the configured time to live, `ttl` is
that value minus `dt`) and alive. -/
theorem full_pool_update (R : Nat) (dt : F) (s : ParticleSystem F) (g : RandSrc)
    (hlen : s.particles.length = s.maxAmountofParticles)
    (h32 : s.maxAmountofParticles < 4294967296)
    (hcur : s.lastParticleSpawned = 0) (hclock : s.timeSinceLastSpawn = 0)
    (hp : s.particlesPerSpawn = s.maxAmountofParticles)
    (hiv : s.spawnInterval ≤ dt) (_hdt : 0 ≤ dt) (httl : dt < s.ttl) :
    ∃ s' g', s.update R dt g = some (s', g') ∧
      s'.particles.length = s.maxAmountofParticles ∧
      ∀ q ∈ s'.particles, q.alive = true ∧ q.liveTime = s.ttl ∧ q.ttl = s.ttl - dt := by
  have hge : s.spawnInterval ≤ s.timeSinceLastSpawn + dt := by rw [hclock, zero_add]; exact hiv
  rcases Nat.eq_zero_or_pos s.maxAmountofParticles with h0 | hpos
  · -- an empty pool: the burst and the slot loop do nothing
    have hnil : s.particles = [] := List.eq_nil_of_length_eq_zero (hlen.trans h0)
    have hsb : s.spawnParticles R g = some (s, g) := by
      simp only [ParticleSystem.spawnParticles, hp, h0, ParticleSystem.spawnParticlesLoop]
    refine ⟨_, _, ParticleSystem.update_of_ge R dt s s g g hsb hlen hge, ?_, ?_⟩
    · simp [hnil, h0]
    · simp [hnil]
  · have hinv : s.Inv := ⟨hlen, by rw [hcur]; exact hpos⟩
    obtain ⟨sb, gb, hsb, -, -, hlenb, hslots⟩ :=
      ParticleSystem.spawnParticlesLoop_spec R s.particlesPerSpawn s g hinv h32
    have hframe : sb.maxAmountofParticles = s.maxAmountofParticles := by
      obtain ⟨_, _, hsb', -, hN, -⟩ := ParticleSystem.spawnParticles_inv R s g hinv h32
      have : some (sb, gb) = some (_, _) := hsb.symm.trans hsb'
      injection this with h1
      injection h1 with h2 h3
      rw [h2]; exact hN
    have hlenb' : sb.particles.length = sb.maxAmountofParticles := by
      rw [hlenb, hframe]; exact hlen
    refine ⟨_, _, ParticleSystem.update_of_ge R dt s sb g gb hsb hlenb' hge, ?_, ?_⟩
    · simp [hlenb, hlen]
    · intro q hq
      simp only [List.mem_map] at hq
      obtain ⟨q0, hq0, rfl⟩ := hq
      obtain ⟨j, hj, hjq⟩ := List.getElem_of_mem hq0
      have hjN : j < s.maxAmountofParticles := by rw [← hlen, ← hlenb]; exact hj
      obtain ⟨q1, hq1, hhit, -⟩ := hslots j hjN
      have hq01 : q1 = q0 := by
        rw [List.getElem?_eq_getElem hj, hjq] at hq1
        exact (Option.some.inj hq1).symm
      have hall := hhit (hit_of_le _ _ _ _ hinv.2 hjN (by rw [hp]))
      rw [hq01] at hall
      obtain ⟨-, ht, hl⟩ := hall
      refine ⟨?_, ?_, ?_⟩
      · rw [Particle.update_alive, ht]
        simpa using httl
      · rw [Particle.update_liveTime, hl]
      · rw [Particle.update_ttl, ht]

/-- C8, closed instance: capacity `1000`, `particlesPerSpawn = 1000`, time to live `200`,
`spawnInterval = 0.01` and one `update(0.01)`. -/
theorem full_pool_update_witness :
    ∃ s' g', (sampleSystem 1000 1000 (1 / 100) 200).update 32767 (1 / 100) zeroRand =
        some (s', g') ∧
      s'.particles.length = 1000 ∧
      ∀ q ∈ s'.particles, q.alive = true ∧ q.liveTime = 200 ∧ q.ttl = 200 - 1 / 100 :=
  full_pool_update 32767 (1 / 100) (sampleSystem 1000 1000 (1 / 100) 200) zeroRand
    (sampleSystem_length 1000 1000 (1 / 100) 200)
    (by rw [sampleSystem_capacity]; decide)
    rfl rfl rfl
    (by norm_num [sampleSystem, ParticleSystem.new, ParticleSystem.setParticleSpawns,
      ParticleSystem.setTTL])
    (by norm_num)
    (by norm_num [sampleSystem, ParticleSystem.new, ParticleSystem.setParticleSpawns,
      ParticleSystem.setTTL])

/-! ## Vectors and the math library: auxiliary facts -/

@[simp]
theorem Vec3.sub_def {K : Type} [Sub K] (a b : Vec3 K) :
    a - b = ⟨a.x - b.x, a.y - b.y, a.z - b.z⟩ :=
  rfl

theorem glm.dot_comm (a b : Vec3 F) : glm.dot a b = glm.dot b a := by
  simp only [glm.dot]; ring

theorem glm.dot_cross_left (a b : Vec3 F) : glm.dot (glm.cross a b) a = 0 := by
  simp only [glm.dot, glm.cross]; ring

theorem glm.dot_cross_right (a b : Vec3 F) : glm.dot (glm.cross a b) b = 0 := by
  simp only [glm.dot, glm.cross]; ring

theorem glm.dot_scale_left (a b : Vec3 F) (k : F) :
    glm.dot (a * k) b = glm.dot a b * k := by
  simp only [glm.dot, Vec3.scale_def]; ring

theorem glm.dot_scale_right (a b : Vec3 F) (k : F) :
    glm.dot a (b * k) = glm.dot a b * k := by
  simp only [glm.dot, Vec3.scale_def]; ring

theorem glm.cross_scale_left (a b : Vec3 F) (k : F) :
    glm.cross (a * k) b = glm.cross a b * k := by
  simp only [glm.cross, Vec3.scale_def, Vec3.mk.injEq]
  refine ⟨?_, ?_, ?_⟩ <;> ring

theorem glm.cross_scale_right (a b : Vec3 F) (k : F) :
    glm.cross a (b * k) = glm.cross a b * k := by
  simp only [glm.cross, Vec3.scale_def, Vec3.mk.injEq]
  refine ⟨?_, ?_, ?_⟩ <;> ring

/-- The identity of Lagrange for the cross product. -/
theorem glm.dot_cross_self (a b : Vec3 F) :
    glm.dot (glm.cross a b) (glm.cross a b) =
      glm.dot a a * glm.dot b b - glm.dot a b * glm.dot a b := by
  simp only [glm.dot, glm.cross]; ring

/-- The triple product expansion `a × (b × a) = b (a · a) - a (a · b)`. -/
theorem glm.cross_cross (a b : Vec3 F) :
    glm.cross a (glm.cross b a) = b * glm.dot a a - a * glm.dot a b := by
  simp only [glm.dot, glm.cross, Vec3.scale_def, Vec3.sub_def, Vec3.mk.injEq]
  refine ⟨?_, ?_, ?_⟩ <;> ring

theorem glm.dot_self_nonneg (v : Vec3 F) : 0 ≤ glm.dot v v := by
  simp only [glm.dot]
  nlinarith [mul_self_nonneg v.x, mul_self_nonneg v.y, mul_self_nonneg v.z]

theorem glm.dot_self_pos (v : Vec3 F) (h : v ≠ ⟨0, 0, 0⟩) : 0 < glm.dot v v := by
  rcases lt_or_eq_of_le (glm.dot_self_nonneg v) with h1 | h1
  · exact h1
  · exfalso
    apply h
    simp only [glm.dot] at h1
    have hx : v.x * v.x = 0 := by
      nlinarith [mul_self_nonneg v.x, mul_self_nonneg v.y, mul_self_nonneg v.z]
    have hy : v.y * v.y = 0 := by
      nlinarith [mul_self_nonneg v.x, mul_self_nonneg v.y, mul_self_nonneg v.z]
    have hz : v.z * v.z = 0 := by
      nlinarith [mul_self_nonneg v.x, mul_self_nonneg v.y, mul_self_nonneg v.z]
    exact Vec3.ext (mul_self_eq_zero.mp hx) (mul_self_eq_zero.mp hy) (mul_self_eq_zero.mp hz)

theorem LibM.Exact.sqrt_pos {M : LibM F} (hM : M.Exact) (x : F) (hx : 0 < x) :
    0 < M.sqrt x := by
  rcases lt_or_eq_of_le (hM.sqrt_nonneg x) with h | h
  · exact h
  · exfalso
    have := hM.sqrt_mul_self x hx.le
    rw [← h] at this
    simp at this
    exact absurd this.symm (ne_of_gt hx)

theorem LibM.Exact.sqrt_one {M : LibM F} (hM : M.Exact) : M.sqrt 1 = 1 := by
  have h1 := hM.sqrt_mul_self 1 zero_le_one
  have h2 := hM.sqrt_nonneg 1
  nlinarith [mul_self_nonneg (M.sqrt 1 - 1)]

/-- The square root of a square of a positive number. -/
theorem LibM.Exact.sqrt_mul_self_pos {M : LibM F} (hM : M.Exact) (x : F) (hx : 0 < x) :
    M.sqrt (x * x) = x := by
  have h1 := hM.sqrt_mul_self (x * x) (mul_self_nonneg x)
  have h2 := hM.sqrt_nonneg (x * x)
  have h3 : (M.sqrt (x * x) - x) * (M.sqrt (x * x) + x) = 0 := by ring_nf; ring_nf at h1; linarith
  rcases mul_eq_zero.mp h3 with h | h
  · linarith
  · linarith

theorem glm.normalize_eq (M : LibM F) (v : Vec3 F) :
    glm.normalize M v = v * (1 / M.sqrt (glm.dot v v)) :=
  rfl

/-- Normalizing a vector that is not zero gives a unit vector. -/
theorem glm.normalize_unit {M : LibM F} (hM : M.Exact) (v : Vec3 F) (hv : 0 < glm.dot v v) :
    glm.dot (glm.normalize M v) (glm.normalize M v) = 1 := by
  have hs := hM.sqrt_pos _ hv
  have hsq := hM.sqrt_mul_self _ hv.le
  rw [glm.normalize_eq, glm.dot_scale_left, glm.dot_scale_right]
  have hne : M.sqrt (glm.dot v v) ≠ 0 := ne_of_gt hs
  nth_rewrite 1 [← hsq]
  field_simp

/-- Normalizing a unit vector changes nothing. -/
theorem glm.normalize_of_unit {M : LibM F} (hM : M.Exact) (v : Vec3 F)
    (hv : glm.dot v v = 1) : glm.normalize M v = v := by
  rw [glm.normalize_eq, hv, hM.sqrt_one]
  simp

/-! ## Life fraction and rendering: auxiliary facts -/

theorem Particle.updates_liveTime (cs : List (F × Vec3 F)) (p : Particle F) :
    (p.updates cs).liveTime = p.liveTime := by
  induction cs generalizing p with
  | nil => rfl
  | cons c cs ih => rw [Particle.updates_cons, ih, Particle.update_liveTime]

theorem glm.clamp_mono (x y lo hi : F) (h : x ≤ y) : glm.clamp x lo hi ≤ glm.clamp y lo hi :=
  min_le_min (max_le_max h le_rfl) le_rfl

theorem glm.clamp_mem (x lo hi : F) (h : lo ≤ hi) :
    lo ≤ glm.clamp x lo hi ∧ glm.clamp x lo hi ≤ hi :=
  ⟨le_min (le_max_right _ _) h, min_le_right _ _⟩

/-- The scalar `glm::mix` in the form `x + (y - x) * a`. -/
theorem glm.mix_eq (x y a : F) : glm.mix x y a = x + (y - x) * a := by
  simp only [glm.mix]; ring

/-- With a positive `liveTime`, less time to live means a larger life fraction. -/
theorem Particle.lifeFraction_mono (p q : Particle F) (hl : q.liveTime = p.liveTime)
    (hpos : 0 < p.liveTime) (httl : q.ttl ≤ p.ttl) : p.lifeFraction ≤ q.lifeFraction := by
  apply glm.clamp_mono
  rw [hl]
  have : q.ttl / p.liveTime ≤ p.ttl / p.liveTime := div_le_div_of_nonneg_right httl hpos.le
  linarith

/-- With a positive `liveTime` and no time left to live, the life fraction is `1`. -/
theorem Particle.lifeFraction_of_ttl_nonpos (p : Particle F) (hpos : 0 < p.liveTime)
    (httl : p.ttl ≤ 0) : p.lifeFraction = 1 := by
  have h1 : p.ttl / p.liveTime ≤ 0 := div_nonpos_of_nonpos_of_nonneg httl hpos.le
  have h2 : (1 : F) ≤ max (1 - p.ttl / p.liveTime) 0 := le_max_of_le_left (by linarith)
  exact min_eq_right h2

/-- Updates with steps that are not negative do not increase `ttl`. -/
theorem Particle.updates_ttl_le (cs : List (F × Vec3 F)) (hcs : ∀ c ∈ cs, 0 ≤ c.1)
    (p : Particle F) : (p.updates cs).ttl ≤ p.ttl := by
  induction cs generalizing p with
  | nil => exact le_rfl
  | cons c cs ih =>
    have hc : 0 ≤ c.1 := hcs c (List.mem_cons_self _ _)
    have h1 := ih (fun d hd => hcs d (List.mem_cons_of_mem _ hd)) (p.update c.1 c.2)
    rw [Particle.update_ttl] at h1
    rw [Particle.updates_cons]
    linarith

/-! ### The claims on the life of a particle and on its rendering -/

/-- C11: `update` leaves `liveTime`, `initialScale`, `finalScale`, `initialColor`,
`finalColor`, `initialAlpha` and `finalAlpha` unchanged; the result is the old particle
with only `position`, `direction`, `ttl` and `alive` replaced. -/
theorem particle_update_frame (p : Particle F) (dt : F) (f : Vec3 F) :
    (p.update dt f).liveTime = p.liveTime ∧
    (p.update dt f).initialScale = p.initialScale ∧
    (p.update dt f).finalScale = p.finalScale ∧
    (p.update dt f).initialColor = p.initialColor ∧
    (p.update dt f).finalColor = p.finalColor ∧
    (p.update dt f).initialAlpha = p.initialAlpha ∧
    (p.update dt f).finalAlpha = p.finalAlpha ∧
    p.update dt f =
      { p with
        position := (p.update dt f).position
        direction := (p.update dt f).direction
        ttl := (p.update dt f).ttl
        alive := (p.update dt f).alive } := by
  by_cases h : p.ttl - dt > 0 <;> simp [Particle.update, h]

/-- C12, as stated, fails in binary32: a particle reset with `liveTime = 1` and updated with
the steps `2 ^ (-25)`, `2 ^ (-25)` and `1 - 2 ^ (-24)`, which are binary32 numbers that sum
to `liveTime`, still has `ttl = 2 ^ (-24) > 0`, is alive, and its life fraction is
`1 - 2 ^ (-24)`, not `1`. -/
theorem life_fraction_counterexample :
    (0 : ℚ) < 1 ∧
    (∀ c ∈ ([(1 / 33554432, zeroVec), (1 / 33554432, zeroVec),
        (16777215 / 16777216, zeroVec)] : List (ℚ × Vec3 ℚ)), 0 ≤ c.1 ∧ fl32 c.1 = c.1) ∧
    (1 : ℚ) ≤
      (([(1 / 33554432, zeroVec), (1 / 33554432, zeroVec),
         (16777215 / 16777216, zeroVec)] : List (ℚ × Vec3 ℚ)).map Prod.fst).sum ∧
    ((rawParticle.reset 1 zeroVec zeroVec 1 1 zeroVec zeroVec 1 1).updatesFl fl32
      [(1 / 33554432, zeroVec), (1 / 33554432, zeroVec),
       (16777215 / 16777216, zeroVec)]).ttl = 1 / 16777216 ∧
    ((rawParticle.reset 1 zeroVec zeroVec 1 1 zeroVec zeroVec 1 1).updatesFl fl32
      [(1 / 33554432, zeroVec), (1 / 33554432, zeroVec),
       (16777215 / 16777216, zeroVec)]).alive = true ∧
    ((rawParticle.reset 1 zeroVec zeroVec 1 1 zeroVec zeroVec 1 1).updatesFl fl32
      [(1 / 33554432, zeroVec), (1 / 33554432, zeroVec),
       (16777215 / 16777216, zeroVec)]).lifeFractionFl fl32 = 16777215 / 16777216 ∧
    ((rawParticle.reset 1 zeroVec zeroVec 1 1 zeroVec zeroVec 1 1).updatesFl fl32
      [(1 / 33554432, zeroVec), (1 / 33554432, zeroVec),
       (16777215 / 16777216, zeroVec)]).lifeFractionFl fl32 ≠ 1 := by
  refine ⟨by norm_num, by decide!, by norm_num, by decide!, by decide!, by decide!, by decide!⟩

/-- C12, amended: for a particle reset with `liveTime > 0`, the life fraction is `0` right
after the reset, lies in `[0, 1]` after any updates, does not decrease along further updates
with steps that are not negative, and is `1` in every state with `ttl ≤ 0`, which an update
with a step of at least the current `ttl` reaches. -/
theorem life_fraction_spec (p : Particle F) (liveTime : F)
    (position direction : Vec3 F) (initialScale finalScale : F)
    (initialColor finalColor : Vec3 F) (initialAlpha finalAlpha : F)
    (steps more : List (F × Vec3 F))
    (hpos : 0 < liveTime) (hmore : ∀ c ∈ more, 0 ≤ c.1) :
    (p.reset liveTime position direction initialScale finalScale initialColor finalColor
        initialAlpha finalAlpha).lifeFraction = 0 ∧
    (0 ≤ ((p.reset liveTime position direction initialScale finalScale initialColor
        finalColor initialAlpha finalAlpha).updates steps).lifeFraction ∧
      ((p.reset liveTime position direction initialScale finalScale initialColor
        finalColor initialAlpha finalAlpha).updates steps).lifeFraction ≤ 1) ∧
    ((p.reset liveTime position direction initialScale finalScale initialColor
        finalColor initialAlpha finalAlpha).updates steps).lifeFraction ≤
      (((p.reset liveTime position direction initialScale finalScale initialColor
        finalColor initialAlpha finalAlpha).updates steps).updates more).lifeFraction ∧
    (((p.reset liveTime position direction initialScale finalScale initialColor
        finalColor initialAlpha finalAlpha).updates steps).ttl ≤ 0 →
      ((p.reset liveTime position direction initialScale finalScale initialColor
        finalColor initialAlpha finalAlpha).updates steps).lifeFraction = 1) ∧
    (∀ (dt : F) (f : Vec3 F),
      ((p.reset liveTime position direction initialScale finalScale initialColor
        finalColor initialAlpha finalAlpha).updates steps).ttl ≤ dt →
      (((p.reset liveTime position direction initialScale finalScale initialColor
        finalColor initialAlpha finalAlpha).updates steps).update dt f).lifeFraction = 1) := by
  generalize hq : p.reset liveTime position direction initialScale finalScale initialColor
    finalColor initialAlpha finalAlpha = q
  have hqt : q.ttl = liveTime := by rw [← hq]; rfl
  have hql : q.liveTime = liveTime := by rw [← hq]; rfl
  have hl1 : (q.updates steps).liveTime = liveTime := by rw [Particle.updates_liveTime, hql]
  refine ⟨?_, glm.clamp_mem _ 0 1 zero_le_one, ?_, ?_, ?_⟩
  · simp only [Particle.lifeFraction, glm.clamp, hqt, hql, div_self (ne_of_gt hpos)]
    simp
  · apply Particle.lifeFraction_mono
    · rw [Particle.updates_liveTime]
    · rw [hl1]; exact hpos
    · exact Particle.updates_ttl_le more hmore _
  · intro hdead
    apply Particle.lifeFraction_of_ttl_nonpos
    · rw [hl1]; exact hpos
    · exact hdead
  · intro dt f hdt
    apply Particle.lifeFraction_of_ttl_nonpos
    · rw [Particle.update_liveTime, hl1]; exact hpos
    · rw [Particle.update_ttl]; linarith

/-- C12, amended, closed instance: `liveTime = 2`, one step of `1`, then one more step of
`1`, which is at least the `ttl` that is left. -/
theorem life_fraction_spec_witness :
    (rawParticle.reset 2 zeroVec zeroVec 1 1 zeroVec zeroVec 1 1).lifeFraction = 0 ∧
    ((rawParticle.reset 2 zeroVec zeroVec 1 1 zeroVec zeroVec 1 1).updates
        [(1, zeroVec)]).lifeFraction ≤
      (((rawParticle.reset 2 zeroVec zeroVec 1 1 zeroVec zeroVec 1 1).updates
        [(1, zeroVec)]).updates [(1, zeroVec)]).lifeFraction ∧
    (((rawParticle.reset 2 zeroVec zeroVec 1 1 zeroVec zeroVec 1 1).updates
        [(1, zeroVec)]).update 1 zeroVec).lifeFraction = 1 :=
  ⟨(life_fraction_spec rawParticle 2 zeroVec zeroVec 1 1 zeroVec zeroVec 1 1
      [(1, zeroVec)] [(1, zeroVec)] (by norm_num) (by simp)).1,
    (life_fraction_spec rawParticle 2 zeroVec zeroVec 1 1 zeroVec zeroVec 1 1
      [(1, zeroVec)] [(1, zeroVec)] (by norm_num) (by simp)).2.2.1,
    (life_fraction_spec rawParticle 2 zeroVec zeroVec 1 1 zeroVec zeroVec 1 1
      [(1, zeroVec)] [(1, zeroVec)] (by norm_num) (by simp)).2.2.2.2 1 zeroVec
      (by decide!)⟩

/-- C13: a live particle sends to the shader its billboard matrix, the scale
`initialScale + (finalScale - initialScale) * t` and the colour made of the three channels
`initialColor + (finalColor - initialColor) * t` and the alpha
`initialAlpha + (finalAlpha - initialAlpha) * t`, where `t` is its life fraction; a dead
particle sends nothing. -/
theorem particle_draw_spec (M : LibM F) (p : Particle F) (camera : Camera F) :
    (p.alive = true →
      p.draw M camera =
        [ RenderCall.setMat4 UniformName.model (p.computeBillBoardMatrix M camera),
          RenderCall.setFloat UniformName.scale
            (p.initialScale + (p.finalScale - p.initialScale) * p.lifeFraction),
          RenderCall.setVec4 UniformName.color
            ⟨p.initialColor.x + (p.finalColor.x - p.initialColor.x) * p.lifeFraction,
             p.initialColor.y + (p.finalColor.y - p.initialColor.y) * p.lifeFraction,
             p.initialColor.z + (p.finalColor.z - p.initialColor.z) * p.lifeFraction,
             p.initialAlpha + (p.finalAlpha - p.initialAlpha) * p.lifeFraction⟩ ]) ∧
    (p.alive = false → p.draw M camera = []) := by
  constructor
  · intro h
    simp only [Particle.draw, h, Bool.not_true, Bool.false_eq_true, if_false, glm.mixVec,
      glm.mix_eq]
  · intro h
    simp only [Particle.draw, h, Bool.not_false, if_true]

/-- C13, closed instance: a live particle at half of its life sends the scale `2`, the
grey `(1/2, 1/2, 1/2)` and the alpha `3/4`; the same particle marked dead sends nothing. -/
theorem particle_draw_spec_witness :
    fadingParticle.draw realMath sampleCamera =
        [ RenderCall.setMat4 UniformName.model
            (fadingParticle.computeBillBoardMatrix realMath sampleCamera),
          RenderCall.setFloat UniformName.scale 2,
          RenderCall.setVec4 UniformName.color ⟨1 / 2, 1 / 2, 1 / 2, 3 / 4⟩ ] ∧
      Particle.draw realMath { fadingParticle with alive := false } sampleCamera = [] := by
  have ht : fadingParticle.lifeFraction = 1 / 2 := by
    simp only [Particle.lifeFraction, glm.clamp, fadingParticle]
    norm_num
  refine ⟨?_, (particle_draw_spec realMath _ sampleCamera).2 rfl⟩
  rw [(particle_draw_spec realMath fadingParticle sampleCamera).1 rfl, ht]
  norm_num [fadingParticle]

/-! ## Camera and billboard: auxiliary facts -/

/-- The math library over the real numbers satisfies the laws. -/
theorem realMath_exact : realMath.Exact where
  pi_pos := Real.pi_pos
  sqrt_nonneg := Real.sqrt_nonneg
  sqrt_mul_self := fun _ hx => Real.mul_self_sqrt hx
  sin_sq_add_cos_sq := fun x => by
    have := Real.sin_sq_add_cos_sq x
    simpa [sq] using this
  cos_pos := fun _ h1 h2 => Real.cos_pos_of_mem_Ioo ⟨h1, h2⟩

/-- From a unit `f` and a unit `r` orthogonal to it, `normalize(cross(r, f))` completes a
right-handed orthonormal triple `(f, normalize(cross(r, f)), r)`. -/
theorem rightHanded_of {M : LibM F} (hM : M.Exact) (f r : Vec3 F)
    (hf : glm.dot f f = 1) (hr : glm.dot r r = 1) (hfr : glm.dot f r = 0) :
    RightHanded f (glm.normalize M (glm.cross r f)) r := by
  have hrf : glm.dot r f = 0 := by rw [glm.dot_comm]; exact hfr
  have hunit : glm.dot (glm.cross r f) (glm.cross r f) = 1 := by
    rw [glm.dot_cross_self, hf, hr, hrf]; ring
  rw [glm.normalize_of_unit hM _ hunit]
  refine ⟨hf, hunit, hr, ?_, hfr, ?_, ?_⟩
  · rw [glm.dot_comm]; exact glm.dot_cross_right r f
  · exact glm.dot_cross_left r f
  · rw [glm.cross_cross, hf, hfr]
    simp

/-- The right vector that the constructor and `resetPosition` compute. -/
theorem canonical_right (M : LibM F) (hsqrt : M.sqrt 1 = 1) :
    glm.normalize M (glm.cross ⟨0, 0, -1⟩ ⟨0, 1, 0⟩) = ⟨1, 0, 0⟩ := by
  simp [glm.normalize, glm.inversesqrt, glm.cross, glm.dot, hsqrt]

/-- The canonical orientation is a right-handed orthonormal triple. -/
theorem canonical_rightHanded :
    RightHanded (⟨0, 0, -1⟩ : Vec3 F) ⟨0, 1, 0⟩ ⟨1, 0, 0⟩ := by
  simp [RightHanded, glm.dot, glm.cross]

theorem Camera.new_basis {M : LibM F} (hM : M.Exact) (position : Vec3 F)
    (fov near far speed sens : F) : (Camera.new M position fov near far speed sens).Basis := by
  simp only [Camera.Basis, Camera.new, canonical_right M hM.sqrt_one]
  exact canonical_rightHanded

theorem Camera.resetPosition_basis {M : LibM F} (hM : M.Exact) (c : Camera F)
    (position : Vec3 F) : (c.resetPosition M position).Basis := by
  simp only [Camera.Basis, Camera.resetPosition, canonical_right M hM.sqrt_one]
  exact canonical_rightHanded

theorem Camera.moveCamera_basis (c : Camera F) (d : CameraDirection) (dt : F)
    (h : c.Basis) : (c.moveCamera d dt).Basis := by
  cases d <;> exact h

/-- The pitch that `lookAround` stores lies in `[-89, 89]`. -/
theorem Camera.lookAround_pitch_mem (M : LibM F) (c : Camera F) (delta : Vec2 F) :
    -89 ≤ (c.lookAround M delta).pitchAngle ∧ (c.lookAround M delta).pitchAngle ≤ 89 := by
  refine ⟨le_max_left _ _, max_le (by norm_num) (min_le_left _ _)⟩

/-- The cosine of a pitch in `[-89, 89]` degrees is positive. -/
theorem cos_radians_pos {M : LibM F} (hM : M.Exact) (pitch : F) (h1 : -89 ≤ pitch)
    (h2 : pitch ≤ 89) : 0 < M.cos (glm.radians M pitch) := by
  have hpi := hM.pi_pos
  apply hM.cos_pos
  · simp only [glm.radians]
    nlinarith
  · simp only [glm.radians]
    nlinarith

/-- The vector of the spherical formula of `lookAround` is a unit vector. -/
theorem spherical_unit {M : LibM F} (hM : M.Exact) (yaw pitch : F) :
    glm.dot (⟨M.cos yaw * M.cos pitch, M.sin pitch, M.sin yaw * M.cos pitch⟩ : Vec3 F)
      ⟨M.cos yaw * M.cos pitch, M.sin pitch, M.sin yaw * M.cos pitch⟩ = 1 := by
  have hy := hM.sin_sq_add_cos_sq yaw
  have hp := hM.sin_sq_add_cos_sq pitch
  simp only [glm.dot]
  linear_combination (M.cos pitch * M.cos pitch) * hy + hp

theorem Camera.lookAround_basis {M : LibM F} (hM : M.Exact) (c : Camera F)
    (delta : Vec2 F) : (c.lookAround M delta).Basis := by
  obtain ⟨hp1, hp2⟩ := Camera.lookAround_pitch_mem M c delta
  have hcos := cos_radians_pos hM _ hp1 hp2
  have hy := hM.sin_sq_add_cos_sq (glm.radians M (c.lookAround M delta).yawAngle)
  -- the front vector
  have hfront : (c.lookAround M delta).frontVector =
      ⟨M.cos (glm.radians M (c.lookAround M delta).yawAngle) *
          M.cos (glm.radians M (c.lookAround M delta).pitchAngle),
        M.sin (glm.radians M (c.lookAround M delta).pitchAngle),
        M.sin (glm.radians M (c.lookAround M delta).yawAngle) *
          M.cos (glm.radians M (c.lookAround M delta).pitchAngle)⟩ := by
    show glm.normalize M _ = _
    exact glm.normalize_of_unit hM _ (spherical_unit hM _ _)
  have hf : glm.dot (c.lookAround M delta).frontVector (c.lookAround M delta).frontVector = 1 := by
    rw [hfront]; exact spherical_unit hM _ _
  -- the right vector
  have hright : (c.lookAround M delta).rightVector =
      glm.normalize M (glm.cross (c.lookAround M delta).frontVector ⟨0, 1, 0⟩) := rfl
  have hw : 0 < glm.dot (glm.cross (c.lookAround M delta).frontVector ⟨0, 1, 0⟩)
      (glm.cross (c.lookAround M delta).frontVector ⟨0, 1, 0⟩) := by
    have : glm.dot (glm.cross (c.lookAround M delta).frontVector ⟨0, 1, 0⟩)
        (glm.cross (c.lookAround M delta).frontVector ⟨0, 1, 0⟩) =
        M.cos (glm.radians M (c.lookAround M delta).pitchAngle) *
          M.cos (glm.radians M (c.lookAround M delta).pitchAngle) := by
      rw [hfront]
      simp only [glm.dot, glm.cross]
      linear_combination (M.cos (glm.radians M (c.lookAround M delta).pitchAngle) *
        M.cos (glm.radians M (c.lookAround M delta).pitchAngle)) * hy
    rw [this]
    exact mul_pos hcos hcos
  have hr : glm.dot (c.lookAround M delta).rightVector (c.lookAround M delta).rightVector = 1 := by
    rw [hright]; exact glm.normalize_unit hM _ hw
  have hfr : glm.dot (c.lookAround M delta).frontVector (c.lookAround M delta).rightVector = 0 := by
    rw [hright, glm.normalize_eq, glm.dot_scale_right, glm.dot_comm, glm.dot_cross_left]
    simp
  exact rightHanded_of hM _ _ hf hr hfr

theorem Camera.call_basis {M : LibM F} (hM : M.Exact) (c : Camera F) (k : Camera.Call F)
    (h : c.Basis) : (c.call M k).Basis := by
  cases k with
  | moveCamera d dt => exact Camera.moveCamera_basis c d dt h
  | lookAround delta => exact Camera.lookAround_basis hM c delta
  | resetPosition pos => exact Camera.resetPosition_basis hM c pos

theorem Camera.calls_basis {M : LibM F} (hM : M.Exact) (cs : List (Camera.Call F))
    (c : Camera F) (h : c.Basis) : (c.calls M cs).Basis := by
  induction cs generalizing c with
  | nil => exact h
  | cons k cs ih => exact ih (c.call M k) (Camera.call_basis hM c k h)

theorem Camera.call_pitch_mem (M : LibM F) (c : Camera F) (k : Camera.Call F)
    (h : -89 ≤ c.pitchAngle ∧ c.pitchAngle ≤ 89) :
    -89 ≤ (c.call M k).pitchAngle ∧ (c.call M k).pitchAngle ≤ 89 := by
  cases k with
  | moveCamera d dt => cases d <;> exact h
  | lookAround delta => exact Camera.lookAround_pitch_mem M c delta
  | resetPosition pos =>
    show (-89 : F) ≤ 0 ∧ (0 : F) ≤ 89
    constructor <;> norm_num

theorem Camera.calls_pitch_mem (M : LibM F) (cs : List (Camera.Call F)) (c : Camera F)
    (h : -89 ≤ c.pitchAngle ∧ c.pitchAngle ≤ 89) :
    -89 ≤ (c.calls M cs).pitchAngle ∧ (c.calls M cs).pitchAngle ≤ 89 := by
  induction cs generalizing c with
  | nil => exact h
  | cons k cs ih => exact ih (c.call M k) (Camera.call_pitch_mem M c k h)

/-! ### The claims on the billboard and on the camera -/

/-- C14, as stated, fails: the sample camera at `(0, 0, 5)` with up vector `(0, 1, 0)` and a
particle at `(0, 4, 5)` have distinct positions, yet the first column of the billboard
matrix (the right vector) is the zero vector, not a unit vector. -/
theorem billboard_matrix_counterexample :
    sampleCamera.position ≠ overheadParticle.position ∧
    (overheadParticle.computeBillBoardMatrix realMath sampleCamera).c0 = ⟨0, 0, 0, 0⟩ ∧
    glm.dot (overheadParticle.computeBillBoardMatrix realMath sampleCamera).c0.xyz
      (overheadParticle.computeBillBoardMatrix realMath sampleCamera).c0.xyz ≠ 1 := by
  have h0 : (overheadParticle.computeBillBoardMatrix realMath sampleCamera).c0 =
      ⟨0, 0, 0, 0⟩ := by
    simp [Particle.computeBillBoardMatrix, Camera.getPosition, Camera.getUpVector,
      sampleCamera, Camera.new, overheadParticle, fadingParticle, glm.normalize, glm.cross,
      glm.dot]
  refine ⟨?_, h0, ?_⟩
  · simp [sampleCamera, Camera.new, overheadParticle, fadingParticle]
  · rw [h0]
    simp [Vec4.xyz, glm.dot]

/-- C14, amended: when the positions are distinct and the camera up vector is not parallel
to the line from the particle to the camera, the first three columns of the billboard
matrix are mutually orthogonal unit vectors with `w = 0`, and the fourth column is the
particle position with `w = 1`. -/
theorem billboard_matrix_orthonormal {M : LibM F} (hM : M.Exact) (p : Particle F)
    (camera : Camera F) (_hdist : camera.position ≠ p.position)
    (hcross : glm.cross camera.upVector (camera.position - p.position) ≠ ⟨0, 0, 0⟩) :
    glm.dot (p.computeBillBoardMatrix M camera).c0.xyz
        (p.computeBillBoardMatrix M camera).c0.xyz = 1 ∧
    glm.dot (p.computeBillBoardMatrix M camera).c1.xyz
        (p.computeBillBoardMatrix M camera).c1.xyz = 1 ∧
    glm.dot (p.computeBillBoardMatrix M camera).c2.xyz
        (p.computeBillBoardMatrix M camera).c2.xyz = 1 ∧
    glm.dot (p.computeBillBoardMatrix M camera).c0.xyz
        (p.computeBillBoardMatrix M camera).c1.xyz = 0 ∧
    glm.dot (p.computeBillBoardMatrix M camera).c0.xyz
        (p.computeBillBoardMatrix M camera).c2.xyz = 0 ∧
    glm.dot (p.computeBillBoardMatrix M camera).c1.xyz
        (p.computeBillBoardMatrix M camera).c2.xyz = 0 ∧
    (p.computeBillBoardMatrix M camera).c0.w = 0 ∧
    (p.computeBillBoardMatrix M camera).c1.w = 0 ∧
    (p.computeBillBoardMatrix M camera).c2.w = 0 ∧
    (p.computeBillBoardMatrix M camera).c3 = ⟨p.position.x, p.position.y, p.position.z, 1⟩ := by
  -- the direction from the particle to the camera is not zero
  have hd : 0 < glm.dot (camera.position - p.position) (camera.position - p.position) := by
    apply glm.dot_self_pos
    intro h
    apply hcross
    rw [h]
    simp [glm.cross]
  have hk : 0 < 1 / M.sqrt (glm.dot (camera.position - p.position)
      (camera.position - p.position)) := one_div_pos.mpr (hM.sqrt_pos _ hd)
  -- the front vector
  have hfu : glm.dot (glm.normalize M (camera.position - p.position))
      (glm.normalize M (camera.position - p.position)) = 1 := glm.normalize_unit hM _ hd
  -- the vector that is normalized into the right vector
  have hc : 0 < glm.dot
      (glm.cross camera.upVector (glm.normalize M (camera.position - p.position)))
      (glm.cross camera.upVector (glm.normalize M (camera.position - p.position))) := by
    rw [glm.normalize_eq, glm.cross_scale_right, glm.dot_scale_left, glm.dot_scale_right]
    exact mul_pos (mul_pos (glm.dot_self_pos _ hcross) hk) hk
  have hru := glm.normalize_unit hM _ hc
  have hrf : glm.dot
      (glm.normalize M
        (glm.cross camera.upVector (glm.normalize M (camera.position - p.position))))
      (glm.normalize M (camera.position - p.position)) = 0 := by
    rw [glm.normalize_eq (v := glm.cross _ _), glm.dot_scale_left, glm.dot_cross_right]
    simp
  obtain ⟨h1, h2, h3, h4, h5, h6, -⟩ := rightHanded_of hM _ _ hru hfu hrf
  exact ⟨h1, h2, h3, h4, h5, h6, rfl, rfl, rfl, rfl⟩

/-- C14, amended, closed instance: the sample camera at `(0, 0, 5)` and a particle at the
origin. -/
theorem billboard_matrix_orthonormal_witness :
    glm.dot (fadingParticle.computeBillBoardMatrix realMath sampleCamera).c0.xyz
        (fadingParticle.computeBillBoardMatrix realMath sampleCamera).c0.xyz = 1 ∧
    glm.dot (fadingParticle.computeBillBoardMatrix realMath sampleCamera).c0.xyz
        (fadingParticle.computeBillBoardMatrix realMath sampleCamera).c1.xyz = 0 ∧
    (fadingParticle.computeBillBoardMatrix realMath sampleCamera).c3 = ⟨0, 0, 0, 1⟩ := by
  obtain ⟨h1, -, -, h4, -, -, -, -, -, h10⟩ :=
    billboard_matrix_orthonormal realMath_exact fadingParticle sampleCamera
      (by simp [sampleCamera, Camera.new, fadingParticle])
      (by simp [sampleCamera, Camera.new, fadingParticle, glm.cross])
  exact ⟨h1, h4, h10⟩

/-- C15: from the constructor, after every sequence of `moveCamera`, `lookAround` and
`resetPosition` calls (the empty one included) the pitch lies in `[-89, 89]`, for every
mouse delta and every sensitivity. -/
theorem camera_pitch_bound (M : LibM F) (position : Vec3 F)
    (fov nearClippingPlane farClippingPlane movementSpeed sensitivity : F)
    (cs : List (Camera.Call F)) :
    -89 ≤ ((Camera.new M position fov nearClippingPlane farClippingPlane movementSpeed
        sensitivity).calls M cs).pitchAngle ∧
    ((Camera.new M position fov nearClippingPlane farClippingPlane movementSpeed
        sensitivity).calls M cs).pitchAngle ≤ 89 := by
  apply Camera.calls_pitch_mem
  show (-89 : F) ≤ 0 ∧ (0 : F) ≤ 89
  constructor <;> norm_num

/-- C16: with exact math library functions, after construction and after every sequence
of `moveCamera`, `lookAround` and `resetPosition` calls, `front`, `up` and `right` are unit
length, pairwise orthogonal and `cross(front, up) = right`. -/
theorem camera_basis_invariant {M : LibM F} (hM : M.Exact) (position : Vec3 F)
    (fov nearClippingPlane farClippingPlane movementSpeed sensitivity : F)
    (cs : List (Camera.Call F)) :
    ((Camera.new M position fov nearClippingPlane farClippingPlane movementSpeed
        sensitivity).calls M cs).Basis :=
  Camera.calls_basis hM cs _ (Camera.new_basis hM _ _ _ _ _ _)

/-- C16, closed instance: the sample camera looks around, moves, is reset and looks around
again with a large mouse delta. -/
theorem camera_basis_invariant_witness :
    (sampleCamera.calls realMath
      [Camera.Call.lookAround ⟨10, 20⟩, Camera.Call.moveCamera CameraDirection.FRONT 1,
       Camera.Call.resetPosition ⟨1, 2, 3⟩, Camera.Call.lookAround ⟨-400, 10000⟩]).Basis :=
  camera_basis_invariant realMath_exact ⟨0, 0, 5⟩ 45 (1 / 10) 100 5 (1 / 10)
    [Camera.Call.lookAround ⟨10, 20⟩, Camera.Call.moveCamera CameraDirection.FRONT 1,
     Camera.Call.resetPosition ⟨1, 2, 3⟩, Camera.Call.lookAround ⟨-400, 10000⟩]

/-- C17: `lookAround` adds `dx * sensitivity` to the yaw; stores the pitch increased by
`dy * sensitivity` and clamped to `[-89, 89]`; rebuilds `front` by normalizing the spherical
formula `(cos y cos p, sin p, sin y cos p)` at the new angles converted to radians, that is
multiplied by `pi / 180`; then `right` as `normalize(cross(front, (0, 1, 0)))` and `up` as
`normalize(cross(right, front))` from the new `right` and `front`; the position is
unchanged.  Here `clamp(x, lo, hi)` is `min(max(x, lo), hi)`, `normalize(v)` is `v` times
`1 / sqrt(v . v)` and `cross` is the vector product. -/
theorem camera_look_spec (M : LibM F) (c : Camera F) (delta : Vec2 F) :
    (c.lookAround M delta).yawAngle = c.yawAngle + delta.x * c.sensitivity ∧
    (c.lookAround M delta).pitchAngle =
      glm.clamp (c.pitchAngle + delta.y * c.sensitivity) (-89) 89 ∧
    (c.lookAround M delta).frontVector =
      glm.normalize M
        ⟨M.cos ((c.yawAngle + delta.x * c.sensitivity) * (M.pi / 180)) *
            M.cos (min (max (c.pitchAngle + delta.y * c.sensitivity) (-89)) 89 * (M.pi / 180)),
          M.sin (min (max (c.pitchAngle + delta.y * c.sensitivity) (-89)) 89 * (M.pi / 180)),
          M.sin ((c.yawAngle + delta.x * c.sensitivity) * (M.pi / 180)) *
            M.cos (min (max (c.pitchAngle + delta.y * c.sensitivity) (-89)) 89 * (M.pi / 180))⟩ ∧
    (c.lookAround M delta).rightVector =
      glm.normalize M (glm.cross (c.lookAround M delta).frontVector ⟨0, 1, 0⟩) ∧
    (c.lookAround M delta).upVector =
      glm.normalize M
        (glm.cross (c.lookAround M delta).rightVector (c.lookAround M delta).frontVector) ∧
    (c.lookAround M delta).position = c.position ∧
    (∀ x lo hi : F, glm.clamp x lo hi = min (max x lo) hi) ∧
    (∀ v : Vec3 F, glm.normalize M v =
      ⟨v.x * (1 / M.sqrt (v.x * v.x + v.y * v.y + v.z * v.z)),
        v.y * (1 / M.sqrt (v.x * v.x + v.y * v.y + v.z * v.z)),
        v.z * (1 / M.sqrt (v.x * v.x + v.y * v.y + v.z * v.z))⟩) ∧
    (∀ a b : Vec3 F, glm.cross a b =
      ⟨a.y * b.z - a.z * b.y, a.z * b.x - a.x * b.z, a.x * b.y - a.y * b.x⟩) := by
  have hclamp : max (-89) (min 89 (c.pitchAngle + delta.y * c.sensitivity)) =
      min (max (c.pitchAngle + delta.y * c.sensitivity) (-89)) 89 := by
    rcases le_total (c.pitchAngle + delta.y * c.sensitivity) (-89) with h | h
    · rw [min_eq_right (by linarith), max_eq_left h, max_eq_right h, min_eq_left (by norm_num)]
    · rcases le_total (c.pitchAngle + delta.y * c.sensitivity) 89 with h2 | h2
      · rw [min_eq_right h2, max_eq_right h, max_eq_left h, min_eq_left h2]
      · rw [min_eq_left h2, max_eq_right (by norm_num), max_eq_left h, min_eq_right h2]
  refine ⟨rfl, hclamp, ?_, rfl, rfl, rfl, fun _ _ _ => rfl, fun _ => rfl, ?_⟩
  · rw [← hclamp]
    rfl
  · intro a b
    simp only [glm.cross]
    ext <;> simp only <;> ring

/-- C17, closed instance: the sample camera (yaw `-90`, pitch `0`, sensitivity `1/10`) and
the mouse delta `(900, 0)`: the yaw becomes `0`, the pitch stays `0`, and the basis becomes
`front = (1, 0, 0)`, `right = (0, 0, 1)`, `up = (0, 1, 0)`. -/
theorem camera_look_spec_witness :
    (sampleCamera.lookAround realMath ⟨900, 0⟩).yawAngle = 0 ∧
    (sampleCamera.lookAround realMath ⟨900, 0⟩).pitchAngle = 0 ∧
    (sampleCamera.lookAround realMath ⟨900, 0⟩).frontVector = ⟨1, 0, 0⟩ ∧
    (sampleCamera.lookAround realMath ⟨900, 0⟩).rightVector = ⟨0, 0, 1⟩ ∧
    (sampleCamera.lookAround realMath ⟨900, 0⟩).upVector = ⟨0, 1, 0⟩ ∧
    (sampleCamera.lookAround realMath ⟨900, 0⟩).position = ⟨0, 0, 5⟩ := by
  obtain ⟨h1, h2, h3, h4, h5, h6, -, h8, h9⟩ := camera_look_spec realMath sampleCamera ⟨900, 0⟩
  have hy : sampleCamera.yawAngle + (⟨900, 0⟩ : Vec2 ℝ).x * sampleCamera.sensitivity = 0 := by
    show (-90 : ℝ) + 900 * (1 / 10) = 0
    norm_num
  have hp : sampleCamera.pitchAngle + (⟨900, 0⟩ : Vec2 ℝ).y * sampleCamera.sensitivity = 0 := by
    show (0 : ℝ) + 0 * (1 / 10) = 0
    norm_num
  have hc : min (max (0 : ℝ) (-89)) 89 = 0 := by
    rw [max_eq_left (by norm_num), min_eq_left (by norm_num)]
  have hsqrt : realMath.sqrt 1 = 1 := Real.sqrt_one
  have hcos : realMath.cos 0 = 1 := Real.cos_zero
  have hsin : realMath.sin 0 = 0 := Real.sin_zero
  have hf : (sampleCamera.lookAround realMath ⟨900, 0⟩).frontVector = ⟨1, 0, 0⟩ := by
    rw [h3, hy, hp, hc, h8]
    simp [hsqrt, hcos, hsin]
  have hr : (sampleCamera.lookAround realMath ⟨900, 0⟩).rightVector = ⟨0, 0, 1⟩ := by
    rw [h4, hf, h9, h8]
    simp [hsqrt]
  have hu : (sampleCamera.lookAround realMath ⟨900, 0⟩).upVector = ⟨0, 1, 0⟩ := by
    rw [h5, hf, hr, h9, h8]
    simp [hsqrt]
  refine ⟨?_, ?_, hf, hr, hu, h6⟩
  · rw [h1, hy]
  · rw [h2, hp, glm.clamp, hc]

/-- C18: `moveCamera` adds `front * (movementSpeed * dt)` to the position for `FRONT`,
subtracts it for `BACK`, subtracts `right * (movementSpeed * dt)` for `LEFT` and adds it for
`RIGHT`; `front`, `right`, `up`, yaw and pitch are unchanged. -/
theorem camera_move_spec (c : Camera F) (dt : F) :
    (c.moveCamera CameraDirection.FRONT dt).position =
      c.position + c.frontVector * (c.movementSpeed * dt) ∧
    (c.moveCamera CameraDirection.BACK dt).position =
      c.position - c.frontVector * (c.movementSpeed * dt) ∧
    (c.moveCamera CameraDirection.LEFT dt).position =
      c.position - c.rightVector * (c.movementSpeed * dt) ∧
    (c.moveCamera CameraDirection.RIGHT dt).position =
      c.position + c.rightVector * (c.movementSpeed * dt) ∧
    ∀ d : CameraDirection,
      (c.moveCamera d dt).frontVector = c.frontVector ∧
      (c.moveCamera d dt).rightVector = c.rightVector ∧
      (c.moveCamera d dt).upVector = c.upVector ∧
      (c.moveCamera d dt).yawAngle = c.yawAngle ∧
      (c.moveCamera d dt).pitchAngle = c.pitchAngle := by
  refine ⟨?_, ?_, ?_, ?_, ?_⟩
  · simp only [Camera.moveCamera, mul_comm dt]
  · simp only [Camera.moveCamera, mul_comm dt]
  · simp only [Camera.moveCamera, mul_comm dt]
  · simp only [Camera.moveCamera, mul_comm dt]
  · intro d
    cases d <;> exact ⟨rfl, rfl, rfl, rfl, rfl⟩

/-- C19: with `sqrt(1) = 1`, after `resetPosition(p)` the position is `p`, the yaw is `-90`,
the pitch is `0`, `front = (0, 0, -1)`, `up = (0, 1, 0)` and `right = (1, 0, 0)`, which is
the orientation of every freshly constructed camera; `fov`, the clipping planes,
`movementSpeed` and `sensitivity` are unchanged. -/
theorem camera_reset_spec (M : LibM F) (hsqrt : M.sqrt 1 = 1) (c : Camera F)
    (p q : Vec3 F) (fov nearClippingPlane farClippingPlane movementSpeed sensitivity : F) :
    (c.resetPosition M p).position = p ∧
    (c.resetPosition M p).yawAngle = -90 ∧
    (c.resetPosition M p).pitchAngle = 0 ∧
    (c.resetPosition M p).frontVector = ⟨0, 0, -1⟩ ∧
    (c.resetPosition M p).upVector = ⟨0, 1, 0⟩ ∧
    (c.resetPosition M p).rightVector = ⟨1, 0, 0⟩ ∧
    ((c.resetPosition M p).yawAngle =
        (Camera.new M q fov nearClippingPlane farClippingPlane movementSpeed
          sensitivity).yawAngle ∧
      (c.resetPosition M p).pitchAngle =
        (Camera.new M q fov nearClippingPlane farClippingPlane movementSpeed
          sensitivity).pitchAngle ∧
      (c.resetPosition M p).frontVector =
        (Camera.new M q fov nearClippingPlane farClippingPlane movementSpeed
          sensitivity).frontVector ∧
      (c.resetPosition M p).upVector =
        (Camera.new M q fov nearClippingPlane farClippingPlane movementSpeed
          sensitivity).upVector ∧
      (c.resetPosition M p).rightVector =
        (Camera.new M q fov nearClippingPlane farClippingPlane movementSpeed
          sensitivity).rightVector) ∧
    (c.resetPosition M p).fov = c.fov ∧
    (c.resetPosition M p).nearClippingPlane = c.nearClippingPlane ∧
    (c.resetPosition M p).farClippingPlane = c.farClippingPlane ∧
    (c.resetPosition M p).movementSpeed = c.movementSpeed ∧
    (c.resetPosition M p).sensitivity = c.sensitivity :=
  ⟨rfl, rfl, rfl, rfl, rfl, canonical_right M hsqrt, ⟨rfl, rfl, rfl, rfl, rfl⟩,
    rfl, rfl, rfl, rfl, rfl⟩

/-- C19, closed instance: the sample camera, after looking around, is reset to
`(1, 2, 3)`. -/
theorem camera_reset_spec_witness :
    ((sampleCamera.lookAround realMath ⟨30, 40⟩).resetPosition realMath ⟨1, 2, 3⟩).position =
        ⟨1, 2, 3⟩ ∧
    ((sampleCamera.lookAround realMath ⟨30, 40⟩).resetPosition realMath ⟨1, 2, 3⟩).frontVector =
        ⟨0, 0, -1⟩ ∧
    ((sampleCamera.lookAround realMath ⟨30, 40⟩).resetPosition realMath ⟨1, 2, 3⟩).rightVector =
        ⟨1, 0, 0⟩ ∧
    ((sampleCamera.lookAround realMath ⟨30, 40⟩).resetPosition realMath ⟨1, 2, 3⟩).rightVector =
        sampleCamera.rightVector := by
  obtain ⟨h1, -, -, h4, -, h6, ⟨-, -, -, -, h7⟩, -⟩ :=
    camera_reset_spec realMath Real.sqrt_one (sampleCamera.lookAround realMath ⟨30, 40⟩)
      ⟨1, 2, 3⟩ ⟨0, 0, 5⟩ 45 (1 / 10) 100 5 (1 / 10)
  exact ⟨h1, h4, h6, h7⟩

/-- C20: for a camera that satisfies the basis invariant, with exact math library
functions, the view matrix maps the camera position to the origin and the point
`position + front` to `(0, 0, -1)` (both as points, with `w = 1`). -/
theorem view_matrix_look_at {M : LibM F} (hM : M.Exact) (c : Camera F) (hc : c.Basis) :
    (c.getViewMatrix M).mulVec ⟨c.position.x, c.position.y, c.position.z, 1⟩ =
      ⟨0, 0, 0, 1⟩ ∧
    (c.getViewMatrix M).mulVec
        ⟨(c.position + c.frontVector).x, (c.position + c.frontVector).y,
          (c.position + c.frontVector).z, 1⟩ = ⟨0, 0, -1, 1⟩ := by
  have hf : glm.dot c.frontVector c.frontVector = 1 := hc.1
  have hcenter : c.position + c.frontVector - c.position = c.frontVector := by
    simp only [Vec3.add_def, Vec3.sub_def, add_sub_cancel_left]
  have hfn : glm.normalize M (c.position + c.frontVector - c.position) = c.frontVector := by
    rw [hcenter]; exact glm.normalize_of_unit hM _ hf
  -- the side vector of the look-at frame is orthogonal to the front vector
  have hs : glm.dot (glm.normalize M (glm.cross c.frontVector c.upVector)) c.frontVector = 0 := by
    rw [glm.normalize_eq, glm.dot_scale_left, glm.dot_cross_left]
    simp
  have hu : glm.dot
      (glm.cross (glm.normalize M (glm.cross c.frontVector c.upVector)) c.frontVector)
      c.frontVector = 0 := glm.dot_cross_right _ _
  simp only [Camera.getViewMatrix, glm.lookAt, hfn]
  simp only [glm.dot] at hf hs hu
  constructor
  · simp only [Mat4.mulVec, glm.dot, Vec4.mk.injEq]
    refine ⟨by ring, by ring, by ring, by ring⟩
  · simp only [Mat4.mulVec, glm.dot, Vec3.add_def, Vec4.mk.injEq]
    refine ⟨?_, ?_, ?_, by ring⟩
    · linear_combination hs
    · linear_combination hu
    · linear_combination -hf

/-- C20, closed instance: the camera constructed at `(0, 0, 5)` with the default
orientation maps `(0, 0, 5)` to the origin and `(0, 0, 5) + front = (0, 0, 4)` to
`(0, 0, -1)`. -/
theorem view_matrix_look_at_witness :
    (sampleCamera.getViewMatrix realMath).mulVec ⟨0, 0, 5, 1⟩ = ⟨0, 0, 0, 1⟩ ∧
    (sampleCamera.getViewMatrix realMath).mulVec ⟨0, 0, 4, 1⟩ = ⟨0, 0, -1, 1⟩ := by
  have h := view_matrix_look_at realMath_exact sampleCamera
    (Camera.new_basis realMath_exact _ _ _ _ _ _)
  have e1 : (⟨sampleCamera.position.x, sampleCamera.position.y, sampleCamera.position.z, 1⟩ :
      Vec4 ℝ) = ⟨0, 0, 5, 1⟩ := rfl
  have e2 : (⟨(sampleCamera.position + sampleCamera.frontVector).x,
      (sampleCamera.position + sampleCamera.frontVector).y,
      (sampleCamera.position + sampleCamera.frontVector).z, 1⟩ : Vec4 ℝ) = ⟨0, 0, 4, 1⟩ := by
    simp only [sampleCamera, Camera.new, Vec3.add_def, Vec4.mk.injEq]
    norm_num
  rw [e1, e2] at h
  exact h

/-! ## Sampling: auxiliary facts -/

/-- The scalar `randomValue` written out: the draw, scaled to `[-1, 1]`, times the variance,
added to the base; the generator moves on by one draw. -/
theorem randomValue_eq (R : Nat) (b v : F) (g : RandSrc) :
    randomValue R b v g = (b + v * ((g 0 : F) / (R : F) * 2 - 1), fun n => g (n + 1)) :=
  rfl

/-- A draw in `[0, RAND_MAX]` divided by `RAND_MAX` lies in `[0, 1]`. -/
theorem unit_draw_mem (R r : Nat) (hR : 0 < R) (hr : r ≤ R) :
    0 ≤ (r : F) / (R : F) ∧ (r : F) / (R : F) ≤ 1 := by
  have hR' : (0 : F) < (R : F) := by exact_mod_cast hR
  have hr' : (r : F) ≤ (R : F) := by exact_mod_cast hr
  have h0 : (0 : F) ≤ (r : F) := by exact_mod_cast Nat.zero_le r
  exact ⟨div_nonneg h0 hR'.le, (div_le_one hR').mpr hr'⟩

/-- A draw in `[0, RAND_MAX]` scaled by `/ RAND_MAX * 2 - 1` lies in `[-1, 1]`. -/
theorem signed_draw_mem (R r : Nat) (hR : 0 < R) (hr : r ≤ R) :
    -1 ≤ (r : F) / (R : F) * 2 - 1 ∧ (r : F) / (R : F) * 2 - 1 ≤ 1 := by
  obtain ⟨h0, h1⟩ := unit_draw_mem (F := F) R r hR hr
  constructor <;> linarith

/-- A base plus a variance times a factor in `[-1, 1]` lies within `|variance|` of the
base. -/
theorem inRange_of_signed (b v u : F) (h1 : -1 ≤ u) (h2 : u ≤ 1) : InRange (b + v * u) b v := by
  have habs : |v * u| ≤ |v| := by
    rw [abs_mul]
    have hu : |u| ≤ 1 := abs_le.mpr ⟨h1, h2⟩
    calc |v| * |u| ≤ |v| * 1 := mul_le_mul_of_nonneg_left hu (abs_nonneg v)
      _ = |v| := mul_one _
  obtain ⟨h3, h4⟩ := abs_le.mp habs
  constructor <;> linarith

/-- What `spawnParticle` stamps on the addressed slot, draw by draw: `g 0 .. g 2` for the
position, `g 3 .. g 5` for the direction, `g 6` and `g 7` for the scales, `g 8 .. g 10` and
`g 11 .. g 13` for the two colours, `g 14` and `g 15` for the two alphas. -/
theorem ParticleSystem.spawnParticle_sampled (R index : Nat) (s : ParticleSystem F)
    (g : RandSrc) (h : index < s.particles.length) :
    ∃ s' g' q, s.spawnParticle R index g = some (s', g') ∧
      s' = { s with particles := s.particles.set index q } ∧
      s'.particles[index]? = some q ∧
      q.alive = true ∧ q.ttl = s.ttl ∧ q.liveTime = s.ttl ∧
      q.position =
        ⟨s.position.x + s.positionVariance.x * ((g 0 : F) / (R : F) * 2 - 1),
         s.position.y + s.positionVariance.y * ((g 1 : F) / (R : F) * 2 - 1),
         s.position.z + s.positionVariance.z * ((g 2 : F) / (R : F) * 2 - 1)⟩ ∧
      q.direction =
        ⟨s.direction.x + s.directionVariance.x * ((g 3 : F) / (R : F) * 2 - 1),
         s.direction.y + s.directionVariance.y * ((g 4 : F) / (R : F) * 2 - 1),
         s.direction.z + s.directionVariance.z * ((g 5 : F) / (R : F) * 2 - 1)⟩ ∧
      q.initialColor =
        ⟨glm.mix s.minBaseColor.x s.maxBaseColor.x ((g 8 : F) / (R : F)),
         glm.mix s.minBaseColor.y s.maxBaseColor.y ((g 9 : F) / (R : F)),
         glm.mix s.minBaseColor.z s.maxBaseColor.z ((g 10 : F) / (R : F))⟩ ∧
      q.finalColor =
        ⟨glm.mix s.minFinalColor.x s.maxFinalColor.x ((g 11 : F) / (R : F)),
         glm.mix s.minFinalColor.y s.maxFinalColor.y ((g 12 : F) / (R : F)),
         glm.mix s.minFinalColor.z s.maxFinalColor.z ((g 13 : F) / (R : F))⟩ ∧
      q.initialAlpha =
        glm.clamp (s.initialAlpha + s.alphaVariance * ((g 14 : F) / (R : F) * 2 - 1)) 0 1 ∧
      q.finalAlpha =
        glm.clamp (s.finalAlpha + s.alphaVariance * ((g 15 : F) / (R : F) * 2 - 1)) 0 1 := by
  unfold ParticleSystem.spawnParticle
  simp only [List.getElem?_eq_getElem h]
  refine ⟨_, _, _, rfl, rfl, ?_, rfl, rfl, rfl, rfl, rfl, rfl, rfl, rfl, rfl⟩
  rw [List.getElem?_set, if_pos rfl, if_pos h]

/-! ### The claims on the sampling of a respawned particle -/

/-- C21, as stated, fails: with colour ranges from black to white and a generator whose
draw for the red channel is `RAND_MAX` and whose draws for green and blue are `0`, the
respawned slot gets the initial colour `(1, 0, 0)`, which no single scalar produces on all
three channels. -/
theorem colour_single_interpolant_counterexample :
    (colourSystem.spawnParticle 32767 0 redRand).map
        (fun r => r.1.particles.map (fun q => q.initialColor)) = some [⟨1, 0, 0⟩] ∧
    ¬ ∃ t : ℚ, (⟨1, 0, 0⟩ : Vec3 ℚ) =
      ⟨0 + (1 - 0) * t, 0 + (1 - 0) * t, 0 + (1 - 0) * t⟩ := by
  constructor
  · obtain ⟨s', g', q, hrun, hs', -, -, -, -, -, -, hc, -⟩ :=
      ParticleSystem.spawnParticle_sampled (F := ℚ) 32767 0 colourSystem redRand
        (by simp [colourSystem, ParticleSystem.new, ParticleSystem.setColor])
    have hps : colourSystem.particles = [Particle.new rawParticle] := rfl
    have hq : q.initialColor = ⟨1, 0, 0⟩ := by
      rw [hc]
      simp [glm.mix, redRand, colourSystem, ParticleSystem.new, ParticleSystem.setColor]
    rw [hrun, hs']
    simp only [Option.map_some', hps, List.set_cons_zero, List.map_cons, List.map_nil, hq]
  · rintro ⟨t, ht⟩
    simp only [Vec3.mk.injEq] at ht
    obtain ⟨h1, h2, -⟩ := ht
    linarith

/-- C21, amended: with draws in `[0, RAND_MAX]`, every channel of the initial colour of a
respawned slot is `min + (max - min) * s` for a scalar `s` in `[0, 1]` of its own, the draw
of that channel divided by `RAND_MAX` (three draws, one per channel); likewise for the
final colour. -/
theorem colour_per_channel_interpolant (R index : Nat) (s : ParticleSystem F) (g : RandSrc)
    (h : index < s.particles.length) (hR : 0 < R) (hg : ∀ n, g n ≤ R) :
    ∃ s' g' q, s.spawnParticle R index g = some (s', g') ∧ s'.particles[index]? = some q ∧
      q.initialColor =
        ⟨s.minBaseColor.x + (s.maxBaseColor.x - s.minBaseColor.x) * ((g 8 : F) / (R : F)),
         s.minBaseColor.y + (s.maxBaseColor.y - s.minBaseColor.y) * ((g 9 : F) / (R : F)),
         s.minBaseColor.z + (s.maxBaseColor.z - s.minBaseColor.z) * ((g 10 : F) / (R : F))⟩ ∧
      q.finalColor =
        ⟨s.minFinalColor.x + (s.maxFinalColor.x - s.minFinalColor.x) * ((g 11 : F) / (R : F)),
         s.minFinalColor.y + (s.maxFinalColor.y - s.minFinalColor.y) * ((g 12 : F) / (R : F)),
         s.minFinalColor.z + (s.maxFinalColor.z - s.minFinalColor.z) * ((g 13 : F) / (R : F))⟩ ∧
      ∀ k, 0 ≤ (g k : F) / (R : F) ∧ (g k : F) / (R : F) ≤ 1 := by
  obtain ⟨s', g', q, hrun, -, hq, -, -, -, -, -, hc0, hc1, -⟩ :=
    ParticleSystem.spawnParticle_sampled R index s g h
  refine ⟨s', g', q, hrun, hq, ?_, ?_, fun k => unit_draw_mem R (g k) hR (hg k)⟩
  · rw [hc0]; simp only [glm.mix_eq]
  · rw [hc1]; simp only [glm.mix_eq]

/-- C21, amended, closed instance: the one-slot system with colours from black to white
and a generator that always draws `0`. -/
theorem colour_per_channel_interpolant_witness :
    ∃ s' g' q, colourSystem.spawnParticle 32767 0 zeroRand = some (s', g') ∧
      s'.particles[0]? = some q ∧ q.initialColor = ⟨0, 0, 0⟩ ∧ q.finalColor = ⟨0, 0, 0⟩ := by
  obtain ⟨s', g', q, hrun, hq, hc0, hc1, -⟩ :=
    colour_per_channel_interpolant (F := ℚ) 32767 0 colourSystem zeroRand
      (by simp [colourSystem, ParticleSystem.new, ParticleSystem.setColor])
      (by decide) (fun n => Nat.zero_le _)
  refine ⟨s', g', q, hrun, hq, ?_, ?_⟩
  · rw [hc0]; simp [colourSystem, ParticleSystem.new, ParticleSystem.setColor, zeroRand]
  · rw [hc1]; simp [colourSystem, ParticleSystem.new, ParticleSystem.setColor, zeroRand]

/-- C23: `setAplha` stores each of its three inputs clamped to `[0, 1]`; an input already in
`[0, 1]` is stored unchanged, and `initialAlpha = 1.5` with `variance = 0` is stored as `1`
and `0`. -/
theorem set_alpha_clamps (s : ParticleSystem F) (initialAlpha finalAlpha variance : F) :
    ((s.setAplha initialAlpha finalAlpha variance).initialAlpha = glm.clamp initialAlpha 0 1 ∧
      (s.setAplha initialAlpha finalAlpha variance).finalAlpha = glm.clamp finalAlpha 0 1 ∧
      (s.setAplha initialAlpha finalAlpha variance).alphaVariance = glm.clamp variance 0 1) ∧
    (∀ x : F, 0 ≤ glm.clamp x 0 1 ∧ glm.clamp x 0 1 ≤ 1) ∧
    (∀ x : F, 0 ≤ x → x ≤ 1 → glm.clamp x 0 1 = x) ∧
    ((s.setAplha (3 / 2) finalAlpha 0).initialAlpha = 1 ∧
      (s.setAplha (3 / 2) finalAlpha 0).alphaVariance = 0) := by
  refine ⟨⟨rfl, rfl, rfl⟩, fun x => glm.clamp_mem x 0 1 zero_le_one, ?_, ?_, ?_⟩
  · intro x h0 h1
    simp only [glm.clamp]
    rw [max_eq_left h0, min_eq_left h1]
  · show glm.clamp (3 / 2 : F) 0 1 = 1
    simp only [glm.clamp]
    rw [max_eq_left (by norm_num), min_eq_right (by norm_num)]
  · show glm.clamp (0 : F) 0 1 = 0
    simp [glm.clamp]

/-- C23, closed instance: over the rationals, `setAplha(1.5, 0.25, 0)` stores `1`, `0.25`
and `0`. -/
theorem set_alpha_clamps_witness :
    (rawSystem.setAplha (3 / 2) (1 / 4) 0).initialAlpha = 1 ∧
    (rawSystem.setAplha (3 / 2) (1 / 4) 0).finalAlpha = 1 / 4 ∧
    (rawSystem.setAplha (3 / 2) (1 / 4) 0).alphaVariance = 0 := by
  obtain ⟨⟨-, h2, -⟩, -, h4, h5, h6⟩ := set_alpha_clamps rawSystem (3 / 2) (1 / 4) 0
  refine ⟨h5, ?_, h6⟩
  rw [h2]
  exact h4 (1 / 4) (by norm_num) (by norm_num)

/-- C24: with draws in `[0, RAND_MAX]`, the alphas stamped on a respawned slot are
`clamp(base + variance * u, 0, 1)` for a draw `u` in `[-1, 1]` each, and both lie in
`[0, 1]`, whatever the emitter configuration. -/
theorem spawned_alpha_clamped (R index : Nat) (s : ParticleSystem F) (g : RandSrc)
    (h : index < s.particles.length) (hR : 0 < R) (hg : ∀ n, g n ≤ R) :
    ∃ s' g' q, s.spawnParticle R index g = some (s', g') ∧ s'.particles[index]? = some q ∧
      q.initialAlpha =
        glm.clamp (s.initialAlpha + s.alphaVariance * ((g 14 : F) / (R : F) * 2 - 1)) 0 1 ∧
      q.finalAlpha =
        glm.clamp (s.finalAlpha + s.alphaVariance * ((g 15 : F) / (R : F) * 2 - 1)) 0 1 ∧
      (-1 ≤ (g 14 : F) / (R : F) * 2 - 1 ∧ (g 14 : F) / (R : F) * 2 - 1 ≤ 1) ∧
      (-1 ≤ (g 15 : F) / (R : F) * 2 - 1 ∧ (g 15 : F) / (R : F) * 2 - 1 ≤ 1) ∧
      (0 ≤ q.initialAlpha ∧ q.initialAlpha ≤ 1) ∧ (0 ≤ q.finalAlpha ∧ q.finalAlpha ≤ 1) := by
  obtain ⟨s', g', q, hrun, -, hq, -, -, -, -, -, -, -, ha0, ha1⟩ :=
    ParticleSystem.spawnParticle_sampled R index s g h
  refine ⟨s', g', q, hrun, hq, ha0, ha1, signed_draw_mem R _ hR (hg 14),
    signed_draw_mem R _ hR (hg 15), ?_, ?_⟩
  · rw [ha0]; exact glm.clamp_mem _ 0 1 zero_le_one
  · rw [ha1]; exact glm.clamp_mem _ 0 1 zero_le_one

/-- C24, closed instance: base alphas `1` and `1/2` with variance `1` and a generator that
always draws `0` (so `u = -1`): the stamped alphas are `0` and `0`. -/
theorem spawned_alpha_clamped_witness :
    ∃ s' g' q, ((sampleSystem 1 1 1 5).setAplha 1 (1 / 2) 1).spawnParticle 32767 0 zeroRand =
        some (s', g') ∧ s'.particles[0]? = some q ∧ q.initialAlpha = 0 ∧ q.finalAlpha = 0 := by
  obtain ⟨s', g', q, hrun, hq, ha0, ha1, -⟩ :=
    spawned_alpha_clamped (F := ℚ) 32767 0 ((sampleSystem 1 1 1 5).setAplha 1 (1 / 2) 1)
      zeroRand (by simp [ParticleSystem.setAplha, sampleSystem_length]) (by decide)
      (fun n => Nat.zero_le _)
  refine ⟨s', g', q, hrun, hq, ?_, ?_⟩
  · rw [ha0]
    norm_num [ParticleSystem.setAplha, sampleSystem, ParticleSystem.setTTL,
      ParticleSystem.setParticleSpawns, ParticleSystem.new, glm.clamp, zeroRand]
  · rw [ha1]
    norm_num [ParticleSystem.setAplha, sampleSystem, ParticleSystem.setTTL,
      ParticleSystem.setParticleSpawns, ParticleSystem.new, glm.clamp, zeroRand]

/-- C25, as stated, fails for a negative variance: with `baseValue = 0`, `variance = -1` and
the draw `r = 0`, `randomValue` returns `1`, which is not in
`[baseValue - variance, baseValue + variance] = [1, -1]`. -/
theorem variance_range_counterexample :
    (zeroRand 0 ≤ 32767) ∧
    (randomValue 32767 (0 : ℚ) (-1) zeroRand).1 = 1 ∧
    ¬ ((0 : ℚ) - (-1) ≤ (randomValue 32767 (0 : ℚ) (-1) zeroRand).1 ∧
        (randomValue 32767 (0 : ℚ) (-1) zeroRand).1 ≤ 0 + (-1)) := by
  have hv : (randomValue 32767 (0 : ℚ) (-1) zeroRand).1 = 1 := by
    rw [randomValue_eq]
    simp [zeroRand]
  refine ⟨Nat.zero_le _, hv, ?_⟩
  rw [hv]
  norm_num

/-- C25, amended: with draws in `[0, RAND_MAX]`, `randomValue(baseValue, variance)` is
`baseValue + variance * (2 r / RAND_MAX - 1)` and lies within `|variance|` of `baseValue`;
the vector overload does this on every axis with a draw of its own, and every component of
the position and of the direction stamped on a respawned slot lies within `|variance|` of
its base. -/
theorem variance_range (R index : Nat) (b v : F) (bv vv : Vec3 F) (s : ParticleSystem F)
    (g : RandSrc) (h : index < s.particles.length) (hR : 0 < R) (hg : ∀ n, g n ≤ R) :
    ((randomValue R b v g).1 = b + v * (2 * (g 0 : F) / (R : F) - 1) ∧
      InRange (randomValue R b v g).1 b v) ∧
    ((randomValueVec R bv vv g).1 =
        ⟨bv.x + vv.x * (2 * (g 0 : F) / (R : F) - 1),
         bv.y + vv.y * (2 * (g 1 : F) / (R : F) - 1),
         bv.z + vv.z * (2 * (g 2 : F) / (R : F) - 1)⟩ ∧
      Vec3.InRange (randomValueVec R bv vv g).1 bv vv) ∧
    ∃ s' g' q, s.spawnParticle R index g = some (s', g') ∧ s'.particles[index]? = some q ∧
      Vec3.InRange q.position s.position s.positionVariance ∧
      Vec3.InRange q.direction s.direction s.directionVariance := by
  have hu : ∀ k, -1 ≤ (g k : F) / (R : F) * 2 - 1 ∧ (g k : F) / (R : F) * 2 - 1 ≤ 1 :=
    fun k => signed_draw_mem R (g k) hR (hg k)
  have hform : ∀ k, (g k : F) / (R : F) * 2 - 1 = 2 * (g k : F) / (R : F) - 1 := by
    intro k; ring
  have hin : ∀ (x y : F) k, InRange (x + y * ((g k : F) / (R : F) * 2 - 1)) x y :=
    fun x y k => inRange_of_signed x y _ (hu k).1 (hu k).2
  refine ⟨⟨?_, ?_⟩, ⟨?_, ?_⟩, ?_⟩
  · rw [randomValue_eq, hform]
  · rw [randomValue_eq]; exact hin b v 0
  · simp only [randomValueVec, randomValue_eq, hform]
  · simp only [randomValueVec, randomValue_eq]
    exact ⟨hin _ _ 0, hin _ _ 1, hin _ _ 2⟩
  · obtain ⟨s', g', q, hrun, -, hq, -, -, -, hpos, hdir, -⟩ :=
      ParticleSystem.spawnParticle_sampled R index s g h
    refine ⟨s', g', q, hrun, hq, ?_, ?_⟩
    · rw [hpos]; exact ⟨hin _ _ 0, hin _ _ 1, hin _ _ 2⟩
    · rw [hdir]; exact ⟨hin _ _ 3, hin _ _ 4, hin _ _ 5⟩

/-- C25, amended, closed instance: base `10`, variance `2` and the draw `0` give `8`, the
lower end of `[8, 12]`. -/
theorem variance_range_witness :
    (randomValue 32767 (10 : ℚ) 2 zeroRand).1 = 8 ∧
    InRange (randomValue 32767 (10 : ℚ) 2 zeroRand).1 10 2 := by
  obtain ⟨⟨h1, h2⟩, -, -⟩ :=
    variance_range (F := ℚ) 32767 0 10 2 zeroVec zeroVec (sampleSystem 1 1 1 5) zeroRand
      (by simp [sampleSystem_length]) (by decide) (fun n => Nat.zero_le _)
  refine ⟨?_, h2⟩
  rw [h1]
  norm_num [zeroRand]

/-! ## Ageing, rendered alpha, spawn clock, drawing and canonical orientation: auxiliary
facts -/

theorem Particle.update_alphas (p : Particle F) (dt : F) (f : Vec3 F) :
    (p.update dt f).initialAlpha = p.initialAlpha ∧ (p.update dt f).finalAlpha = p.finalAlpha := by
  by_cases h : p.ttl - dt > 0 <;> simp [Particle.update, h]

theorem Particle.updates_alphas (cs : List (F × Vec3 F)) (p : Particle F) :
    (p.updates cs).initialAlpha = p.initialAlpha ∧ (p.updates cs).finalAlpha = p.finalAlpha := by
  induction cs generalizing p with
  | nil => exact ⟨rfl, rfl⟩
  | cons c cs ih =>
    rw [Particle.updates_cons]
    obtain ⟨h1, h2⟩ := ih (p.update c.1 c.2)
    obtain ⟨h3, h4⟩ := Particle.update_alphas p c.1 c.2
    exact ⟨h1.trans h3, h2.trans h4⟩

/-- Mixing two values of `[0, 1]` with a weight of `[0, 1]` stays in `[0, 1]`. -/
theorem glm.mix_mem (x y a : F) (hx : 0 ≤ x ∧ x ≤ 1) (hy : 0 ≤ y ∧ y ≤ 1)
    (ha : 0 ≤ a ∧ a ≤ 1) : 0 ≤ glm.mix x y a ∧ glm.mix x y a ≤ 1 := by
  simp only [glm.mix]
  have h1 : 0 ≤ 1 - a := by linarith [ha.2]
  constructor
  · exact add_nonneg (mul_nonneg hx.1 h1) (mul_nonneg hy.1 ha.1)
  · have h2 : x * (1 - a) ≤ 1 * (1 - a) := mul_le_mul_of_nonneg_right hx.2 h1
    have h3 : y * a ≤ 1 * a := mul_le_mul_of_nonneg_right hy.2 ha.1
    linarith

/-- The update of a particle whose `ttl` exceeds the step: it stays alive and moves. -/
theorem Particle.update_of_pos (p : Particle F) (dt : F) (f : Vec3 F) (h : 0 < p.ttl - dt) :
    (p.update dt f).alive = true ∧
      (p.update dt f).position = p.position + p.direction * dt ∧
      (p.update dt f).direction = p.direction + f * dt := by
  have h' : p.ttl - dt > 0 := h
  simp [Particle.update, h']

/-- A slot that the next `update(dt)` does not respawn is updated in place with `dt` and the
global external force. -/
theorem ParticleSystem.update_slot_kept (R : Nat) (dt : F) (s : ParticleSystem F)
    (g : RandSrc) (j : Nat) (hinv : s.Inv) (h32 : s.maxAmountofParticles < 4294967296)
    (hj : j < s.maxAmountofParticles) (hnot : ¬ s.Respawns dt j) :
    ∃ s' g', s.update R dt g = some (s', g') ∧
      s'.particles[j]? = (s.particles[j]?).map (fun p => p.update dt s.globalExternalForce) := by
  by_cases hlt : s.timeSinceLastSpawn + dt < s.spawnInterval
  · refine ⟨_, _, ParticleSystem.update_of_lt R dt s g hinv.1 hlt, ?_⟩
    show (s.particles.map (fun p => p.update dt s.globalExternalForce))[j]? = _
    rw [List.getElem?_map]
  · have hge : s.spawnInterval ≤ s.timeSinceLastSpawn + dt := not_lt.mp hlt
    have hmiss : ¬ Hit s.maxAmountofParticles s.lastParticleSpawned s.particlesPerSpawn j :=
      fun hh => hnot ⟨hge, hh⟩
    obtain ⟨sb, gb, hsb, hframe, -, hlen, hslots⟩ :=
      ParticleSystem.spawnParticlesLoop_spec R s.particlesPerSpawn s g hinv h32
    have hN : sb.maxAmountofParticles = s.maxAmountofParticles := by rw [hframe]
    have hf : sb.globalExternalForce = s.globalExternalForce := by rw [hframe]
    have hlenb : sb.particles.length = sb.maxAmountofParticles := by
      rw [hlen, hN]; exact hinv.1
    obtain ⟨q, hq, -, hkept⟩ := hslots j hj
    refine ⟨_, _, ParticleSystem.update_of_ge R dt s sb g gb hsb hlenb hge, ?_⟩
    show (sb.particles.map (fun p => p.update dt sb.globalExternalForce))[j]? = _
    rw [List.getElem?_map, hq, hkept hmiss, hf]

/-- A setter of the emitter configuration succeeds, leaves the generator, the pool, the
global force, the capacity and the invariant as they are. -/
theorem ParticleSystem.call_emitterSetter (R : Nat) (s : ParticleSystem F) (g : RandSrc)
    (c : ParticleSystem.Call F) (hc : c.isEmitterSetter = true) (hinv : s.Inv) :
    ∃ s1, s.call R g c = some (s1, g) ∧ s1.particles = s.particles ∧
      s1.globalExternalForce = s.globalExternalForce ∧
      s1.maxAmountofParticles = s.maxAmountofParticles ∧ s1.Inv := by
  cases c with
  | setParticleSpawns n iv => exact ⟨_, rfl, rfl, rfl, rfl, hinv⟩
  | setTTL t => exact ⟨_, rfl, rfl, rfl, rfl, hinv⟩
  | setPosition a v => exact ⟨_, rfl, rfl, rfl, rfl, hinv⟩
  | setDirection a v => exact ⟨_, rfl, rfl, rfl, rfl, hinv⟩
  | setScale a b v => exact ⟨_, rfl, rfl, rfl, rfl, hinv⟩
  | setColor a b c d => exact ⟨_, rfl, rfl, rfl, rfl, hinv⟩
  | setAplha a b v => exact ⟨_, rfl, rfl, rfl, rfl, hinv⟩
  | setGlobalExternalForce f => exact absurd hc (by simp [ParticleSystem.Call.isEmitterSetter])
  | update dt => exact absurd hc (by simp [ParticleSystem.Call.isEmitterSetter])

/-- The spawn clock after an `update(dt)` that returns: `0` when the increased clock
reaches the spawn interval, the increased clock otherwise. -/
theorem ParticleSystem.update_clock (R : Nat) (dt : F) (s s' : ParticleSystem F)
    (g g' : RandSrc) (h : s.update R dt g = some (s', g')) :
    s'.timeSinceLastSpawn =
      if s.spawnInterval ≤ s.timeSinceLastSpawn + dt then 0 else s.timeSinceLastSpawn + dt := by
  unfold ParticleSystem.update at h
  by_cases hge : s.spawnInterval ≤ s.timeSinceLastSpawn + dt
  · have hge' : s.timeSinceLastSpawn + dt ≥ s.spawnInterval := hge
    simp only [hge', if_true] at h
    rw [if_pos hge]
    cases hsp : ParticleSystem.spawnParticles R
        { s with timeSinceLastSpawn := s.timeSinceLastSpawn + dt } g with
    | none => rw [hsp] at h; cases h
    | some r =>
      rw [hsp] at h
      simp only at h
      cases hloop : ParticleSystem.updateLoop dt r.1.globalExternalForce
          r.1.maxAmountofParticles 0 r.1.particles with
      | none => rw [hloop] at h; cases h
      | some ps =>
        rw [hloop] at h
        injection h with h1
        injection h1 with h2 h3
        rw [← h2]
  · have hge' : ¬ (s.timeSinceLastSpawn + dt ≥ s.spawnInterval) := hge
    simp only [hge', if_false] at h
    rw [if_neg hge]
    cases hloop : ParticleSystem.updateLoop dt s.globalExternalForce
        s.maxAmountofParticles 0 s.particles with
    | none => rw [hloop] at h; cases h
    | some ps =>
      rw [hloop] at h
      injection h with h1
      injection h1 with h2 h3
      rw [← h2]

/-- A call with a step that is not negative keeps the spawn clock from going negative. -/
theorem ParticleSystem.call_clock_nonneg (R : Nat) (s s' : ParticleSystem F) (g g' : RandSrc)
    (c : ParticleSystem.Call F) (h : s.call R g c = some (s', g')) (hc : c.nonnegStep)
    (hs : 0 ≤ s.timeSinceLastSpawn) : 0 ≤ s'.timeSinceLastSpawn := by
  cases c with
  | update dt =>
    have hdt : 0 ≤ dt := hc
    rw [ParticleSystem.update_clock R dt s s' g g' h]
    split
    · exact le_rfl
    · exact add_nonneg hs hdt
  | setParticleSpawns n iv =>
    simp only [ParticleSystem.call, Option.some.injEq, Prod.mk.injEq] at h
    rw [← h.1]; exact hs
  | setTTL t =>
    simp only [ParticleSystem.call, Option.some.injEq, Prod.mk.injEq] at h
    rw [← h.1]; exact hs
  | setPosition a v =>
    simp only [ParticleSystem.call, Option.some.injEq, Prod.mk.injEq] at h
    rw [← h.1]; exact hs
  | setDirection a v =>
    simp only [ParticleSystem.call, Option.some.injEq, Prod.mk.injEq] at h
    rw [← h.1]; exact hs
  | setScale a b v =>
    simp only [ParticleSystem.call, Option.some.injEq, Prod.mk.injEq] at h
    rw [← h.1]; exact hs
  | setColor a b c d =>
    simp only [ParticleSystem.call, Option.some.injEq, Prod.mk.injEq] at h
    rw [← h.1]; exact hs
  | setAplha a b v =>
    simp only [ParticleSystem.call, Option.some.injEq, Prod.mk.injEq] at h
    rw [← h.1]; exact hs
  | setGlobalExternalForce f =>
    simp only [ParticleSystem.call, Option.some.injEq, Prod.mk.injEq] at h
    rw [← h.1]; exact hs

/-- A sequence of calls with steps that are not negative keeps the spawn clock from going
negative. -/
theorem ParticleSystem.calls_clock_nonneg (R : Nat) (cs : List (ParticleSystem.Call F))
    (s s' : ParticleSystem F) (g g' : RandSrc) (h : s.calls R g cs = some (s', g'))
    (hcs : ∀ c ∈ cs, c.nonnegStep) (hs : 0 ≤ s.timeSinceLastSpawn) :
    0 ≤ s'.timeSinceLastSpawn := by
  induction cs generalizing s g with
  | nil =>
    simp only [ParticleSystem.calls, Option.some.injEq, Prod.mk.injEq] at h
    rw [← h.1]; exact hs
  | cons c cs ih =>
    simp only [ParticleSystem.calls] at h
    cases hcall : s.call R g c with
    | none => rw [hcall] at h; cases h
    | some r =>
      rw [hcall] at h
      exact ih r.1 r.2 h (fun d hd => hcs d (List.mem_cons_of_mem _ hd))
        (ParticleSystem.call_clock_nonneg R s r.1 g r.2 c hcall
          (hcs c (List.mem_cons_self _ _)) hs)

/-! ### The canonical orientation under a rounded constant `pi` -/

/-- A vector of unit length is its own normalization as soon as `sqrt(1) = 1`. -/
theorem glm.normalize_of_dot_one (M : LibM F) (hsqrt : M.sqrt 1 = 1) (v : Vec3 F)
    (hv : glm.dot v v = 1) : glm.normalize M v = v := by
  rw [glm.normalize_eq, hv, hsqrt]
  simp

/-- On a camera with yaw `-90` and pitch `0`, `lookAround((0, 0))` keeps everything but the
basis, and stores `front = (cos r, 0, sin r)`, `right = (-sin r, 0, cos r)` and
`up = (0, 1, 0)` for `r = radians(-90) = -p / 2`. -/
theorem Camera.lookAround_canonical (p : ℝ) (c : Camera ℝ)
    (hy : c.yawAngle = -90) (hp : c.pitchAngle = 0) :
    c.lookAround (realMathPi p) ⟨0, 0⟩ =
      { c with
        frontVector := ⟨Real.cos (p / 2), 0, -Real.sin (p / 2)⟩
        rightVector := ⟨Real.sin (p / 2), 0, Real.cos (p / 2)⟩
        upVector := ⟨0, 1, 0⟩ } := by
  have hsqrt : (realMathPi p).sqrt 1 = 1 := Real.sqrt_one
  have hcs := Real.cos_sq_add_sin_sq (p / 2)
  have hyaw : glm.radians (realMathPi p) (-90) = -(p / 2) := by
    simp only [glm.radians, realMathPi]; ring
  have hpitch : glm.radians (realMathPi p) 0 = 0 := by
    simp only [glm.radians]; ring
  have hclamp : max (-89 : ℝ) (min 89 0) = 0 := by
    rw [min_eq_right (by norm_num), max_eq_right (by norm_num)]
  have hspherical : (⟨(realMathPi p).cos (-(p / 2)) * (realMathPi p).cos 0,
      (realMathPi p).sin 0, (realMathPi p).sin (-(p / 2)) * (realMathPi p).cos 0⟩ : Vec3 ℝ) =
      ⟨Real.cos (p / 2), 0, -Real.sin (p / 2)⟩ := by
    simp [realMathPi]
  have hfront : glm.normalize (realMathPi p)
      (⟨Real.cos (p / 2), 0, -Real.sin (p / 2)⟩ : Vec3 ℝ) =
      ⟨Real.cos (p / 2), 0, -Real.sin (p / 2)⟩ := by
    apply glm.normalize_of_dot_one _ hsqrt
    simp only [glm.dot]; nlinarith
  have hcross1 : glm.cross (⟨Real.cos (p / 2), 0, -Real.sin (p / 2)⟩ : Vec3 ℝ) ⟨0, 1, 0⟩ =
      ⟨Real.sin (p / 2), 0, Real.cos (p / 2)⟩ := by
    simp [glm.cross]
  have hright : glm.normalize (realMathPi p)
      (⟨Real.sin (p / 2), 0, Real.cos (p / 2)⟩ : Vec3 ℝ) =
      ⟨Real.sin (p / 2), 0, Real.cos (p / 2)⟩ := by
    apply glm.normalize_of_dot_one _ hsqrt
    simp only [glm.dot]; nlinarith
  have hcross2 : glm.cross (⟨Real.sin (p / 2), 0, Real.cos (p / 2)⟩ : Vec3 ℝ)
      ⟨Real.cos (p / 2), 0, -Real.sin (p / 2)⟩ = ⟨0, 1, 0⟩ := by
    simp only [glm.cross]
    ext
    · simp
    · simp only; nlinarith
    · simp
  have hup : glm.normalize (realMathPi p) (⟨0, 1, 0⟩ : Vec3 ℝ) = ⟨0, 1, 0⟩ := by
    apply glm.normalize_of_dot_one _ hsqrt
    simp [glm.dot]
  simp only [Camera.lookAround, hy, hp, zero_mul, add_zero, hclamp, hyaw, hpitch, hspherical,
    hfront, hcross1, hright, hcross2, hup]

/-- The cosine of `p / 2` is within half of `|p - pi|` of zero, and the sine within the
same distance of one. -/
theorem half_angle_near (p : ℝ) :
    |Real.cos (p / 2)| ≤ |p - Real.pi| / 2 ∧ |Real.sin (p / 2) - 1| ≤ |p - Real.pi| / 2 := by
  have hc : Real.cos (p / 2) = -Real.sin ((p - Real.pi) / 2) := by
    rw [← Real.cos_add_pi_div_two]; congr 1; ring
  have hs : Real.sin (p / 2) = Real.cos ((p - Real.pi) / 2) := by
    rw [← Real.sin_add_pi_div_two]; congr 1; ring
  have ht : |(p - Real.pi) / 2| = |p - Real.pi| / 2 := by
    rw [abs_div]; norm_num
  constructor
  · rw [hc, abs_neg, ← ht]
    exact Real.abs_sin_le_abs
  · rw [hs, ← ht]
    set t := (p - Real.pi) / 2
    have h1 : Real.cos t ≤ 1 := Real.cos_le_one t
    have h2 : -1 ≤ Real.cos t := Real.neg_one_le_cos t
    have h3 : 1 - t ^ 2 / 2 ≤ Real.cos t := Real.one_sub_sq_div_two_le_cos
    rw [abs_sub_comm, abs_of_nonneg (by linarith)]
    rcases le_or_lt |t| 2 with h | h
    · have h4 : t ^ 2 = |t| ^ 2 := (sq_abs t).symm
      have h5 : 0 ≤ |t| := abs_nonneg t
      nlinarith
    · linarith


theorem Vec3.near_mono {tol tol' : F} (h : tol ≤ tol') (a b : Vec3 F) (hab : Vec3.Near tol a b) :
    Vec3.Near tol' a b :=
  ⟨hab.1.trans h, hab.2.1.trans h, hab.2.2.trans h⟩

theorem Camera.sameUpTo_mono {tol tol' : F} (h : tol ≤ tol') (a b : Camera F)
    (hab : Camera.SameUpTo tol a b) : Camera.SameUpTo tol' a b :=
  ⟨hab.1, hab.2.1, hab.2.2.1, hab.2.2.2.1, Vec3.near_mono h _ _ hab.2.2.2.2.1,
    Vec3.near_mono h _ _ hab.2.2.2.2.2⟩

/-- On a camera in the canonical orientation, `lookAround((0, 0))` moves the components of
`front` and `right` by at most half of `|p - pi|`, and nothing else. -/
theorem Camera.lookAround_canonical_near (p : ℝ) (c : Camera ℝ)
    (hy : c.yawAngle = -90) (hp : c.pitchAngle = 0) (hf : c.frontVector = ⟨0, 0, -1⟩)
    (hr : c.rightVector = ⟨1, 0, 0⟩) (hu : c.upVector = ⟨0, 1, 0⟩) :
    Camera.SameUpTo (|p - Real.pi| / 2) (c.lookAround (realMathPi p) ⟨0, 0⟩) c := by
  obtain ⟨h1, h2⟩ := half_angle_near p
  have h0 : (0 : ℝ) ≤ |p - Real.pi| / 2 := by positivity
  rw [Camera.lookAround_canonical p c hy hp]
  refine ⟨rfl, rfl, rfl, hu.symm, ?_, ?_⟩
  · rw [hf]
    refine ⟨?_, ?_, ?_⟩
    · simpa using h1
    · simpa using h0
    · have : -Real.sin (p / 2) - -1 = -(Real.sin (p / 2) - 1) := by ring
      show |-Real.sin (p / 2) - -1| ≤ _
      rw [this, abs_neg]; exact h2
  · rw [hr]
    refine ⟨?_, ?_, ?_⟩
    · exact h2
    · simpa using h0
    · simpa using h1

/-- The calls of `Particle::draw` contain no `glDrawArrays`. -/
theorem Particle.draw_filter_drawArrays (M : LibM F) (p : Particle F) (camera : Camera F) :
    (p.draw M camera).filter RenderCall.isDrawArrays = [] := by
  cases h : p.alive <;> simp [Particle.draw, h, RenderCall.isDrawArrays]

/-- The loop of `ParticleSystem::draw` issues one `glDrawArrays` per iteration, whatever the
slots hold. -/
theorem ParticleSystem.drawLoop_count (M : LibM F) (camera : Camera F) (n i : Nat)
    (ps : List (Particle F)) (h : i + n ≤ ps.length) :
    ∃ cs, ParticleSystem.drawLoop M camera n i ps = some cs ∧
      (cs.filter RenderCall.isDrawArrays).length = n := by
  induction n generalizing i with
  | zero => exact ⟨[], rfl, rfl⟩
  | succ n ih =>
    have hi : i < ps.length := by omega
    obtain ⟨rest, hrest, hcount⟩ := ih (i + 1) (by omega)
    refine ⟨ps[i].draw M camera ++ RenderCall.drawArrays 0 4 :: rest, ?_, ?_⟩
    · simp only [ParticleSystem.drawLoop, List.getElem?_eq_getElem hi, hrest]
    · rw [List.filter_append, Particle.draw_filter_drawArrays]
      simp [RenderCall.isDrawArrays, hcount]

/-- On every pool of `N` slots `ParticleSystem::draw` issues exactly `N` `glDrawArrays`
calls, one per slot, alive or dead. -/
theorem ParticleSystem.draw_count (M : LibM F) (s : ParticleSystem F) (camera : Camera F)
    (quadVAO : Nat) (hlen : s.particles.length = s.maxAmountofParticles) :
    ∃ cs, s.draw M camera quadVAO = some cs ∧
      (cs.filter RenderCall.isDrawArrays).length = s.maxAmountofParticles := by
  obtain ⟨body, hbody, hcount⟩ :=
    ParticleSystem.drawLoop_count M camera s.maxAmountofParticles 0 s.particles (by omega)
  refine ⟨RenderCall.bindVertexArray quadVAO :: body ++ [RenderCall.bindVertexArray 0], ?_, ?_⟩
  · simp only [ParticleSystem.draw, hbody]
  · simp [List.filter_cons, List.filter_append, RenderCall.isDrawArrays, hcount]

/-! ### The claims on drawing and on the ageing of respawned particles -/

/-- C22, evaluated where the code departs from it: on a freshly constructed pool of two
slots, both dead, `draw` binds the quad, issues two `glDrawArrays` calls with no uniform
bound before them, and unbinds; the pool has no live slot. -/
theorem draw_on_dead_pool (M : LibM F) (camera : Camera F) (quadVAO : Nat)
    (raw : ParticleSystem F) (rawSlot : Nat → Particle F) :
    ((ParticleSystem.new 2 raw rawSlot).particles.filter (fun p => p.alive)).length = 0 ∧
    (ParticleSystem.new 2 raw rawSlot).draw M camera quadVAO =
      some [RenderCall.bindVertexArray quadVAO, RenderCall.drawArrays 0 4,
        RenderCall.drawArrays 0 4, RenderCall.bindVertexArray 0] ∧
    ((ParticleSystem.new 2 raw rawSlot).draw M camera quadVAO).map
      (fun cs => (cs.filter RenderCall.isDrawArrays).length) = some 2 := by
  have hps : (ParticleSystem.new 2 raw rawSlot).particles =
      [Particle.new (rawSlot 0), Particle.new (rawSlot 1)] := rfl
  have hdraw : (ParticleSystem.new 2 raw rawSlot).draw M camera quadVAO =
      some [RenderCall.bindVertexArray quadVAO, RenderCall.drawArrays 0 4,
        RenderCall.drawArrays 0 4, RenderCall.bindVertexArray 0] := by
    simp [ParticleSystem.draw, ParticleSystem.drawLoop, hps, Particle.draw, Particle.new,
      ParticleSystem.new]
  refine ⟨?_, hdraw, ?_⟩
  · rw [hps]
    simp [Particle.new]
  · rw [hdraw]
    simp [RenderCall.isDrawArrays]

/-- C27: in an `update(dt)` that performs a burst, every respawned slot is aged in the same
call.  With `q` the slot right after the burst (alive, `ttl` equal to the configured time to
live) and `q'` the slot when `update` returns: `q'.ttl` is the configured time to live minus
`dt`; if that is positive, `q'` is alive at the stamped position plus the stamped direction
times `dt`; if the configured time to live is at most `dt`, `q'` is dead. -/
theorem respawned_slot_aged (R : Nat) (dt : F) (s : ParticleSystem F) (g : RandSrc)
    (hinv : s.Inv) (h32 : s.maxAmountofParticles < 4294967296)
    (hburst : s.spawnInterval ≤ s.timeSinceLastSpawn + dt) :
    ∃ sb gb s', s.spawnParticles R g = some (sb, gb) ∧ s.update R dt g = some (s', gb) ∧
      ∀ j, j < s.maxAmountofParticles →
        (∃ i, i < s.particlesPerSpawn ∧
          (s.lastParticleSpawned + i) % s.maxAmountofParticles = j) →
        ∃ q q', sb.particles[j]? = some q ∧ s'.particles[j]? = some q' ∧
          q.alive = true ∧ q.ttl = s.ttl ∧
          q'.ttl = s.ttl - dt ∧
          (0 < s.ttl - dt → q'.alive = true ∧ q'.position = q.position + q.direction * dt) ∧
          (s.ttl ≤ dt → q'.alive = false) := by
  obtain ⟨sb, gb, hsb, hframe, -, hlen, hslots⟩ :=
    ParticleSystem.spawnParticlesLoop_spec R s.particlesPerSpawn s g hinv h32
  have hN : sb.maxAmountofParticles = s.maxAmountofParticles := by rw [hframe]
  have hlenb : sb.particles.length = sb.maxAmountofParticles := by
    rw [hlen, hN]; exact hinv.1
  refine ⟨sb, gb, _, hsb, ParticleSystem.update_of_ge R dt s sb g gb hsb hlenb hburst, ?_⟩
  intro j hj hhit
  obtain ⟨q, hq, hfresh, -⟩ := hslots j hj
  obtain ⟨ha, ht, -⟩ := hfresh hhit
  refine ⟨q, q.update dt sb.globalExternalForce, hq, ?_, ha, ht, ?_, ?_, ?_⟩
  · show (sb.particles.map (fun p => p.update dt sb.globalExternalForce))[j]? = _
    rw [List.getElem?_map, hq]
    rfl
  · rw [Particle.update_ttl, ht]
  · intro hpos
    have h := Particle.update_of_pos q dt sb.globalExternalForce (by rw [ht]; exact hpos)
    exact ⟨h.1, h.2.1⟩
  · intro hle
    rw [Particle.update_alive, ht]
    simpa using hle

/-- C27, closed instance: one slot, time to live `5`, `spawnInterval = 1` and `update(1)`:
the respawned slot returns with `ttl = 4`. -/
theorem respawned_slot_aged_witness :
    ∃ s' g' q', (sampleSystem 1 1 1 5).update 32767 1 zeroRand = some (s', g') ∧
      s'.particles[0]? = some q' ∧ q'.ttl = 4 ∧ q'.alive = true := by
  obtain ⟨sb, gb, s', -, hrun, hslots⟩ :=
    respawned_slot_aged (F := ℚ) 32767 1 (sampleSystem 1 1 1 5) zeroRand
      ⟨sampleSystem_length 1 1 1 5, by rw [sampleSystem_capacity]; exact Nat.zero_lt_one⟩
      (by rw [sampleSystem_capacity]; decide)
      (by norm_num [sampleSystem, ParticleSystem.new, ParticleSystem.setParticleSpawns,
        ParticleSystem.setTTL])
  obtain ⟨q, q', -, hq', -, -, ht, hpos, -⟩ :=
    hslots 0 (by rw [sampleSystem_capacity]; exact Nat.zero_lt_one) ⟨0, Nat.zero_lt_one, rfl⟩
  have httl : (sampleSystem 1 1 1 5).ttl = 5 := rfl
  rw [httl] at ht hpos
  refine ⟨s', gb, q', hrun, hq', ?_, (hpos (by norm_num)).1⟩
  rw [ht]; norm_num

/-- C28: for a slot respawned by `spawnParticle` with a configured time to live `> 0`, and
after any sequence of updates, every colour that `draw` sends has its alpha in `[0, 1]`;
and while the particle is alive `draw` does send a colour. -/
theorem rendered_alpha_mem (R index : Nat) (s : ParticleSystem F) (g : RandSrc)
    (M : LibM F) (camera : Camera F) (steps : List (F × Vec3 F))
    (h : index < s.particles.length) (_httl : 0 < s.ttl) :
    ∃ s' g' q, s.spawnParticle R index g = some (s', g') ∧ s'.particles[index]? = some q ∧
      (∀ v, RenderCall.setVec4 UniformName.color v ∈ (q.updates steps).draw M camera →
        0 ≤ v.w ∧ v.w ≤ 1) ∧
      ((q.updates steps).alive = true →
        ∃ v, RenderCall.setVec4 UniformName.color v ∈ (q.updates steps).draw M camera) := by
  obtain ⟨s', g', q, hrun, -, hq, -, -, -, -, -, -, -, ha0, ha1⟩ :=
    ParticleSystem.spawnParticle_sampled R index s g h
  have h0 : 0 ≤ q.initialAlpha ∧ q.initialAlpha ≤ 1 := by
    rw [ha0]; exact glm.clamp_mem _ 0 1 zero_le_one
  have h1 : 0 ≤ q.finalAlpha ∧ q.finalAlpha ≤ 1 := by
    rw [ha1]; exact glm.clamp_mem _ 0 1 zero_le_one
  obtain ⟨e0, e1⟩ := Particle.updates_alphas steps q
  have ht : 0 ≤ (q.updates steps).lifeFraction ∧ (q.updates steps).lifeFraction ≤ 1 :=
    glm.clamp_mem _ 0 1 zero_le_one
  have hmix := glm.mix_mem (q.updates steps).initialAlpha (q.updates steps).finalAlpha
    (q.updates steps).lifeFraction (by rw [e0]; exact h0) (by rw [e1]; exact h1) ht
  refine ⟨s', g', q, hrun, hq, ?_, ?_⟩
  · intro v hv
    by_cases halive : (q.updates steps).alive = true
    · simp only [Particle.draw, halive, Bool.not_true, Bool.false_eq_true, if_false,
        List.mem_cons, List.mem_singleton, RenderCall.setVec4.injEq, true_and,
        List.not_mem_nil, or_false, reduceCtorEq, false_or] at hv
      rw [hv]
      exact hmix
    · have hdead : (q.updates steps).alive = false := by simpa using halive
      simp [Particle.draw, hdead] at hv
  · intro halive
    simp only [Particle.draw, halive, Bool.not_true, Bool.false_eq_true, if_false]
    exact ⟨_, List.mem_cons_of_mem _ (List.mem_cons_of_mem _ (List.mem_singleton.mpr rfl))⟩

/-- C28, closed instance: the one-slot real system, the respawned slot updated once with
step `1`. -/
theorem rendered_alpha_mem_witness :
    ∃ s' g' q, realSystem.spawnParticle 32767 0 zeroRand = some (s', g') ∧
      s'.particles[0]? = some q ∧
      ∀ v, RenderCall.setVec4 UniformName.color v ∈
          (q.updates [(1, ⟨0, 0, 0⟩)]).draw realMath sampleCamera → 0 ≤ v.w ∧ v.w ≤ 1 := by
  obtain ⟨s', g', q, hrun, hq, hv, -⟩ :=
    rendered_alpha_mem 32767 0 realSystem zeroRand realMath sampleCamera [(1, ⟨0, 0, 0⟩)]
      (by simp [realSystem, ParticleSystem.new, ParticleSystem.setAplha, ParticleSystem.setTTL])
      (by simp [realSystem, ParticleSystem.new, ParticleSystem.setAplha, ParticleSystem.setTTL])
  exact ⟨s', g', q, hrun, hq, hv⟩

/-- C26, as stated, fails for `setGlobalExternalForce`: a live slot that moves along
`(1, 2, 3)` and is not respawned by `update(1)` ends with direction `(1, -8, 3)` when the
force `(0, -10, 0)` is set before the update, and with direction `(1, 2, 3)` without the
setter call. -/
theorem setter_retroactive_counterexample :
    driftSystem.particles.map (fun q => q.alive) = [true] ∧
    ¬ driftSystem.Respawns 1 0 ∧
    ¬ (driftSystem.setGlobalExternalForce ⟨0, -10, 0⟩).Respawns 1 0 ∧
    ((driftSystem.setGlobalExternalForce ⟨0, -10, 0⟩).update 32767 1 zeroRand).map
        (fun r => r.1.particles.map (fun q => q.direction)) = some [⟨1, -8, 3⟩] ∧
    (driftSystem.update 32767 1 zeroRand).map
        (fun r => r.1.particles.map (fun q => q.direction)) = some [⟨1, 2, 3⟩] := by
  have hlt : driftSystem.timeSinceLastSpawn + 1 < driftSystem.spawnInterval := by
    norm_num [driftSystem, rawSystem]
  have hlt' : (driftSystem.setGlobalExternalForce ⟨0, -10, 0⟩).timeSinceLastSpawn + 1 <
      (driftSystem.setGlobalExternalForce ⟨0, -10, 0⟩).spawnInterval := hlt
  refine ⟨rfl, fun h => absurd h.1 (not_le.mpr hlt), fun h => absurd h.1 (not_le.mpr hlt'),
    ?_, ?_⟩
  · rw [ParticleSystem.update_of_lt 32767 1 _ zeroRand rfl hlt']
    norm_num [driftSystem, rawSystem, ParticleSystem.setGlobalExternalForce, movingParticle,
      rawParticle, zeroVec, Particle.update]
  · rw [ParticleSystem.update_of_lt 32767 1 _ zeroRand rfl hlt]
    norm_num [driftSystem, rawSystem, movingParticle, rawParticle, zeroVec, Particle.update]

/-- C26, amended: for every setter of the emitter configuration (every setter except
`setGlobalExternalForce`), every pool state and every live slot that the next `update(dt)`
respawns neither after the setter call nor without it, the slot after the setter call and
`update(dt)` equals the slot after `update(dt)` alone. -/
theorem setters_not_retroactive (R : Nat) (dt : F) (s : ParticleSystem F) (g : RandSrc)
    (c : ParticleSystem.Call F) (j : Nat)
    (hinv : s.Inv) (h32 : s.maxAmountofParticles < 4294967296)
    (hc : c.isEmitterSetter = true) (hj : j < s.maxAmountofParticles)
    (_halive : ∃ p, s.particles[j]? = some p ∧ p.alive = true)
    (hnot : ¬ s.Respawns dt j)
    (hnot' : ∀ s1 g1, s.call R g c = some (s1, g1) → ¬ s1.Respawns dt j) :
    ∃ s1 g1 sA gA sB gB, s.call R g c = some (s1, g1) ∧
      s1.update R dt g1 = some (sA, gA) ∧ s.update R dt g = some (sB, gB) ∧
      sA.particles[j]? = sB.particles[j]? := by
  obtain ⟨s1, hcall, hps, hf, hN, hinv1⟩ := ParticleSystem.call_emitterSetter R s g c hc hinv
  obtain ⟨sA, gA, hA, hslotA⟩ :=
    ParticleSystem.update_slot_kept R dt s1 g j hinv1 (by rw [hN]; exact h32)
      (by rw [hN]; exact hj) (hnot' s1 g hcall)
  obtain ⟨sB, gB, hB, hslotB⟩ := ParticleSystem.update_slot_kept R dt s g j hinv h32 hj hnot
  refine ⟨s1, g, sA, gA, sB, gB, hcall, hA, hB, ?_⟩
  rw [hslotA, hslotB, hps, hf]

/-- C26, amended, closed instance: on the one-slot system with a live slot and a spawn
interval of `10`, `setTTL(99)` before `update(1)` does not change the slot. -/
theorem setters_not_retroactive_witness :
    ∃ s1 g1 sA gA sB gB,
      driftSystem.call 32767 zeroRand (ParticleSystem.Call.setTTL 99) = some (s1, g1) ∧
      s1.update 32767 1 g1 = some (sA, gA) ∧
      driftSystem.update 32767 1 zeroRand = some (sB, gB) ∧
      sA.particles[0]? = sB.particles[0]? := by
  have hlt : driftSystem.timeSinceLastSpawn + 1 < driftSystem.spawnInterval := by
    norm_num [driftSystem, rawSystem]
  exact setters_not_retroactive 32767 1 driftSystem zeroRand (ParticleSystem.Call.setTTL 99) 0
    ⟨rfl, Nat.zero_lt_one⟩ (by decide) rfl Nat.zero_lt_one ⟨_, rfl, rfl⟩
    (fun h => absurd h.1 (not_le.mpr hlt))
    (fun s1 g1 h1 h => by
      have : s1 = driftSystem.setTTL 99 := by
        have h2 : some (driftSystem.setTTL 99, zeroRand) = some (s1, g1) := h1
        injection h2 with h3
        injection h3 with h4
        exact h4.symm
      rw [this] at h
      exact absurd h.1 (not_le.mpr hlt))

/-! ### The claims on the spawn clock and on the canonical orientation -/

/-- C29: start from a freshly constructed system and perform any setters and any updates
with steps that are not negative.  If then `spawnInterval > 0` and `dt ≥ 0`, every
`update(dt)` that returns leaves the spawn clock in `[0, spawnInterval)`; and for a capacity
`N ≥ 1` the calls and the update do return. -/
theorem spawn_clock_bound (R N : Nat) (raw : ParticleSystem F) (rawSlot : Nat → Particle F)
    (g : RandSrc) (cs : List (ParticleSystem.Call F)) (dt : F)
    (hcs : ∀ c ∈ cs, c.nonnegStep) (hdt : 0 ≤ dt) :
    (∀ s1 g1 s2 g2, (ParticleSystem.new N raw rawSlot).calls R g cs = some (s1, g1) →
      0 < s1.spawnInterval → s1.update R dt g1 = some (s2, g2) →
      0 ≤ s2.timeSinceLastSpawn ∧ s2.timeSinceLastSpawn < s1.spawnInterval) ∧
    (1 ≤ N → N < 4294967296 →
      ∃ s1 g1 s2 g2, (ParticleSystem.new N raw rawSlot).calls R g cs = some (s1, g1) ∧
        s1.update R dt g1 = some (s2, g2)) := by
  constructor
  · intro s1 g1 s2 g2 hcalls hiv hupd
    have h1 : 0 ≤ s1.timeSinceLastSpawn :=
      ParticleSystem.calls_clock_nonneg R cs _ s1 g g1 hcalls hcs (le_refl (0 : F))
    rw [ParticleSystem.update_clock R dt s1 s2 g1 g2 hupd]
    split
    · exact ⟨le_rfl, hiv⟩
    · rename_i hlt
      exact ⟨add_nonneg h1 hdt, not_le.mp hlt⟩
  · intro hN h32
    obtain ⟨s1, g1, hcalls, hinv, hcap⟩ :=
      ParticleSystem.calls_inv R cs (ParticleSystem.new N raw rawSlot) g
        (ParticleSystem.new_inv N raw rawSlot hN) h32
    obtain ⟨s2, g2, hupd, -, -⟩ :=
      ParticleSystem.call_inv R s1 g1 (ParticleSystem.Call.update dt) hinv
        (by rw [hcap]; exact h32)
    exact ⟨s1, g1, s2, g2, hcalls, hupd⟩

/-- C29, closed instance: one slot, `spawnInterval = 1` set by `setParticleSpawns(1, 1)`,
then `update(1/2)`. -/
theorem spawn_clock_bound_witness :
    ∃ s2 g2, ((ParticleSystem.new 1 rawSystem (fun _ => rawParticle)).setParticleSpawns 1
        1).update 32767 (1 / 2) zeroRand = some (s2, g2) ∧
      0 ≤ s2.timeSinceLastSpawn ∧ s2.timeSinceLastSpawn < 1 := by
  obtain ⟨hbound, htotal⟩ :=
    spawn_clock_bound (F := ℚ) 32767 1 rawSystem (fun _ => rawParticle) zeroRand
      [ParticleSystem.Call.setParticleSpawns 1 1] (1 / 2)
      (by intro c hc; simp only [List.mem_singleton] at hc; rw [hc]; trivial) (by norm_num)
  obtain ⟨s1, g1, s2, g2, hcalls, hupd⟩ := htotal (le_refl 1) (by decide)
  have hs1 : some ((ParticleSystem.new 1 rawSystem (fun _ => rawParticle)).setParticleSpawns
      1 1, zeroRand) = some (s1, g1) := hcalls
  injection hs1 with h1
  injection h1 with h2 h3
  subst h2 h3
  exact ⟨s2, g2, hupd, hbound _ _ s2 g2 hcalls (by
    show (0 : ℚ) < 1
    norm_num) hupd⟩

/-- C30, as stated, fails in binary32.  The binary32 number nearest to `pi` is
`13176795 / 4194304`, and the source computes `radians(-90.0f)` as the binary32 product of
`-90` and the binary32 constant `0.0174532925...`, which is
`-13176795 / 8388608 = -1.5707964`, not `-pi / 2`.  With that angle, and even with exact
`sqrt`, `sin` and `cos`, `lookAround((0, 0))` on a freshly constructed camera stores a front
vector whose first component is about `-4.37e-8`, not `0`, so `front` and `right` change. -/
theorem canonical_orientation_counterexample :
    fl32 (314159265358979323846 / 100000000000000000000) = 13176795 / 4194304 ∧
    fl32 (-90 * fl32 (1745329251994329576923690768489 / 100000000000000000000000000000000)) =
      -(13176795 / 8388608) ∧
    glm.radians (realMathPi binary32Pi) (-90) = -(13176795 / 8388608) ∧
    binary32Camera.yawAngle = -90 ∧ binary32Camera.pitchAngle = 0 ∧
    binary32Camera.frontVector = ⟨0, 0, -1⟩ ∧ binary32Camera.rightVector = ⟨1, 0, 0⟩ ∧
    -(438 / 10 ^ 10) < (binary32Camera.lookAround (realMathPi binary32Pi) ⟨0, 0⟩).frontVector.x ∧
    (binary32Camera.lookAround (realMathPi binary32Pi) ⟨0, 0⟩).frontVector.x < -(437 / 10 ^ 10) ∧
    (binary32Camera.lookAround (realMathPi binary32Pi) ⟨0, 0⟩).rightVector.z < -(437 / 10 ^ 10) ∧
    (binary32Camera.lookAround (realMathPi binary32Pi) ⟨0, 0⟩).frontVector ≠
      binary32Camera.frontVector ∧
    (binary32Camera.lookAround (realMathPi binary32Pi) ⟨0, 0⟩).rightVector ≠
      binary32Camera.rightVector := by
  have hlook := Camera.lookAround_canonical binary32Pi binary32Camera rfl rfl
  have hright : binary32Camera.rightVector = ⟨1, 0, 0⟩ :=
    canonical_right (realMathPi binary32Pi) Real.sqrt_one
  -- the angle `t = (binary32Pi - pi) / 2` lies between `4.371e-8` and `4.372e-8`
  have hlo := Real.pi_gt_d20
  have hhi := Real.pi_lt_d20
  have hc : Real.cos (binary32Pi / 2) = -Real.sin ((binary32Pi - Real.pi) / 2) := by
    rw [← Real.cos_add_pi_div_two]; congr 1; ring
  have ht1 : (4371 / 10 ^ 11 : ℝ) < (binary32Pi - Real.pi) / 2 := by
    unfold binary32Pi; norm_num at hhi ⊢; linarith
  have ht2 : (binary32Pi - Real.pi) / 2 < (4372 / 10 ^ 11 : ℝ) := by
    unfold binary32Pi; norm_num at hlo ⊢; linarith
  have hpos : 0 < (binary32Pi - Real.pi) / 2 := lt_trans (by norm_num) ht1
  have hsin1 := Real.sin_lt hpos
  have hsin2 := Real.sin_gt_sub_cube hpos (by linarith)
  have hcube : ((binary32Pi - Real.pi) / 2) ^ 3 ≤ (4372 / 10 ^ 11 : ℝ) ^ 3 :=
    pow_le_pow_left₀ hpos.le ht2.le 3
  have hx1 : -(438 / 10 ^ 10 : ℝ) < Real.cos (binary32Pi / 2) := by
    rw [hc]; norm_num at ht2 ⊢; linarith
  have hx2 : Real.cos (binary32Pi / 2) < -(437 / 10 ^ 10 : ℝ) := by
    rw [hc]; norm_num at ht1 hcube ⊢; linarith
  have hfx : (binary32Camera.lookAround (realMathPi binary32Pi) ⟨0, 0⟩).frontVector.x =
      Real.cos (binary32Pi / 2) := by rw [hlook]
  have hrz : (binary32Camera.lookAround (realMathPi binary32Pi) ⟨0, 0⟩).rightVector.z =
      Real.cos (binary32Pi / 2) := by rw [hlook]
  refine ⟨by decide!, by decide!, ?_, rfl, rfl, rfl, hright, ?_, ?_, ?_, ?_, ?_⟩
  · simp only [glm.radians, realMathPi, binary32Pi]; norm_num
  · rw [hfx]; exact hx1
  · rw [hfx]; exact hx2
  · rw [hrz]; exact hx2
  · intro h
    have h' := congrArg Vec3.x h
    rw [hfx] at h'
    have h0 : binary32Camera.frontVector.x = 0 := rfl
    rw [h0] at h'
    rw [h'] at hx2
    norm_num at hx2
  · intro h
    have h' := congrArg Vec3.z h
    rw [hrz, hright] at h'
    rw [h'] at hx2
    norm_num at hx2


/-- C30, amended: take exact `sqrt`, `sin` and `cos` and any value `p` for the constant `pi`
behind `glm::radians`, so that `r = radians(-90)` is any angle.  A freshly constructed
camera and a freshly reset camera have yaw `-90`, pitch `0`, `front = (0, 0, -1)`,
`right = (1, 0, 0)` and `up = (0, 1, 0)`; on them `lookAround((0, 0))` leaves yaw, pitch,
position and `up` unchanged and stores `front = (cos r, 0, sin r)` and
`right = (-sin r, 0, cos r)`, and every component of the new `front` and `right` is within
`|r + pi / 2|`, the error of the converted angle, of the old one. -/
theorem canonical_orientation_near_fixed (p : ℝ) (c : Camera ℝ) (position q : Vec3 ℝ)
    (fov nearClippingPlane farClippingPlane movementSpeed sensitivity : ℝ) :
    ((Camera.new (realMathPi p) position fov nearClippingPlane farClippingPlane movementSpeed
        sensitivity).yawAngle = -90 ∧
      (Camera.new (realMathPi p) position fov nearClippingPlane farClippingPlane movementSpeed
        sensitivity).pitchAngle = 0 ∧
      (Camera.new (realMathPi p) position fov nearClippingPlane farClippingPlane movementSpeed
        sensitivity).frontVector = ⟨0, 0, -1⟩ ∧
      (Camera.new (realMathPi p) position fov nearClippingPlane farClippingPlane movementSpeed
        sensitivity).rightVector = ⟨1, 0, 0⟩ ∧
      (Camera.new (realMathPi p) position fov nearClippingPlane farClippingPlane movementSpeed
        sensitivity).upVector = ⟨0, 1, 0⟩) ∧
    Camera.SameUpTo |glm.radians (realMathPi p) (-90) + Real.pi / 2|
      ((Camera.new (realMathPi p) position fov nearClippingPlane farClippingPlane
        movementSpeed sensitivity).lookAround (realMathPi p) ⟨0, 0⟩)
      (Camera.new (realMathPi p) position fov nearClippingPlane farClippingPlane
        movementSpeed sensitivity) ∧
    ((Camera.new (realMathPi p) position fov nearClippingPlane farClippingPlane
        movementSpeed sensitivity).lookAround (realMathPi p) ⟨0, 0⟩).frontVector =
      ⟨Real.cos (glm.radians (realMathPi p) (-90)), 0,
        Real.sin (glm.radians (realMathPi p) (-90))⟩ ∧
    ((Camera.new (realMathPi p) position fov nearClippingPlane farClippingPlane
        movementSpeed sensitivity).lookAround (realMathPi p) ⟨0, 0⟩).rightVector =
      ⟨-Real.sin (glm.radians (realMathPi p) (-90)), 0,
        Real.cos (glm.radians (realMathPi p) (-90))⟩ ∧
    ((c.resetPosition (realMathPi p) q).yawAngle = -90 ∧
      (c.resetPosition (realMathPi p) q).pitchAngle = 0 ∧
      (c.resetPosition (realMathPi p) q).frontVector = ⟨0, 0, -1⟩ ∧
      (c.resetPosition (realMathPi p) q).rightVector = ⟨1, 0, 0⟩ ∧
      (c.resetPosition (realMathPi p) q).upVector = ⟨0, 1, 0⟩) ∧
    Camera.SameUpTo |glm.radians (realMathPi p) (-90) + Real.pi / 2|
      ((c.resetPosition (realMathPi p) q).lookAround (realMathPi p) ⟨0, 0⟩)
      (c.resetPosition (realMathPi p) q) ∧
    ((c.resetPosition (realMathPi p) q).lookAround (realMathPi p) ⟨0, 0⟩).frontVector =
      ⟨Real.cos (glm.radians (realMathPi p) (-90)), 0,
        Real.sin (glm.radians (realMathPi p) (-90))⟩ ∧
    ((c.resetPosition (realMathPi p) q).lookAround (realMathPi p) ⟨0, 0⟩).rightVector =
      ⟨-Real.sin (glm.radians (realMathPi p) (-90)), 0,
        Real.cos (glm.radians (realMathPi p) (-90))⟩ := by
  have hright : glm.normalize (realMathPi p) (glm.cross ⟨0, 0, -1⟩ ⟨0, 1, 0⟩) = ⟨1, 0, 0⟩ :=
    canonical_right (realMathPi p) Real.sqrt_one
  have hyaw : glm.radians (realMathPi p) (-90) = -(p / 2) := by
    simp only [glm.radians, realMathPi]; ring
  have hnew := Camera.lookAround_canonical p
    (Camera.new (realMathPi p) position fov nearClippingPlane farClippingPlane movementSpeed
      sensitivity) rfl rfl
  have hreset := Camera.lookAround_canonical p (c.resetPosition (realMathPi p) q) rfl rfl
  have htol : |-(p / 2) + Real.pi / 2| = |p - Real.pi| / 2 := by
    rw [show -(p / 2) + Real.pi / 2 = -((p - Real.pi) / 2) by ring, abs_neg, abs_div]
    norm_num
  rw [hyaw, Real.cos_neg, Real.sin_neg, neg_neg, htol]
  refine ⟨⟨rfl, rfl, rfl, hright, rfl⟩,
    Camera.lookAround_canonical_near p _ rfl rfl rfl hright rfl, ?_, ?_,
    ⟨rfl, rfl, rfl, hright, rfl⟩,
    Camera.lookAround_canonical_near p _ rfl rfl rfl hright rfl, ?_, ?_⟩
  · rw [hnew]
  · rw [hnew]
  · rw [hreset]
  · rw [hreset]

/-- C30, amended, closed instance: with the angle `-13176795 / 8388608` that binary32 gives
for `radians(-90)`, `lookAround((0, 0))` on the freshly constructed camera keeps yaw, pitch,
position and `up`, and moves no component of `front` and `right` by more than `1e-7`. -/
theorem canonical_orientation_near_fixed_witness :
    Camera.SameUpTo (1 / 10 ^ 7) (binary32Camera.lookAround (realMathPi binary32Pi) ⟨0, 0⟩)
      binary32Camera := by
  have hlo := Real.pi_gt_d20
  have hhi := Real.pi_lt_d20
  have htol : |glm.radians (realMathPi binary32Pi) (-90) + Real.pi / 2| ≤ 1 / 10 ^ 7 := by
    rw [abs_le]
    simp only [glm.radians, realMathPi, binary32Pi]
    constructor
    · norm_num at hhi ⊢; linarith
    · norm_num at hlo ⊢; linarith
  exact Camera.sameUpTo_mono htol _ _
    (canonical_orientation_near_fixed binary32Pi binary32Camera ⟨0, 0, 5⟩ ⟨0, 0, 5⟩ 45
      (1 / 10) 100 5 (1 / 10)).2.1

end ParticleSim
